import Mathlib

/-!
# A verification of the hashlife quadtree engine

This file gives a shallow embedding in Lean 4 of the hashlife Game-of-Life
engine found in `gol/src/universe.rs`, `hashlife/src/p3.rs`,
`hashlife/src/lib.rs` and `hashlife/src/basic_state.rs`, together with proofs
about it.  Machine integers (`isize`, `usize`, `u16`) are modelled by `Int`
and `Nat` (none of the involved quantities can overflow on 64-bit targets for
any input considered here: coordinates stay within the tree-depth budget and
the 16-bit bitmask is built by 16 shifts from 0).  The Rust `HashMap`s are
modelled by association lists, and `Vec` by `List`.  Iterative work-stack
loops of the source are rendered as the equivalent structural recursions;
this changes only the order in which fresh nodes are interned, never which
nodes exist nor any returned handle's meaning.
-/

set_option autoImplicit false

namespace GoL

/-- Centred coordinates, from `hashlife/src/p3.rs`: a node of depth `z`
spans cells with `y, x ∈ [-2^(z-1), 2^(z-1))`. -/
structure P3 where
  y : Int
  x : Int
  z : Nat
  deriving DecidableEq, Repr

namespace P3

/-- `P3::new`. -/
def new (y x : Int) (z : Nat) : P3 := ⟨y, x, z⟩

/-- `P3::origin`. -/
def origin (z : Nat) : P3 := ⟨0, 0, z⟩

/-- `P3::contains` from the source (`self.z`/`other.z` comparison, then a
range check on the relative coordinates). -/
def contains (self other : P3) : Bool :=
  if other.z ≥ self.z then
    decide (self = other)
  else
    let rel_y := other.y - self.y
    let rel_x := other.x - self.x
    let rel_z := self.z - other.z
    let w : Int := 2 ^ (rel_z - 1)
    decide (-w ≤ rel_y ∧ rel_y < w) && decide (-w ≤ rel_x ∧ rel_x < w)

/-- `P3::within_tree`: `y` and `x` are in the pyramid of height `z` about
`(0, 0)`. -/
def within_tree (p : P3) : Bool :=
  contains (origin p.z) ⟨p.y, p.x, 0⟩

/-- `P3::descend`.  Returns the child quadrant index (0 NW, 1 NE, 2 SW,
3 SE) picked by the signs of `y` and `x`, together with the updated
coordinate, or `none` at `z = 0`.  `w = (1 <<< z) / 4`, and at `z = 1` the
coordinate is reset to `(0, 0)`.  The source's single four-way match on
`(y, x)` is rendered as the index and the per-axis offsets (`dy = w` iff
`y < 0`, `dx = w` iff `x < 0`, exactly the source's table). -/
def descend (p : P3) : Option (Nat × P3) :=
  match p.z with
  | 0 => none
  | z + 1 =>
    let w : Int := ((2 ^ (z + 1)) / 4 : Nat)
    let i : Nat :=
      if p.y < 0 then (if p.x < 0 then 0 else 1)
      else (if p.x < 0 then 2 else 3)
    let dy : Int := if p.y < 0 then w else -w
    let dx : Int := if p.x < 0 then w else -w
    if z = 0 then some (i, ⟨0, 0, 0⟩)
    else some (i, ⟨p.y + dy, p.x + dx, z⟩)

theorem descend_z {p : P3} {i : Nat} {p' : P3} (h : p.descend = some (i, p')) :
    p.z = p'.z + 1 := by
  unfold descend at h
  cases hz : p.z with
  | zero => rw [hz] at h; simp at h
  | succ z =>
    rw [hz] at h
    simp only [] at h
    split at h <;>
      (rw [Option.some.injEq, Prod.mk.injEq] at h
       obtain ⟨-, h2⟩ := h
       subst h2
       simp_all)

/-- `P3::quadrants`.  The four centres of the subquadrants; `pos` is the
logical shift `(1 <<< z) >>> 2` and `neg` the arithmetic shift
`(-1 <<< z) >>> 2 = -⌈2^z / 4⌉`. -/
def quadrants (p : P3) : Option (P3 × P3 × P3 × P3) :=
  match p.z with
  | 0 => none
  | z + 1 =>
    let pos : Int := ((2 ^ (z + 1)) / 4 : Nat)
    let neg : Int := -(((2 ^ (z + 1) + 3) / 4 : Nat) : Int)
    some (⟨p.y + neg, p.x + neg, z⟩, ⟨p.y + neg, p.x + pos, z⟩,
          ⟨p.y + pos, p.x + neg, z⟩, ⟨p.y + pos, p.x + pos, z⟩)

end P3

/-- A stored node, from `gol/src/universe.rs`: `Tree::Leaf(bool)` or
`Tree::Branch([TreeRef; 4])`.  Handles (`TreeRef`) are indices into the
store's node vector, modelled as `Nat`. -/
inductive Tree where
  | leaf (alive : Bool)
  | branch (nw ne sw se : Nat)
  deriving DecidableEq, Repr

/-- The interned node store, from `gol/src/universe.rs`.  The two hash maps
are modelled as association lists. -/
structure Universe where
  nodes : List Tree
  empty_trees : List Nat
  populations : List Nat
  next_gen : List ((Nat × Bool) × Nat)
  interned_nodes : List (Tree × Nat)
  deriving Repr

/-- `Universe::default()`. -/
def Universe.default : Universe := ⟨[], [], [], [], []⟩

/-- First-match association-list lookup (the model of `HashMap::get`). -/
def alookup {α β : Type} [DecidableEq α] : List (α × β) → α → Option β
  | [], _ => none
  | (k, v) :: rest, a => if k = a then some v else alookup rest a

namespace Universe

/-- The population computed at interning time in `Universe::canonicalise`:
1 or 0 for a leaf, the sum of the four children's cached populations for a
branch. -/
def popOf (u : Universe) : Tree → Nat
  | .leaf true => 1
  | .leaf false => 0
  | .branch a b c d =>
    u.populations.getD a 0 + u.populations.getD b 0 +
    u.populations.getD c 0 + u.populations.getD d 0

/-- `Universe::canonicalise`: return the interned handle for `tree`,
appending it (and its population) on first sight. -/
def canonicalise (u : Universe) (tree : Tree) : Universe × Nat :=
  match alookup u.interned_nodes tree with
  | some tr => (u, tr)
  | none =>
    let population := popOf u tree
    let tr := u.nodes.length
    ({ nodes := u.nodes ++ [tree],
       empty_trees := u.empty_trees,
       populations := u.populations ++ [population],
       next_gen := u.next_gen,
       interned_nodes := (tree, tr) :: u.interned_nodes }, tr)

/-- One iteration of the `while` loop of `Universe::empty_tree`: push the
canonical all-dead node of the next depth. -/
def pushEmpty (u : Universe) : Universe :=
  match u.empty_trees.getLast? with
  | some tr =>
    let (u, tr') := u.canonicalise (.branch tr tr tr tr)
    { u with empty_trees := u.empty_trees ++ [tr'] }
  | none =>
    let (u, tr') := u.canonicalise (.leaf false)
    { u with empty_trees := u.empty_trees ++ [tr'] }

/-- The `while` loop of `Universe::empty_tree` runs until
`empty_trees.len() > depth`; each iteration grows `empty_trees` by one, so
it runs exactly `depth + 1 - empty_trees.len()` times. -/
def empty_tree (u : Universe) (depth : Nat) : Universe × Nat :=
  let u := (depth + 1 - u.empty_trees.length).fold (fun _ v => pushEmpty v) u
  (u, u.empty_trees.getD depth 0)

/-- `Universe::subtree`; the source panics on a leaf, modelled by an
all-zero quadruple (every use site is precondition-guarded). -/
def subtree (u : Universe) (tr : Nat) : Nat × Nat × Nat × Nat :=
  match u.nodes.getD tr (.leaf false) with
  | .leaf _ => (0, 0, 0, 0)
  | .branch a b c d => (a, b, c, d)

/-- Pick one of the four children by `descend`'s quadrant index. -/
def pick (q : Nat × Nat × Nat × Nat) (i : Nat) : Nat :=
  match i with
  | 0 => q.1
  | 1 => q.2.1
  | 2 => q.2.2.1
  | _ => q.2.2.2

/-- Replace one of the four children (the `subtree[i] = tr` update in
`Universe::set_bit`). -/
def put (q : Nat × Nat × Nat × Nat) (i : Nat) (v : Nat) :
    Nat × Nat × Nat × Nat :=
  match i with
  | 0 => (v, q.2.1, q.2.2.1, q.2.2.2)
  | 1 => (q.1, v, q.2.2.1, q.2.2.2)
  | 2 => (q.1, q.2.1, v, q.2.2.2)
  | _ => (q.1, q.2.1, q.2.2.1, v)

/-- `Universe::alive`; the source panics on a branch, modelled as `false`. -/
def alive (u : Universe) (tr : Nat) : Bool :=
  match u.nodes.getD tr (.leaf false) with
  | .leaf b => b
  | .branch _ _ _ _ => false

/-- `Universe::population`. -/
def population (u : Universe) (tr : Nat) : Nat :=
  u.populations.getD tr 0

/-- The loop of `Universe::get_node`, with the iteration count made
explicit: `descend` lowers `p.z` by exactly one per iteration
(`P3.descend_z`), so the loop runs `p.z` times.  (The fuelled form keeps
the definition reducible by the kernel; `getN_descend` recovers the
loop-shaped unfolding.) -/
def getN (u : Universe) : Nat → Nat → P3 → Nat
  | 0, tr, _ => tr
  | fuel + 1, tr, p =>
    match p.descend with
    | none => tr
    | some (i, p') => getN u fuel (pick (u.subtree tr) i) p'

/-- `Universe::get_node`: repeatedly descend `p`, indexing the appropriate
child. -/
def get_node (u : Universe) (tr : Nat) (p : P3) : Nat :=
  getN u p.z tr p

/-- The recursion of `Universe::set_bit` (the source's explicit spine
stack rendered as recursion), fuelled by the descent depth like `getN`. -/
def setBitN (u : Universe) : Nat → Nat → P3 → Universe × Nat
  | 0, _, _ => u.canonicalise (.leaf true)
  | fuel + 1, tr, p =>
    match p.descend with
    | none => u.canonicalise (.leaf true)
    | some (i, p') =>
      let q := u.subtree tr
      let (u', r) := setBitN u fuel (pick q i) p'
      let q' := put q i r
      u'.canonicalise (.branch q'.1 q'.2.1 q'.2.2.1 q'.2.2.2)

/-- `Universe::set_bit`: descend to the leaf collecting the spine, intern a
live leaf, then re-intern the spine of branches back to the root. -/
def set_bit (u : Universe) (tr : Nat) (p : P3) : Universe × Nat :=
  setBitN u p.z tr p

/-- `Universe::expand_universe`: wrap each child of `tr` with three all-dead
siblings so that the result's centre subquadrant is `tr`. -/
def expand_universe (u : Universe) (level : Nat) (tr : Nat) :
    Universe × Nat :=
  let (nw, ne, sw, se) := u.subtree tr
  let (u, border) := u.empty_tree (level - 1)
  let (u, a) := u.canonicalise (.branch border border border nw)
  let (u, b) := u.canonicalise (.branch border border ne border)
  let (u, c) := u.canonicalise (.branch border sw border border)
  let (u, d) := u.canonicalise (.branch se border border border)
  u.canonicalise (.branch a b c d)

end Universe

theorem P3.quadrants_z {p : P3} {q0 q1 q2 q3 : P3}
    (h : p.quadrants = some (q0, q1, q2, q3)) :
    p.z = q0.z + 1 ∧ q1.z = q0.z ∧ q2.z = q0.z ∧ q3.z = q0.z := by
  unfold P3.quadrants at h
  cases hz : p.z with
  | zero => rw [hz] at h; simp at h
  | succ z =>
    rw [hz] at h
    simp only [Option.some.injEq, Prod.mk.injEq] at h
    obtain ⟨h0, h1, h2, h3⟩ := h
    subst h0; subst h1; subst h2; subst h3
    simp

namespace Universe

/-- The work-stack recursion of `Universe::reframe` after the source's
swap `(z, p) = (p.z, P3 { z, ..p })`: `zsrc` is the original `p.z` (the
granularity at which `get_node` samples the source tree) and `q` the
window coordinate. -/
def reframeGo (tr zsrc : Nat) : Nat → Universe → P3 → Universe × Nat
  | 0, u, q => (u, u.get_node tr ⟨q.y, q.x, zsrc⟩)
  | fuel + 1, u, q =>
    match q.quadrants with
    | none => (u, u.get_node tr ⟨q.y, q.x, zsrc⟩)
    | some (q0, q1, q2, q3) =>
      let (u, a) := reframeGo tr zsrc fuel u q0
      let (u, b) := reframeGo tr zsrc fuel u q1
      let (u, c) := reframeGo tr zsrc fuel u q2
      let (u, d) := reframeGo tr zsrc fuel u q3
      u.canonicalise (.branch a b c d)

/-- `Universe::reframe`: the tree with the node at `p` (w.r.t. `tr`)
centred, at depth `z`. -/
def reframe (u : Universe) (tr : Nat) (p : P3) (z : Nat) :
    Universe × Nat :=
  reframeGo tr p.z z u ⟨p.y, p.x, z⟩

/-- `Universe::make_l2_bitmask`: walk `(y, x) ∈ [-2, 2)²` in row-major
order, shifting in one bit per cell. -/
def make_l2_bitmask (u : Universe) (tr : Nat) : Nat :=
  ([-2, -1, 0, 1] : List Int).foldl (fun bm y =>
    ([-2, -1, 0, 1] : List Int).foldl (fun bm x =>
      2 * bm + (if u.alive (u.get_node tr ⟨y, x, 2⟩) then 1 else 0)) bm) 0

/-- Population count with explicit fuel (`n` halves to 0 within `fuel`
steps whenever `n ≤ fuel`). -/
def countOnesN : Nat → Nat → Nat
  | 0, _ => 0
  | fuel + 1, n => if n = 0 then 0 else n % 2 + countOnesN fuel (n / 2)

/-- Population count, the model of `u16::count_ones`. -/
def countOnes (n : Nat) : Nat := countOnesN n n

/-- The inner `leaf` function of `Universe::l2_gen`: bit 5 is the centre
cell, mask `0b0111_0101_0111` its eight neighbours, and the B3/S23 rule is
applied. -/
def l2leaf (bitmask : Nat) : Tree :=
  let center : Bool := bitmask &&& 0b000000100000 != 0
  let neighbours := countOnes (bitmask &&& 0b011101010111)
  match center, neighbours with
  | true, 2 => .leaf true
  | true, 3 => .leaf true
  | false, 3 => .leaf true
  | _, _ => .leaf false

/-- `Universe::l2_gen`: evaluate the four centre cells from the bitmask
shifted by 5, 4, 1, 0 and combine them into a depth-1 branch. -/
def l2_gen (u : Universe) (bitmask : Nat) : Universe × Nat :=
  let (u, a) := u.canonicalise (l2leaf (bitmask >>> 5))
  let (u, b) := u.canonicalise (l2leaf (bitmask >>> 4))
  let (u, c) := u.canonicalise (l2leaf (bitmask >>> 1))
  let (u, d) := u.canonicalise (l2leaf (bitmask >>> 0))
  u.canonicalise (.branch a b c d)

/-- Nine-tuples of handles (the overlapping depth-`(z-1)` subquadrants of
the step engine, row-major). -/
def Nine : Type := Nat × Nat × Nat × Nat × Nat × Nat × Nat × Nat × Nat

/-- The nine overlapping subquadrants `reframe(tr, (y, x, 3), 2)` for
`(y, x) ∈ {-2, 0, 2}²`, row-major (the source's `Push9`). -/
def nineReframes (u : Universe) (tr : Nat) : Universe × Nine :=
  let (u, t0) := u.reframe tr ⟨-2, -2, 3⟩ 2
  let (u, t1) := u.reframe tr ⟨-2, 0, 3⟩ 2
  let (u, t2) := u.reframe tr ⟨-2, 2, 3⟩ 2
  let (u, t3) := u.reframe tr ⟨0, -2, 3⟩ 2
  let (u, t4) := u.reframe tr ⟨0, 0, 3⟩ 2
  let (u, t5) := u.reframe tr ⟨0, 2, 3⟩ 2
  let (u, t6) := u.reframe tr ⟨2, -2, 3⟩ 2
  let (u, t7) := u.reframe tr ⟨2, 0, 3⟩ 2
  let (u, t8) := u.reframe tr ⟨2, 2, 3⟩ 2
  (u, (t0, t1, t2, t3, t4, t5, t6, t7, t8))

/-- Advance each of the nine by the recursive step (the flagged branch of
the source's `Push9`). -/
def nineSteps (stepf : Universe → Nat → Universe × Nat) (u : Universe)
    (t : Nine) : Universe × Nine :=
  let (t0, t1, t2, t3, t4, t5, t6, t7, t8) := t
  let (u, n0) := stepf u t0
  let (u, n1) := stepf u t1
  let (u, n2) := stepf u t2
  let (u, n3) := stepf u t3
  let (u, n4) := stepf u t4
  let (u, n5) := stepf u t5
  let (u, n6) := stepf u t6
  let (u, n7) := stepf u t7
  let (u, n8) := stepf u t8
  (u, (n0, n1, n2, n3, n4, n5, n6, n7, n8))

/-- Take the centre of each of the nine (`reframe(l2, origin(2), 1)`: the
unflagged branch of the source's `Push9`, Δ = 0). -/
def nineCentres (u : Universe) (t : Nine) : Universe × Nine :=
  let (t0, t1, t2, t3, t4, t5, t6, t7, t8) := t
  let (u, n0) := u.reframe t0 (P3.origin 2) 1
  let (u, n1) := u.reframe t1 (P3.origin 2) 1
  let (u, n2) := u.reframe t2 (P3.origin 2) 1
  let (u, n3) := u.reframe t3 (P3.origin 2) 1
  let (u, n4) := u.reframe t4 (P3.origin 2) 1
  let (u, n5) := u.reframe t5 (P3.origin 2) 1
  let (u, n6) := u.reframe t6 (P3.origin 2) 1
  let (u, n7) := u.reframe t7 (P3.origin 2) 1
  let (u, n8) := u.reframe t8 (P3.origin 2) 1
  (u, (n0, n1, n2, n3, n4, n5, n6, n7, n8))

/-- The source's `Pop9Into4` and `Pop4Into1`: assemble the nine results
into the four overlapping 2×2 groupings (NW {0,1,3,4}, NE {1,2,4,5},
SW {3,4,6,7}, SE {4,5,7,8}), step each, and combine. -/
def stepTail (stepf : Universe → Nat → Universe × Nat) (u : Universe)
    (n : Nine) : Universe × Nat :=
  let (n0, n1, n2, n3, n4, n5, n6, n7, n8) := n
  let (u, f0) := u.canonicalise (.branch n0 n1 n3 n4)
  let (u, f1) := u.canonicalise (.branch n1 n2 n4 n5)
  let (u, f2) := u.canonicalise (.branch n3 n4 n6 n7)
  let (u, f3) := u.canonicalise (.branch n4 n5 n7 n8)
  let (u, r0) := stepf u f0
  let (u, r1) := stepf u f1
  let (u, r2) := stepf u f2
  let (u, r3) := stepf u f3
  u.canonicalise (.branch r0 r1 r2 r3)

/-- `Universe::step`.  The explicit work-stack machine of the source
(`Step` / `Push9` / `Pop9Into4` / `Pop4Into1` / `UpdateCache`) is rendered
as the equivalent structural recursion on `depth`.  The cache is consulted
under the key `(tr, depth ≤ superspeed_depth)` before computing and updated
afterwards.  The source panics for `depth < 2` (its `Push9` would index a
leaf); those cases are modelled by returning `tr` itself. -/
def step (u : Universe) (tr : Nat) (depth ssd : Nat) : Universe × Nat :=
  let key := (tr, decide (depth ≤ ssd))
  match alookup u.next_gen key with
  | some r => (u, r)
  | none =>
    match depth with
    | 0 => (u, tr)
    | 1 => (u, tr)
    | 2 =>
      let bm := u.make_l2_bitmask tr
      let (u, res) := u.l2_gen bm
      ({ u with next_gen := (key, res) :: u.next_gen }, res)
    | d + 3 =>
      let (u, t) := nineReframes u tr
      let (u, n) :=
        if d + 3 ≤ ssd then
          nineSteps (fun u l2 => step u l2 (d + 2) ssd) u t
        else nineCentres u t
      let (u, res) := stepTail (fun u l2 => step u l2 (d + 2) ssd) u n
      ({ u with next_gen := (key, res) :: u.next_gen }, res)

end Universe

/-- The façade from `hashlife/src/lib.rs`: a universe, the current root
handle and the current depth. -/
structure HashLife where
  univ : Universe  -- the Rust field is `universe`, a reserved word in Lean
  depth : Nat
  root : Nat

namespace HashLife

/-- `HashLife::new()`: the empty world at depth 2. -/
def new : HashLife :=
  let (u, root) := Universe.default.empty_tree 2
  ⟨u, 2, root⟩

/-- `HashLife::expand`. -/
def expand (hl : HashLife) : HashLife :=
  let (u, root) := hl.univ.expand_universe hl.depth hl.root
  ⟨u, hl.depth + 1, root⟩

theorem expand_depth (hl : HashLife) : hl.expand.depth = hl.depth + 1 := rfl

/-- If `z` is at least `|y| + |x| + 2` then `(y, x)` is within the tree of
depth `z` (used only for the termination of the `set_bit` expansion loop). -/
theorem P3.within_tree_of_big {y x : Int} {z : Nat}
    (h : y.natAbs + x.natAbs + 2 ≤ z) : (P3.new y x z).within_tree = true := by
  obtain ⟨m, rfl⟩ : ∃ m, z = m + 1 := ⟨z - 1, by omega⟩
  have hp : (m : Int) < 2 ^ m := by exact_mod_cast Nat.lt_two_pow m
  have hI : (y.natAbs : Int) + (x.natAbs : Int) + 2 ≤ (m : Int) + 1 := by
    exact_mod_cast h
  unfold P3.within_tree P3.contains P3.origin P3.new
  rw [if_neg (by simp)]
  simp only [Nat.sub_zero, Nat.add_sub_cancel, Int.sub_zero, Bool.and_eq_true,
    decide_eq_true_eq]
  refine ⟨⟨?_, ?_⟩, ?_, ?_⟩ <;> omega

/-- The body after the expansion loop of `HashLife::set_bit`. -/
def writeBit (hl : HashLife) (p : Int × Int) : HashLife :=
  let (u, root) := hl.univ.set_bit hl.root (P3.new p.1 p.2 hl.depth)
  ⟨u, hl.depth, root⟩

/-- The expansion loop of `HashLife::set_bit`, fuelled: by
`P3.within_tree_of_big` the loop guard fails once the depth reaches
`|y| + |x| + 2`, so a fuel of that size is never exhausted and the fuelled
loop equals the source's `while` loop on every input. -/
def setBitGo : Nat → HashLife → Int × Int → HashLife
  | 0, hl, p => hl.writeBit p
  | fuel + 1, hl, p =>
    if (P3.new p.1 p.2 hl.depth).within_tree then hl.writeBit p
    else setBitGo fuel hl.expand p

/-- `HashLife::set_bit`: expand until `(y, x, depth)` is within the root's
footprint, then delegate to `Universe::set_bit`. -/
def set_bit (hl : HashLife) (p : Int × Int) : HashLife :=
  setBitGo (p.1.natAbs + p.2.natAbs + 2) hl p

/-- `HashLife::step(log2_steps)`: expand while `depth < superspeed_depth - 1`
(the loop runs exactly `superspeed_depth - 1 - depth` times since each
`expand` adds one to `depth`), expand once more if live cells sit outside
the centre half, expand again, then run the engine and decrement the
depth. -/
def step (hl : HashLife) (log2_steps : Nat) : HashLife :=
  let superspeed_depth := log2_steps + 2
  let hl := (superspeed_depth - 1 - hl.depth).fold (fun _ h => h.expand) hl
  let (u, center) := hl.univ.reframe hl.root (P3.origin 2) 1
  let hl : HashLife := ⟨u, hl.depth, hl.root⟩
  let hl :=
    if hl.univ.population center ≠ hl.univ.population hl.root then
      hl.expand
    else hl
  let hl := hl.expand
  let (u, root) := hl.univ.step hl.root hl.depth superspeed_depth
  ⟨u, hl.depth - 1, root⟩

/-- The depth-first walk of `impl IntoIterator for HashLife`, pruning
subtrees of population 0 and emitting `(p.y, p.x)` at live leaves.  (The
source drives it with an explicit stack, which only permutes the emission
order.) -/
def cellsGo (u : Universe) : Nat → Nat → P3 → List (Int × Int)
  | 0, tr, p =>
    if u.population tr = 0 then []
    else if u.alive tr then [(p.y, p.x)] else []
  | fuel + 1, tr, p =>
    if u.population tr = 0 then []
    else
      match p.quadrants with
      | some (p0, p1, p2, p3) =>
        let (a, b, c, d) := u.subtree tr
        cellsGo u fuel a p0 ++ cellsGo u fuel b p1 ++
        cellsGo u fuel c p2 ++ cellsGo u fuel d p3
      | none => if u.alive tr then [(p.y, p.x)] else []

/-- The live cells of a world, as emitted by `IntoIterator` (`quadrants`
lowers `p.z` by one per level, so `p.z` is the exact recursion depth). -/
def cells (hl : HashLife) : List (Int × Int) :=
  cellsGo hl.univ hl.depth hl.root (P3.origin hl.depth)

/-- `impl FromIterator for HashLife`: start from `new()` and `set_bit`
each element. -/
def fromCells (l : List (Int × Int)) : HashLife :=
  l.foldl (fun hl p => hl.set_bit p) new

end HashLife

/-- The reference counting simulator, from `hashlife/src/basic_state.rs`. -/
structure BasicState where
  cells : Finset (Int × Int)

/-- The eight neighbour offsets in the order produced by
`(-1..=1).cartesian_product(-1..=1).filter(|&d| d != (0, 0))`. -/
def neighbourOffsets : List (Int × Int) :=
  [(-1, -1), (-1, 0), (-1, 1), (0, -1), (0, 1), (1, -1), (1, 0), (1, 1)]

/-- `neighbours((y, x))` from the source. -/
def neighbours (p : Int × Int) : List (Int × Int) :=
  neighbourOffsets.map (fun d => (p.1 + d.1, p.2 + d.2))

namespace BasicState

/-- `BasicState::set_bit`. -/
def set_bit (s : BasicState) (p : Int × Int) : BasicState :=
  ⟨insert p s.cells⟩

/-- `BasicState::step`: the `counts` map sends each cell to its number of
live neighbours (only cells with at least one live neighbour are keys),
then the B3/S23 match decides the next state. -/
def step (s : BasicState) : BasicState :=
  let candidates := s.cells.biUnion (fun p => (neighbours p).toFinset)
  ⟨candidates.filter (fun q =>
    let count := (s.cells.filter (fun p => q ∈ neighbours p)).card
    (q ∈ s.cells ∧ (count = 2 ∨ count = 3)) ∨ (q ∉ s.cells ∧ count = 3))⟩

end BasicState

/-! ## Semantic layer: pure quadtrees and denotation of handles -/

/-- A pure quadtree value: the denotation of a handle. -/
inductive QTree where
  | leaf (alive : Bool)
  | branch (nw ne sw se : QTree)
  deriving DecidableEq, Repr

namespace QTree

/-- Depth-uniformity at a given depth: a leaf at depth 0, or a branch whose
four children are uniform at one depth lower. -/
def uni : Nat → QTree → Bool
  | 0, .leaf _ => true
  | z + 1, .branch a b c d => uni z a && uni z b && uni z c && uni z d
  | _, _ => false

/-- Number of live leaves. -/
def pop : QTree → Nat
  | .leaf b => if b then 1 else 0
  | .branch a b c d => pop a + pop b + pop c + pop d

/-- The `alive` reading of a node (`false` on a branch, where the source
panics). -/
def aliveQ : QTree → Bool
  | .leaf b => b
  | .branch _ _ _ _ => false

/-- Child selection by `descend`'s quadrant index (identity on a leaf,
where the source panics). -/
def child : QTree → Nat → QTree
  | .branch a b c d, i =>
    match i with
    | 0 => a
    | 1 => b
    | 2 => c
    | _ => d
  | t, _ => t

/-- The pure mirror of `Universe::get_node` (same fuelled loop as `getN`). -/
def getQN : Nat → QTree → P3 → QTree
  | 0, t, _ => t
  | fuel + 1, t, p =>
    match p.descend with
    | none => t
    | some (i, p') => getQN fuel (t.child i) p'

/-- The pure mirror of `Universe::get_node`. -/
def getQ (t : QTree) (p : P3) : QTree := getQN p.z t p

/-- The canonical all-dead tree of a given depth (`empty[z]`). -/
def emptyQ : Nat → QTree
  | 0 => .leaf false
  | z + 1 => .branch (emptyQ z) (emptyQ z) (emptyQ z) (emptyQ z)

end QTree

/-- The world read off a depth-`z` tree in absolute centred coordinates:
alive exactly at in-bounds coordinates whose sampled node is a live leaf. -/
def worldC (z : Nat) (t : QTree) : Int × Int → Bool := fun q =>
  (P3.new q.1 q.2 z).within_tree && (t.getQ ⟨q.1, q.2, z⟩).aliveQ

/-- Denotation of a handle: unfold the store, reading dangling handles as
dead leaves.  Under the store invariant (children of a stored branch have
strictly smaller indices) the fuel `i + 1` always suffices. -/
def dntN : Nat → List Tree → Nat → QTree
  | 0, _, _ => .leaf false
  | fuel + 1, ns, i =>
    match ns.get? i with
    | some (.leaf b) => .leaf b
    | some (.branch a b c d) =>
      .branch (dntN fuel ns a) (dntN fuel ns b) (dntN fuel ns c)
        (dntN fuel ns d)
    | none => .leaf false

/-- Denotation of a handle in a node list. -/
def dntL (ns : List Tree) (i : Nat) : QTree := dntN (i + 1) ns i

/-- Denotation of a handle in a universe. -/
def dnt (u : Universe) (i : Nat) : QTree := dntL u.nodes i

/-- The children bound of the store: every stored branch's children point
strictly below it (nodes are interned children-first and never mutated). -/
def ChildLT (ns : List Tree) : Prop :=
  ∀ i a b c d, ns.get? i = some (.branch a b c d) →
    a < i ∧ b < i ∧ c < i ∧ d < i

/-- A tree value whose children (if any) are valid handles of the store. -/
def TreeOK (ns : List Tree) : Tree → Prop
  | .leaf _ => True
  | .branch a b c d =>
    a < ns.length ∧ b < ns.length ∧ c < ns.length ∧ d < ns.length

/-- The one-level interpretation of a stored node value. -/
def interpT (ns : List Tree) : Tree → QTree
  | .leaf b => .leaf b
  | .branch a b c d => .branch (dntL ns a) (dntL ns b) (dntL ns c) (dntL ns d)

/-- `h` denotes a depth-`z`-uniform tree of the store. -/
def validAt (u : Universe) (h z : Nat) : Prop :=
  h < u.nodes.length ∧ QTree.uni z (dnt u h) = true

/-- The store invariant. -/
structure WF (u : Universe) : Prop where
  hlen : u.populations.length = u.nodes.length
  hchild : ChildLT u.nodes
  hintern : ∀ t h, alookup u.interned_nodes t = some h ↔
    u.nodes.get? h = some t
  hpop : ∀ i, i < u.nodes.length →
    u.populations.getD i 0 = (dnt u i).pop
  hempty : ∀ z, z < u.empty_trees.length →
    u.empty_trees.getD z 0 < u.nodes.length ∧
    dnt u (u.empty_trees.getD z 0) = QTree.emptyQ z
  hmemo : ∀ k r, alookup u.next_gen k = some r →
    ∃ z, 2 ≤ z ∧ validAt u k.1 z ∧ validAt u r (z - 1)

/-- Store extension: everything already present is preserved. -/
structure Ext (u u' : Universe) : Prop where
  hnodes : ∃ ext, u'.nodes = u.nodes ++ ext
  hpops : ∃ ext, u'.populations = u.populations ++ ext
  hintern : ∀ t h, alookup u.interned_nodes t = some h →
    alookup u'.interned_nodes t = some h
  hempty : ∃ ext, u'.empty_trees = u.empty_trees ++ ext
  hmemo : ∀ k r, alookup u.next_gen k = some r →
    alookup u'.next_gen k = some r

theorem Ext.refl (u : Universe) : Ext u u :=
  ⟨⟨[], by simp⟩, ⟨[], by simp⟩, fun _ _ h => h, ⟨[], by simp⟩,
   fun _ _ h => h⟩

theorem getD_eq_get? {α : Type} (l : List α) (i : Nat) (d : α) :
    l.getD i d = (l.get? i).getD d := rfl

/-- Under the children bound, the denotation is independent of any
sufficient fuel. -/
theorem dntN_congr {ns : List Tree} (hch : ChildLT ns) :
    ∀ i f₁ f₂, i < f₁ → i < f₂ → dntN f₁ ns i = dntN f₂ ns i := by
  intro i
  induction i using Nat.strong_induction_on with
  | _ i IH =>
    intro f₁ f₂ h₁ h₂
    obtain ⟨g₁, rfl⟩ : ∃ g, f₁ = g + 1 := ⟨f₁ - 1, by omega⟩
    obtain ⟨g₂, rfl⟩ : ∃ g, f₂ = g + 1 := ⟨f₂ - 1, by omega⟩
    simp only [dntN]
    cases hg : ns.get? i with
    | none => rfl
    | some t =>
      cases t with
      | leaf b => rfl
      | branch a b c d =>
        have hlt := hch i a b c d hg
        dsimp only
        rw [IH a (by omega) (g₁) (g₂) (by omega) (by omega),
            IH b (by omega) (g₁) (g₂) (by omega) (by omega),
            IH c (by omega) (g₁) (g₂) (by omega) (by omega),
            IH d (by omega) (g₁) (g₂) (by omega) (by omega)]

theorem dntN_eq_dntL {ns : List Tree} (hch : ChildLT ns) {i f : Nat}
    (h : i < f) : dntN f ns i = dntL ns i :=
  dntN_congr hch i f (i + 1) h (by omega)

/-- A `ChildLT` store extended by a node whose children are in range keeps
the bound. -/
theorem ChildLT.append {ns : List Tree} (hch : ChildLT ns) {t : Tree}
    (ht : TreeOK ns t) : ChildLT (ns ++ [t]) := by
  intro i a b c d hget
  by_cases hi : i < ns.length
  · rw [List.get?_append hi] at hget
    exact hch i a b c d hget
  · have : i = ns.length := by
      by_contra hne
      have : ns.length + 1 ≤ i := by omega
      rw [List.get?_len_le (by simpa using this)] at hget
      exact Option.noConfusion hget
    subst this
    have : t = Tree.branch a b c d := by
      have := List.get?_concat_length ns t
      rw [this] at hget
      exact Option.some.inj hget
    subst this
    obtain ⟨ha, hb, hc, hd⟩ := ht
    exact ⟨ha, hb, hc, hd⟩

/-- Appending nodes does not change the denotation of existing handles
(generalised over the fuels; the recursion never reads the appended part
because children point strictly downwards). -/
theorem dntN_append {ns ext : List Tree} (hch : ChildLT ns) :
    ∀ i f₁ f₂, i < ns.length → i < f₁ → i < f₂ →
      dntN f₁ (ns ++ ext) i = dntN f₂ ns i := by
  intro i
  induction i using Nat.strong_induction_on with
  | _ i IH =>
    intro f₁ f₂ hi h₁ h₂
    obtain ⟨g₁, rfl⟩ : ∃ g, f₁ = g + 1 := ⟨f₁ - 1, by omega⟩
    obtain ⟨g₂, rfl⟩ : ∃ g, f₂ = g + 1 := ⟨f₂ - 1, by omega⟩
    simp only [dntN]
    have hg : (ns ++ ext).get? i = ns.get? i := List.get?_append hi
    rw [hg]
    cases hv : ns.get? i with
    | none => rfl
    | some t =>
      cases t with
      | leaf b => rfl
      | branch a b c d =>
        have hlt := hch i a b c d hv
        dsimp only
        rw [IH a (by omega) g₁ g₂ (by omega) (by omega) (by omega),
            IH b (by omega) g₁ g₂ (by omega) (by omega) (by omega),
            IH c (by omega) g₁ g₂ (by omega) (by omega) (by omega),
            IH d (by omega) g₁ g₂ (by omega) (by omega) (by omega)]

/-- Appending nodes does not change the denotation of existing handles. -/
theorem dntL_append {ns ext : List Tree} (hch : ChildLT ns) {i : Nat}
    (hi : i < ns.length) : dntL (ns ++ ext) i = dntL ns i :=
  dntN_append hch i (i + 1) (i + 1) hi (by omega) (by omega)

theorem get?_some_lt {α : Type} {l : List α} {i : Nat} {a : α}
    (h : l.get? i = some a) : i < l.length := by
  by_contra hge
  rw [List.get?_len_le (by omega)] at h
  exact Option.noConfusion h

/-- Unfolding the denotation of a stored handle one level. -/
theorem dnt_eq_interp {ns : List Tree} (hch : ChildLT ns) {h : Nat}
    {t : Tree} (hget : ns.get? h = some t) : dntL ns h = interpT ns t := by
  cases t with
  | leaf b =>
    show dntN (h + 1) ns h = _
    unfold dntN
    rw [hget]
    rfl
  | branch a b c d =>
    have hlt := hch h a b c d hget
    show dntN (h + 1) ns h = _
    unfold dntN
    rw [hget]
    dsimp only [interpT]
    rw [dntN_eq_dntL hch (by omega), dntN_eq_dntL hch (by omega),
        dntN_eq_dntL hch (by omega), dntN_eq_dntL hch (by omega)]

/-- Denotations of existing handles are stable under store extension. -/
theorem Ext.dnt_eq {u u' : Universe} (he : Ext u u') (hch : ChildLT u.nodes)
    {i : Nat} (hi : i < u.nodes.length) : dnt u' i = dnt u i := by
  obtain ⟨ext, hn⟩ := he.hnodes
  unfold dnt
  rw [hn]
  exact dntL_append hch hi

theorem validAt_mono {u u' : Universe} (he : Ext u u') (hch : ChildLT u.nodes)
    {i z : Nat} (hv : validAt u i z) : validAt u' i z := by
  obtain ⟨ext, hn⟩ := he.hnodes
  have hi := hv.1
  refine ⟨by rw [hn]; rw [List.length_append]; omega, ?_⟩
  rw [Ext.dnt_eq he hch hv.1]
  exact hv.2

/-- Everything `canonicalise` guarantees. -/
structure CSpec (u : Universe) (t : Tree) (u' : Universe) (h' : Nat) :
    Prop where
  wf : WF u'
  ext : Ext u u'
  lt : h' < u'.nodes.length
  stored : u'.nodes.get? h' = some t
  dnt_eq : dnt u' h' = interpT u.nodes t
  memo : u'.next_gen = u.next_gen
  emp : u'.empty_trees = u.empty_trees

theorem canonicalise_spec {u : Universe} (wf : WF u) {t : Tree}
    (ht : TreeOK u.nodes t) :
    CSpec u t (u.canonicalise t).1 (u.canonicalise t).2 := by
  cases hl : alookup u.interned_nodes t with
  | some h =>
    have hcan : u.canonicalise t = (u, h) := by
      unfold Universe.canonicalise
      rw [hl]
    rw [hcan]
    have hget : u.nodes.get? h = some t := (wf.hintern t h).mp hl
    exact ⟨wf, Ext.refl u, get?_some_lt hget, hget,
      dnt_eq_interp wf.hchild hget, rfl, rfl⟩
  | none =>
    set L := u.nodes.length with hL
    set u' : Universe :=
      { nodes := u.nodes ++ [t],
        empty_trees := u.empty_trees,
        populations := u.populations ++ [u.popOf t],
        next_gen := u.next_gen,
        interned_nodes := (t, L) :: u.interned_nodes } with hu'
    have hcan : u.canonicalise t = (u', L) := by
      unfold Universe.canonicalise
      rw [hl]
    rw [hcan]
    have hch' : ChildLT (u.nodes ++ [t]) := ChildLT.append wf.hchild ht
    have hstored : (u.nodes ++ [t]).get? L = some t := by
      simpa using List.get?_concat_length u.nodes t
    have hextn : ∀ i, i < L → dntL (u.nodes ++ [t]) i = dntL u.nodes i :=
      fun i hi => dntL_append wf.hchild hi
    have hdnt : dntL (u.nodes ++ [t]) L = interpT u.nodes t := by
      rw [dnt_eq_interp hch' hstored]
      cases t with
      | leaf b => rfl
      | branch a b c d =>
        obtain ⟨ha, hb, hc, hd⟩ := ht
        simp only [interpT]
        rw [hextn a ha, hextn b hb, hextn c hc, hextn d hd]
    have hext : Ext u u' := by
      refine ⟨⟨[t], rfl⟩, ⟨[u.popOf t], rfl⟩, ?_, ⟨[], by simp⟩,
        fun _ _ h => h⟩
      intro s h hh
      have hs : t ≠ s := by
        intro hts
        subst hts
        rw [hl] at hh
        exact Option.noConfusion hh
      show alookup ((t, L) :: u.interned_nodes) s = some h
      simpa [alookup, if_neg hs] using hh
    constructor
    case wf =>
      constructor
      case hlen => simp [hu', wf.hlen]
      case hchild => exact hch'
      case hintern =>
        intro s h
        show alookup ((t, L) :: u.interned_nodes) s = some h ↔
          (u.nodes ++ [t]).get? h = some s
        by_cases hs : t = s
        · subst hs
          simp only [alookup, if_pos rfl]
          constructor
          · intro hh
            obtain rfl : L = h := by simpa using hh
            exact hstored
          · intro hh
            by_cases hhL : h < L
            · exfalso
              rw [List.get?_append hhL] at hh
              have := (wf.hintern t h).mpr hh
              rw [hl] at this
              exact Option.noConfusion this
            · by_cases hhE : h = L
              · simp [hhE]
              · exfalso
                rw [List.get?_len_le
                  (by rw [List.length_append, List.length_singleton]
                      omega)] at hh
                exact Option.noConfusion hh
        · simp only [alookup, if_neg hs]
          rw [wf.hintern s h]
          constructor
          · intro hh
            rw [List.get?_append (get?_some_lt hh)]
            exact hh
          · intro hh
            by_cases hhL : h < L
            · rwa [List.get?_append hhL] at hh
            · exfalso
              by_cases hhE : h = L
              · subst hhE
                rw [hstored] at hh
                exact hs (Option.some.inj hh)
              · rw [List.get?_len_le
                  (by rw [List.length_append, List.length_singleton]
                      omega)] at hh
                exact Option.noConfusion hh
      case hpop =>
        intro i hi
        rw [hu'] at hi
        simp only [List.length_append, List.length_singleton] at hi
        show (u.populations ++ [u.popOf t]).getD i 0 = (dnt u' i).pop
        by_cases hiL : i < L
        · have h1 : (u.populations ++ [u.popOf t]).getD i 0 =
              u.populations.getD i 0 := by
            rw [getD_eq_get?, getD_eq_get?, List.get?_append]
            rw [wf.hlen]
            exact hiL
          have h2 : dnt u' i = dnt u i := hext.dnt_eq wf.hchild hiL
          rw [h1, h2]
          exact wf.hpop i hiL
        · obtain rfl : i = L := by omega
          have h1 : (u.populations ++ [u.popOf t]).getD L 0 = u.popOf t := by
            rw [getD_eq_get?]
            have hlen : u.populations.length = L := wf.hlen
            rw [← hlen, List.get?_concat_length]
            rfl
          rw [h1]
          show u.popOf t = (dntL (u.nodes ++ [t]) L).pop
          rw [hdnt]
          cases t with
          | leaf b => cases b <;> rfl
          | branch a b c d =>
            obtain ⟨ha, hb, hc, hd⟩ := ht
            simp only [Universe.popOf, interpT, QTree.pop]
            rw [wf.hpop a ha, wf.hpop b hb, wf.hpop c hc, wf.hpop d hd]
            rfl
      case hempty =>
        intro z hz
        obtain ⟨h1, h2⟩ := wf.hempty z hz
        refine ⟨?_, ?_⟩
        · show u.empty_trees.getD z 0 < (u.nodes ++ [t]).length
          rw [List.length_append, List.length_singleton]
          omega
        · show dntL (u.nodes ++ [t]) _ = _
          rw [hextn _ h1]
          exact h2
      case hmemo =>
        intro k r hk
        obtain ⟨z, hz, hv1, hv2⟩ := wf.hmemo k r hk
        exact ⟨z, hz, validAt_mono hext wf.hchild hv1,
          validAt_mono hext wf.hchild hv2⟩
    case ext => exact hext
    case lt =>
      show L < (u.nodes ++ [t]).length
      rw [List.length_append, List.length_singleton]
      omega
    case stored => exact hstored
    case dnt_eq => exact hdnt
    case memo => rfl
    case emp => rfl


theorem Ext.trans {u v w : Universe} (h1 : Ext u v) (h2 : Ext v w) :
    Ext u w := by
  obtain ⟨⟨e1, n1⟩, ⟨e2, p1⟩, i1, ⟨e3, t1⟩, m1⟩ := h1
  obtain ⟨⟨f1, n2⟩, ⟨f2, p2⟩, i2, ⟨f3, t2⟩, m2⟩ := h2
  exact ⟨⟨e1 ++ f1, by simp [n2, n1]⟩, ⟨e2 ++ f2, by simp [p2, p1]⟩,
    fun t h hh => i2 t h (i1 t h hh), ⟨e3 ++ f3, by simp [t2, t1]⟩,
    fun k r hh => m2 k r (m1 k r hh)⟩

theorem emptyQ_uni (z : Nat) : QTree.uni z (QTree.emptyQ z) = true := by
  induction z with
  | zero => rfl
  | succ z ih => simp [QTree.emptyQ, QTree.uni, ih]

theorem emptyQ_pop (z : Nat) : (QTree.emptyQ z).pop = 0 := by
  induction z with
  | zero => rfl
  | succ z ih => simp [QTree.emptyQ, QTree.pop, ih]

/-- `pushEmpty` appends the canonical all-dead tree of the next depth. -/
theorem pushEmpty_spec {u : Universe} (wf : WF u) :
    WF u.pushEmpty ∧ Ext u u.pushEmpty ∧
    u.pushEmpty.empty_trees.length = u.empty_trees.length + 1 ∧
    u.pushEmpty.next_gen = u.next_gen := by
  unfold Universe.pushEmpty
  cases hlast : u.empty_trees.getLast? with
  | none =>
    have hnil : u.empty_trees = [] := by
      cases he : u.empty_trees with
      | nil => rfl
      | cons a l => rw [he] at hlast; simp [List.getLast?_concat] at hlast
    have hc := canonicalise_spec wf (t := .leaf false) trivial
    obtain ⟨cwf, cext, clt, cstored, cdnt, cmemo, cemp⟩ := hc
    set v := (u.canonicalise (.leaf false)).1 with hv
    set h := (u.canonicalise (.leaf false)).2 with hh
    rw [show u.canonicalise (.leaf false) = (v, h) from rfl]
    dsimp only
    refine ⟨?_, ?_, ?_, ?_⟩
    · constructor
      case hlen => exact cwf.hlen
      case hchild => exact cwf.hchild
      case hintern => exact cwf.hintern
      case hpop => exact cwf.hpop
      case hempty =>
        intro z hz
        simp only [List.length_append, List.length_singleton] at hz
        rw [cemp, hnil] at hz ⊢
        simp only [List.nil_append, List.length_nil] at hz
        obtain rfl : z = 0 := by omega
        refine ⟨by simpa using clt, ?_⟩
        show dnt v _ = QTree.emptyQ 0
        simpa [interpT] using cdnt
      case hmemo => exact cwf.hmemo
    · obtain ⟨a1, a2, a3, _, a5⟩ := cext
      exact ⟨a1, a2, a3, ⟨[h], by rw [cemp]⟩, a5⟩
    · simp [cemp, hnil]
    · exact cmemo
  | some tr =>
    have hne : u.empty_trees ≠ [] := by
      intro hnil
      rw [hnil] at hlast
      exact Option.noConfusion hlast
    have htr : tr = u.empty_trees.getD (u.empty_trees.length - 1) 0 := by
      rw [List.getLast?_eq_get? ] at hlast
      rw [getD_eq_get?, hlast]
      rfl
    have hlt0 : u.empty_trees.length - 1 < u.empty_trees.length := by
      have := List.length_pos.mpr hne
      omega
    obtain ⟨htrlt, htrd⟩ := wf.hempty (u.empty_trees.length - 1) hlt0
    rw [← htr] at htrlt htrd
    have hc := canonicalise_spec wf (t := .branch tr tr tr tr)
      ⟨htrlt, htrlt, htrlt, htrlt⟩
    obtain ⟨cwf, cext, clt, cstored, cdnt, cmemo, cemp⟩ := hc
    set v := (u.canonicalise (.branch tr tr tr tr)).1 with hv
    set h := (u.canonicalise (.branch tr tr tr tr)).2 with hh
    dsimp only
    rw [show u.canonicalise (.branch tr tr tr tr) = (v, h) from rfl]
    dsimp only
    refine ⟨?_, ?_, ?_, ?_⟩
    · constructor
      case hlen => exact cwf.hlen
      case hchild => exact cwf.hchild
      case hintern => exact cwf.hintern
      case hpop => exact cwf.hpop
      case hempty =>
        intro z hz
        simp only [List.length_append, List.length_singleton] at hz
        rw [cemp] at hz ⊢
        by_cases hzl : z < u.empty_trees.length
        · have hgd : (u.empty_trees ++ [h]).getD z 0 =
              u.empty_trees.getD z 0 := by
            rw [getD_eq_get?, getD_eq_get?, List.get?_append hzl]
          rw [hgd]
          obtain ⟨e1, e2⟩ := wf.hempty z hzl
          refine ⟨?_, ?_⟩
          · obtain ⟨ext, hn⟩ := cext.hnodes
            show _ < v.nodes.length
            rw [hn, List.length_append]
            omega
          · show dnt v _ = QTree.emptyQ z
            rw [cext.dnt_eq wf.hchild e1]
            exact e2
        · obtain rfl : z = u.empty_trees.length := by omega
          have hgd : (u.empty_trees ++ [h]).getD u.empty_trees.length 0 = h := by
            rw [getD_eq_get?, List.get?_concat_length]
            rfl
          rw [hgd]
          refine ⟨clt, ?_⟩
          show dnt v h = QTree.emptyQ _
          rw [cdnt]
          obtain ⟨m, hm⟩ : ∃ m, u.empty_trees.length = m + 1 := by
            have := List.length_pos.mpr hne
            exact ⟨u.empty_trees.length - 1, by omega⟩
          rw [hm]
          simp only [interpT, QTree.emptyQ]
          have : dntL u.nodes tr = QTree.emptyQ m := by
            have := htrd
            rw [hm] at this
            simpa using this
          rw [this]
      case hmemo => exact cwf.hmemo
    · obtain ⟨a1, a2, a3, _, a5⟩ := cext
      refine ⟨a1, a2, a3, ⟨[h], by rw [cemp]⟩, a5⟩
    · simp [cemp]
    · exact cmemo

theorem pushIter_spec {u : Universe} (wf : WF u) (n : Nat) :
    WF (Nat.fold (fun _ v => Universe.pushEmpty v) n u) ∧
    Ext u (Nat.fold (fun _ v => Universe.pushEmpty v) n u) ∧
    (Nat.fold (fun _ v => Universe.pushEmpty v) n u).next_gen = u.next_gen ∧
    (Nat.fold (fun _ v => Universe.pushEmpty v) n u).empty_trees.length =
      u.empty_trees.length + n := by
  induction n with
  | zero => exact ⟨wf, Ext.refl u, rfl, rfl⟩
  | succ n ih =>
    obtain ⟨iwf, iext, imemo, ilen⟩ := ih
    obtain ⟨pwf, pext, plen, pmemo⟩ := pushEmpty_spec iwf
    refine ⟨pwf, iext.trans pext, ?_, ?_⟩
    · show (Nat.fold (fun _ v => Universe.pushEmpty v) n u).pushEmpty.next_gen
        = u.next_gen
      rw [pmemo, imemo]
    · show (Nat.fold (fun _ v => Universe.pushEmpty v) n
        u).pushEmpty.empty_trees.length = _
      rw [plen, ilen]
      omega

/-- Everything `empty_tree` guarantees: the returned handle denotes the
all-dead tree of the requested depth. -/
theorem empty_tree_spec {u : Universe} (wf : WF u) (depth : Nat) :
    WF (u.empty_tree depth).1 ∧ Ext u (u.empty_tree depth).1 ∧
    (u.empty_tree depth).1.next_gen = u.next_gen ∧
    validAt (u.empty_tree depth).1 (u.empty_tree depth).2 depth ∧
    dnt (u.empty_tree depth).1 (u.empty_tree depth).2 =
      QTree.emptyQ depth := by
  obtain ⟨iwf, iext, imemo, ilen⟩ :=
    pushIter_spec wf (depth + 1 - u.empty_trees.length)
  set u1 := Nat.fold (fun _ v => Universe.pushEmpty v)
    (depth + 1 - u.empty_trees.length) u with hu1
  have hres : u.empty_tree depth = (u1, u1.empty_trees.getD depth 0) := rfl
  rw [hres]
  have hd : depth < u1.empty_trees.length := by omega
  obtain ⟨e1, e2⟩ := iwf.hempty depth hd
  exact ⟨iwf, iext, imemo, ⟨e1, by rw [e2]; exact emptyQ_uni depth⟩, e2⟩

theorem uni_succ {t : QTree} {z : Nat} (h : QTree.uni (z + 1) t = true) :
    ∃ a b c d, t = QTree.branch a b c d ∧ QTree.uni z a = true ∧
      QTree.uni z b = true ∧ QTree.uni z c = true ∧ QTree.uni z d = true := by
  cases t with
  | leaf b => simp [QTree.uni] at h
  | branch a b c d =>
    simp only [QTree.uni, Bool.and_eq_true] at h
    exact ⟨a, b, c, d, rfl, h.1.1.1, h.1.1.2, h.1.2, h.2⟩

/-- A handle valid at a positive depth is stored as a branch whose children
are valid one depth lower; `subtree` returns exactly those children. -/
theorem dnt_branch {u : Universe} (wf : WF u) {tr z : Nat}
    (h : validAt u tr (z + 1)) :
    ∃ a b c d, u.subtree tr = (a, b, c, d) ∧
      a < tr ∧ b < tr ∧ c < tr ∧ d < tr ∧
      dnt u tr = QTree.branch (dnt u a) (dnt u b) (dnt u c) (dnt u d) ∧
      validAt u a z ∧ validAt u b z ∧ validAt u c z ∧ validAt u d z := by
  obtain ⟨hlt, huni⟩ := h
  obtain ⟨node, hget⟩ : ∃ t, u.nodes.get? tr = some t := by
    cases hq : u.nodes.get? tr with
    | none =>
      exfalso
      have := List.get?_eq_get (l := u.nodes) (n := tr) hlt
      rw [hq] at this
      exact Option.noConfusion this
    | some t => exact ⟨t, rfl⟩
  have hdnt := dnt_eq_interp wf.hchild hget
  cases node with
  | leaf b =>
    exfalso
    rw [show dnt u tr = dntL u.nodes tr from rfl, hdnt] at huni
    simp [interpT, QTree.uni] at huni
  | branch a b c d =>
    have hch := wf.hchild tr a b c d hget
    have hsub : u.subtree tr = (a, b, c, d) := by
      unfold Universe.subtree
      rw [getD_eq_get?, hget]
      rfl
    rw [show dnt u tr = dntL u.nodes tr from rfl, hdnt] at huni ⊢
    obtain ⟨a', b', c', d', heq, ha, hb, hc, hd⟩ := uni_succ huni
    simp only [interpT, QTree.branch.injEq] at heq
    refine ⟨a, b, c, d, hsub, hch.1, hch.2.1, hch.2.2.1, hch.2.2.2,
      rfl, ?_, ?_, ?_, ?_⟩
    · exact ⟨by omega, by rw [show dnt u a = dntL u.nodes a from rfl, heq.1]; exact ha⟩
    · exact ⟨by omega, by rw [show dnt u b = dntL u.nodes b from rfl, heq.2.1]; exact hb⟩
    · exact ⟨by omega, by rw [show dnt u c = dntL u.nodes c from rfl, heq.2.2.1]; exact hc⟩
    · exact ⟨by omega, by rw [show dnt u d = dntL u.nodes d from rfl, heq.2.2.2]; exact hd⟩

theorem pick_child {u : Universe} {tr a b c d : Nat} (i : Nat)
    (hsub : u.subtree tr = (a, b, c, d))
    (hdnt : dnt u tr = QTree.branch (dnt u a) (dnt u b) (dnt u c) (dnt u d)) :
    dnt u (Universe.pick (u.subtree tr) i) = (dnt u tr).child i := by
  rw [hsub, hdnt]
  match i with
  | 0 => rfl
  | 1 => rfl
  | 2 => rfl
  | n + 3 => rfl

/-- `getN` computes the denotational `getQN`, preserving validity. -/
theorem getN_dnt {u : Universe} (wf : WF u) :
    ∀ (fuel : Nat) (tr : Nat) (p : P3) (z : Nat), p.z ≤ fuel →
      validAt u tr z → p.z ≤ z →
      validAt u (Universe.getN u fuel tr p) (z - p.z) ∧
      dnt u (Universe.getN u fuel tr p) = QTree.getQN fuel (dnt u tr) p := by
  intro fuel
  induction fuel with
  | zero =>
    intro tr p z hf hv hz
    have hp0 : p.z = 0 := by omega
    rw [hp0]
    exact ⟨by simpa using hv, rfl⟩
  | succ fuel ih =>
    intro tr p z hf hv hz
    show validAt u (Universe.getN u (fuel + 1) tr p) _ ∧
      dnt u (Universe.getN u (fuel + 1) tr p) = _
    unfold Universe.getN QTree.getQN
    cases hdesc : p.descend with
    | none =>
      have hp0 : p.z = 0 := by
        by_contra hne
        unfold P3.descend at hdesc
        cases hpz : p.z with
        | zero => exact hne hpz
        | succ m => rw [hpz] at hdesc; dsimp only at hdesc; split at hdesc <;>
            exact Option.noConfusion hdesc
      rw [hp0]
      exact ⟨by simpa [hp0] using hv, rfl⟩
    | some ip =>
      obtain ⟨i, p'⟩ := ip
      have hzz := P3.descend_z hdesc
      obtain ⟨m, rfl⟩ : ∃ m, z = m + 1 := ⟨z - 1, by omega⟩
      obtain ⟨a, b, c, d, hsub, _, _, _, _, hdnt, hva, hvb, hvc, hvd⟩ :=
        dnt_branch wf hv
      have hchild : dnt u (Universe.pick (u.subtree tr) i) =
          (dnt u tr).child i := pick_child i hsub hdnt
      have hvchild : validAt u (Universe.pick (u.subtree tr) i) m := by
        rw [hsub]
        match i with
        | 0 => exact hva
        | 1 => exact hvb
        | 2 => exact hvc
        | n + 3 => exact hvd
      obtain ⟨rva, rdnt⟩ := ih (Universe.pick (u.subtree tr) i) p' m
        (by omega) hvchild (by omega)
      constructor
      · have : m - p'.z = m + 1 - p.z := by omega
        rw [← this]
        exact rva
      · rw [rdnt, hchild]

/-- `get_node` computes the denotational `getQ`, preserving validity. -/
theorem get_node_dnt {u : Universe} (wf : WF u) {tr : Nat} {p : P3}
    {z : Nat} (hv : validAt u tr z) (hz : p.z ≤ z) :
    validAt u (u.get_node tr p) (z - p.z) ∧
    dnt u (u.get_node tr p) = (dnt u tr).getQ p :=
  getN_dnt wf p.z tr p z (by omega) hv hz

/-- The pure mirror of the `subtree[i] = r` update. -/
def QTree.putQ : QTree → Nat → QTree → QTree
  | .branch a b c d, i, r =>
    match i with
    | 0 => .branch r b c d
    | 1 => .branch a r c d
    | 2 => .branch a b r d
    | _ => .branch a b c r
  | t, _, _ => t

/-- The pure mirror of `Universe::set_bit` (same fuelled recursion as
`setBitN`). -/
def QTree.setQN : Nat → QTree → P3 → QTree
  | 0, _, _ => .leaf true
  | fuel + 1, t, p =>
    match p.descend with
    | none => .leaf true
    | some (i, p') => QTree.putQ t i (QTree.setQN fuel (t.child i) p')

theorem put_pick (q : Nat × Nat × Nat × Nat) (i : Nat) (v : Nat) :
    Universe.pick (Universe.put q i v) i = v := by
  match i with
  | 0 => rfl
  | 1 => rfl
  | 2 => rfl
  | n + 3 => rfl

theorem put_put (q : Nat × Nat × Nat × Nat) (i : Nat) (v : Nat) :
    Universe.put (Universe.put q i v) i v = Universe.put q i v := by
  match i with
  | 0 => rfl
  | 1 => rfl
  | 2 => rfl
  | n + 3 => rfl

/-- `setBitN` computes the denotational `setQN` and extends the store,
preserving depth-uniformity when the coordinate depth matches. -/
theorem setBitN_spec :
    ∀ (fuel : Nat) (u : Universe) (tr : Nat) (p : P3) (z : Nat), WF u →
      p.z ≤ fuel → validAt u tr z → p.z = z →
      WF (Universe.setBitN u fuel tr p).1 ∧
      Ext u (Universe.setBitN u fuel tr p).1 ∧
      validAt (Universe.setBitN u fuel tr p).1
        (Universe.setBitN u fuel tr p).2 z ∧
      (Universe.setBitN u fuel tr p).1.next_gen = u.next_gen ∧
      (Universe.setBitN u fuel tr p).1.empty_trees = u.empty_trees ∧
      (Universe.setBitN u fuel tr p).1.nodes.get?
        (Universe.setBitN u fuel tr p).2 ≠ none ∧
      dnt (Universe.setBitN u fuel tr p).1 (Universe.setBitN u fuel tr p).2 =
        QTree.setQN fuel (dnt u tr) p := by
  intro fuel
  induction fuel with
  | zero =>
    intro u tr p z wf hf hv hz
    have hp0 : p.z = 0 := by omega
    unfold Universe.setBitN
    obtain ⟨cwf, cext, clt, cstored, cdnt, cmemo, cemp⟩ :=
      canonicalise_spec wf (t := .leaf true) trivial
    refine ⟨cwf, cext, ?_, cmemo, cemp, by rw [cstored]; simp, by
      rw [cdnt]; rfl⟩
    refine ⟨clt, ?_⟩
    rw [cdnt]
    have : z = 0 := by omega
    rw [this]
    rfl
  | succ fuel ih =>
    intro u tr p z wf hf hv hz
    show WF (Universe.setBitN u (fuel + 1) tr p).1 ∧ _
    unfold Universe.setBitN
    cases hdesc : p.descend with
    | none =>
      dsimp only
      obtain ⟨cwf, cext, clt, cstored, cdnt, cmemo, cemp⟩ :=
        canonicalise_spec wf (t := .leaf true) trivial
      have hp0 : p.z = 0 := by
        by_contra hne
        unfold P3.descend at hdesc
        cases hpz : p.z with
        | zero => exact hne hpz
        | succ m => rw [hpz] at hdesc; dsimp only at hdesc; split at hdesc <;>
            exact Option.noConfusion hdesc
      refine ⟨cwf, cext, ?_, cmemo, cemp, by rw [cstored]; simp, by
        rw [cdnt]; unfold QTree.setQN; rw [hdesc]; rfl⟩
      refine ⟨clt, ?_⟩
      rw [cdnt]
      have : z = 0 := by omega
      rw [this]
      rfl
    | some ip =>
      obtain ⟨i, p'⟩ := ip
      dsimp only
      have hzz := P3.descend_z hdesc
      obtain ⟨m, rfl⟩ : ∃ m, z = m + 1 := ⟨z - 1, by omega⟩
      obtain ⟨a, b, c, d, hsub, haz, hbz, hcz, hdz, hdnt, hva, hvb, hvc, hvd⟩ :=
        dnt_branch wf hv
      have hvchild : validAt u (Universe.pick (u.subtree tr) i) m := by
        rw [hsub]
        match i with
        | 0 => exact hva
        | 1 => exact hvb
        | 2 => exact hvc
        | n + 3 => exact hvd
      obtain ⟨rwf, rext, rva, rmemo, remp, rstored, rdnt⟩ :=
        ih u (Universe.pick (u.subtree tr) i) p' m wf (by omega) hvchild
          (by omega)
      rcases hinner : Universe.setBitN u fuel (Universe.pick (u.subtree tr) i)
        p' with ⟨u1, r1⟩
      rw [hinner] at rwf rext rva rmemo remp rstored rdnt
      dsimp only at rwf rext rva rmemo remp rstored rdnt ⊢
      set q' := Universe.put (u.subtree tr) i r1 with hq'
      have htok : TreeOK u1.nodes (.branch q'.1 q'.2.1 q'.2.2.1 q'.2.2.2)
          := by
        have hlen : u.nodes.length ≤ u1.nodes.length := by
          obtain ⟨ext, hn⟩ := rext.hnodes
          rw [hn, List.length_append]
          omega
        have hin : r1 < u1.nodes.length := by
          cases hq : u1.nodes.get? r1 with
          | none => exact absurd hq rstored
          | some t => exact get?_some_lt hq
        have hich : ∀ j, j < tr → j < u1.nodes.length := by
          intro j hj
          have : tr < u.nodes.length := hv.1
          omega
        rw [hq', hsub]
        match i with
        | 0 => exact ⟨hin, hich b hbz, hich c hcz, hich d hdz⟩
        | 1 => exact ⟨hich a haz, hin, hich c hcz, hich d hdz⟩
        | 2 => exact ⟨hich a haz, hich b hbz, hin, hich d hdz⟩
        | n + 3 => exact ⟨hich a haz, hich b hbz, hich c hcz, hin⟩
      obtain ⟨cwf, cext, clt, cstored, cdnt, cmemo, cemp⟩ :=
        canonicalise_spec rwf htok
      have htrlen : tr < u.nodes.length := hv.1
      have hdold : ∀ j, j < u.nodes.length → dntL u1.nodes j = dnt u j :=
        fun j hj => rext.dnt_eq wf.hchild (i := j) hj
      have hdinner : dntL u1.nodes r1 =
          QTree.setQN fuel (dnt u (Universe.pick (u.subtree tr) i)) p' := rdnt
      have huniinner : QTree.uni m (dntL u1.nodes r1) = true := rva.2
      have hua : QTree.uni m (dntL u1.nodes a) = true := by
        rw [hdold a (by omega)]; exact hva.2
      have hub : QTree.uni m (dntL u1.nodes b) = true := by
        rw [hdold b (by omega)]; exact hvb.2
      have huc : QTree.uni m (dntL u1.nodes c) = true := by
        rw [hdold c (by omega)]; exact hvc.2
      have hud : QTree.uni m (dntL u1.nodes d) = true := by
        rw [hdold d (by omega)]; exact hvd.2
      refine ⟨cwf, (rext.trans cext), ?_, ?_, ?_, by rw [cstored]; simp, ?_⟩
      · refine ⟨clt, ?_⟩
        rw [cdnt]
        show QTree.uni (m + 1) (interpT u1.nodes _) = true
        rw [hq', hsub]
        match i with
        | 0 =>
          show QTree.uni (m + 1) (QTree.branch (dntL u1.nodes r1)
            (dntL u1.nodes b) (dntL u1.nodes c)
            (dntL u1.nodes d)) = true
          simp [QTree.uni, huniinner, hub, huc, hud]
        | 1 =>
          show QTree.uni (m + 1) (QTree.branch (dntL u1.nodes a)
            (dntL u1.nodes r1) (dntL u1.nodes c)
            (dntL u1.nodes d)) = true
          simp [QTree.uni, huniinner, hua, huc, hud]
        | 2 =>
          show QTree.uni (m + 1) (QTree.branch (dntL u1.nodes a)
            (dntL u1.nodes b) (dntL u1.nodes r1)
            (dntL u1.nodes d)) = true
          simp [QTree.uni, huniinner, hua, hub, hud]
        | n + 3 =>
          show QTree.uni (m + 1) (QTree.branch (dntL u1.nodes a)
            (dntL u1.nodes b) (dntL u1.nodes c)
            (dntL u1.nodes r1)) = true
          simp [QTree.uni, huniinner, hua, hub, huc]
      · rw [cmemo, rmemo]
      · rw [cemp, remp]
      · rw [cdnt]
        show interpT u1.nodes _ =
          QTree.setQN (fuel + 1) (dnt u tr) p
        unfold QTree.setQN
        rw [hdesc, hq', hsub]
        have hch0 : (dnt u tr).child i = dnt u (Universe.pick (u.subtree tr) i)
          := (pick_child i hsub hdnt).symm
        rw [hdnt]
        have ha' := hdold a (by omega)
        have hb' := hdold b (by omega)
        have hc' := hdold c (by omega)
        have hd' := hdold d (by omega)
        match i with
        | 0 =>
          show QTree.branch (dntL u1.nodes r1)
            (dntL u1.nodes b) (dntL u1.nodes c)
            (dntL u1.nodes d) = QTree.putQ _ 0 _
          rw [hdinner, hb', hc', hd']
          rw [show Universe.pick (u.subtree tr) 0 = a by rw [hsub]; rfl]
          rfl
        | 1 =>
          show QTree.branch (dntL u1.nodes a)
            (dntL u1.nodes r1) (dntL u1.nodes c)
            (dntL u1.nodes d) = QTree.putQ _ 1 _
          rw [hdinner, ha', hc', hd']
          rw [show Universe.pick (u.subtree tr) 1 = b by rw [hsub]; rfl]
          rfl
        | 2 =>
          show QTree.branch (dntL u1.nodes a)
            (dntL u1.nodes b) (dntL u1.nodes r1)
            (dntL u1.nodes d) = QTree.putQ _ 2 _
          rw [hdinner, ha', hb', hd']
          rw [show Universe.pick (u.subtree tr) 2 = c by rw [hsub]; rfl]
          rfl
        | n + 3 =>
          show QTree.branch (dntL u1.nodes a)
            (dntL u1.nodes b) (dntL u1.nodes c)
            (dntL u1.nodes r1) = QTree.putQ _ (n + 3) _
          rw [hdinner, ha', hb', hc']
          rw [show Universe.pick (u.subtree tr) (n + 3) = d by rw [hsub]; rfl]
          rfl

/-- The pure mirror of `Universe::expand_universe`: wrap each child with
three all-dead siblings. -/
def QTree.expandQ : QTree → Nat → QTree
  | .branch a b c d, level =>
    .branch (.branch (emptyQ (level - 1)) (emptyQ (level - 1))
        (emptyQ (level - 1)) a)
      (.branch (emptyQ (level - 1)) (emptyQ (level - 1)) b (emptyQ (level - 1)))
      (.branch (emptyQ (level - 1)) c (emptyQ (level - 1)) (emptyQ (level - 1)))
      (.branch d (emptyQ (level - 1)) (emptyQ (level - 1)) (emptyQ (level - 1)))
  | t, _ => t

theorem Ext.len_le {u u' : Universe} (he : Ext u u') :
    u.nodes.length ≤ u'.nodes.length := by
  obtain ⟨ext, hn⟩ := he.hnodes
  rw [hn, List.length_append]
  omega

theorem interp_branch (u : Universe) (a b c d : Nat) :
    interpT u.nodes (Tree.branch a b c d) =
      QTree.branch (dnt u a) (dnt u b) (dnt u c) (dnt u d) := rfl

theorem uni_branch {a b c d : QTree} {m : Nat} (ha : QTree.uni m a = true)
    (hb : QTree.uni m b = true) (hc : QTree.uni m c = true)
    (hd : QTree.uni m d = true) :
    QTree.uni (m + 1) (QTree.branch a b c d) = true := by
  simp [QTree.uni, ha, hb, hc, hd]

theorem expand_universe_spec {u : Universe} (wf : WF u) {tr level : Nat}
    (hv : validAt u tr level) (hl : 1 ≤ level) :
    WF (u.expand_universe level tr).1 ∧ Ext u (u.expand_universe level tr).1 ∧
    validAt (u.expand_universe level tr).1 (u.expand_universe level tr).2
      (level + 1) ∧
    (u.expand_universe level tr).1.next_gen = u.next_gen ∧
    dnt (u.expand_universe level tr).1 (u.expand_universe level tr).2 =
      (dnt u tr).expandQ level := by
  obtain ⟨m, rfl⟩ : ∃ m, level = m + 1 := ⟨level - 1, by omega⟩
  obtain ⟨a, b, c, d, hsub, haz, hbz, hcz, hdz, hdnt, hva, hvb, hvc, hvd⟩ :=
    dnt_branch wf hv
  have htr : tr < u.nodes.length := hv.1
  unfold Universe.expand_universe
  rw [hsub]
  dsimp only
  rw [show (m + 1 - 1) = m from rfl]
  obtain ⟨ewf, eext, ememo, eva, edn⟩ := empty_tree_spec wf m
  rcases he : u.empty_tree m with ⟨u0, border⟩
  rw [he] at ewf eext ememo eva edn
  dsimp only at ewf eext ememo eva edn ⊢
  have hda : dnt u0 a = dnt u a := eext.dnt_eq wf.hchild (by omega)
  have hdb : dnt u0 b = dnt u b := eext.dnt_eq wf.hchild (by omega)
  have hdc : dnt u0 c = dnt u c := eext.dnt_eq wf.hchild (by omega)
  have hdd : dnt u0 d = dnt u d := eext.dnt_eq wf.hchild (by omega)
  have hlen0 := eext.len_le
  have hbord : border < u0.nodes.length := eva.1
  -- NW wrapper
  obtain ⟨awf, aext, alt, astored, adnt, amemo, aemp⟩ :=
    canonicalise_spec ewf (t := .branch border border border a)
      ⟨eva.1, eva.1, eva.1, by omega⟩
  rcases hra : u0.canonicalise (.branch border border border a) with ⟨ua, ra⟩
  rw [hra] at awf aext alt astored adnt amemo aemp
  dsimp only at awf aext alt astored adnt amemo aemp ⊢
  have hlena := aext.len_le
  -- NE wrapper
  obtain ⟨bwf, bext, blt, bstored, bdnt, bmemo, bemp⟩ :=
    canonicalise_spec awf (t := .branch border border b border)
      ⟨by omega, by omega, by omega, by omega⟩
  rcases hrb : ua.canonicalise (.branch border border b border) with ⟨ub, rb⟩
  rw [hrb] at bwf bext blt bstored bdnt bmemo bemp
  dsimp only at bwf bext blt bstored bdnt bmemo bemp ⊢
  have hlenb := bext.len_le
  -- SW wrapper
  obtain ⟨cwf, cext, clt, cstored, cdnt2, cmemo, cemp⟩ :=
    canonicalise_spec bwf (t := .branch border c border border)
      ⟨by omega, by omega, by omega, by omega⟩
  rcases hrc : ub.canonicalise (.branch border c border border) with ⟨uc, rc⟩
  rw [hrc] at cwf cext clt cstored cdnt2 cmemo cemp
  dsimp only at cwf cext clt cstored cdnt2 cmemo cemp ⊢
  have hlenc := cext.len_le
  -- SE wrapper
  obtain ⟨dwf, dext, dlt, dstored, ddnt, dmemo, demp⟩ :=
    canonicalise_spec cwf (t := .branch d border border border)
      ⟨by omega, by omega, by omega, by omega⟩
  rcases hrd : uc.canonicalise (.branch d border border border) with ⟨ud, rd⟩
  rw [hrd] at dwf dext dlt dstored ddnt dmemo demp
  dsimp only at dwf dext dlt dstored ddnt dmemo demp ⊢
  have hlend := dext.len_le
  -- final branch
  obtain ⟨fwf, fext, flt, fstored, fdnt, fmemo, femp⟩ :=
    canonicalise_spec dwf (t := .branch ra rb rc rd)
      ⟨by omega, by omega, by omega, by omega⟩
  rcases hrf : ud.canonicalise (.branch ra rb rc rd) with ⟨uf, rf⟩
  rw [hrf] at fwf fext flt fstored fdnt fmemo femp
  dsimp only at fwf fext flt fstored fdnt fmemo femp ⊢
  -- denotations of the wrappers, transported to the final store
  have hdea : dnt ua ra = QTree.branch (QTree.emptyQ m) (QTree.emptyQ m)
      (QTree.emptyQ m) (dnt u a) := by
    rw [adnt, interp_branch, edn, hda]
  have hdeb : dnt ub rb = QTree.branch (QTree.emptyQ m) (QTree.emptyQ m)
      (dnt u b) (QTree.emptyQ m) := by
    rw [bdnt, interp_branch, aext.dnt_eq ewf.hchild eva.1,
      aext.dnt_eq ewf.hchild (by omega), edn, hdb]
  have hdec : dnt uc rc = QTree.branch (QTree.emptyQ m) (dnt u c)
      (QTree.emptyQ m) (QTree.emptyQ m) := by
    rw [cdnt2, interp_branch,
      (aext.trans bext).dnt_eq ewf.hchild eva.1,
      (aext.trans bext).dnt_eq ewf.hchild (by omega), edn, hdc]
  have hded : dnt ud rd = QTree.branch (dnt u d) (QTree.emptyQ m)
      (QTree.emptyQ m) (QTree.emptyQ m) := by
    rw [ddnt, interp_branch,
      ((aext.trans bext).trans cext).dnt_eq ewf.hchild eva.1,
      ((aext.trans bext).trans cext).dnt_eq ewf.hchild (by omega), edn, hdd]
  have hfin : dnt uf rf = QTree.branch (dnt ua ra) (dnt ub rb) (dnt uc rc)
      (dnt ud rd) := by
    rw [fdnt, interp_branch,
      (((bext.trans cext).trans dext)).dnt_eq awf.hchild alt,
      ((cext.trans dext)).dnt_eq bwf.hchild blt,
      (dext).dnt_eq cwf.hchild clt]
  have hresult : dnt uf rf = (dnt u tr).expandQ (m + 1) := by
    rw [hfin, hdea, hdeb, hdec, hded, hdnt]
    rfl
  refine ⟨fwf, ?_, ⟨flt, ?_⟩, ?_, hresult⟩
  · exact ((((eext.trans aext).trans bext).trans cext).trans dext).trans fext
  · rw [hresult, hdnt]
    show QTree.uni (m + 1 + 1) _ = true
    have hea := emptyQ_uni m
    exact uni_branch
      (uni_branch hea hea hea hva.2) (uni_branch hea hea hvb.2 hea)
      (uni_branch hea hvc.2 hea hea) (uni_branch hvd.2 hea hea hea)
  · rw [fmemo, dmemo, cmemo, bmemo, amemo, ememo]

theorem P3.quadrants_none {q : P3} (h : q.quadrants = none) : q.z = 0 := by
  by_contra hne
  unfold P3.quadrants at h
  cases hz : q.z with
  | zero => exact hne hz
  | succ m => rw [hz] at h; exact Option.noConfusion h

/-- The pure mirror of the `reframe` recursion. -/
def QTree.reframeGoQ (t : QTree) (zsrc : Nat) : Nat → P3 → QTree
  | 0, q => t.getQ ⟨q.y, q.x, zsrc⟩
  | fuel + 1, q =>
    match q.quadrants with
    | none => t.getQ ⟨q.y, q.x, zsrc⟩
    | some (q0, q1, q2, q3) =>
      .branch (reframeGoQ t zsrc fuel q0) (reframeGoQ t zsrc fuel q1)
        (reframeGoQ t zsrc fuel q2) (reframeGoQ t zsrc fuel q3)

/-- The pure mirror of `Universe::reframe`. -/
def QTree.reframeQ (t : QTree) (p : P3) (z : Nat) : QTree :=
  QTree.reframeGoQ t p.z z ⟨p.y, p.x, z⟩

/-- `reframeGo` computes the denotational `reframeGoQ` and extends the
store. -/
theorem reframeGo_spec :
    ∀ (fuel : Nat) (u : Universe) (tr zsrc : Nat) (q : P3) (z : Nat), WF u →
      validAt u tr z → zsrc ≤ z → q.z ≤ fuel →
      WF (Universe.reframeGo tr zsrc fuel u q).1 ∧
      Ext u (Universe.reframeGo tr zsrc fuel u q).1 ∧
      validAt (Universe.reframeGo tr zsrc fuel u q).1
        (Universe.reframeGo tr zsrc fuel u q).2 (q.z + (z - zsrc)) ∧
      (Universe.reframeGo tr zsrc fuel u q).1.next_gen = u.next_gen ∧
      dnt (Universe.reframeGo tr zsrc fuel u q).1
        (Universe.reframeGo tr zsrc fuel u q).2 =
        QTree.reframeGoQ (dnt u tr) zsrc fuel q := by
  intro fuel
  induction fuel with
  | zero =>
    intro u tr zsrc q z wf hv hzs hf
    have hq0 : q.z = 0 := by omega
    obtain ⟨gva, gdnt⟩ := get_node_dnt wf hv (p := ⟨q.y, q.x, zsrc⟩) hzs
    exact ⟨wf, Ext.refl u, by rw [hq0]; simpa using gva, rfl, gdnt⟩
  | succ fuel ih =>
    intro u tr zsrc q z wf hv hzs hf
    show WF (Universe.reframeGo tr zsrc (fuel + 1) u q).1 ∧ _
    unfold Universe.reframeGo QTree.reframeGoQ
    cases hquad : q.quadrants with
    | none =>
      dsimp only
      have hq0 := P3.quadrants_none hquad
      obtain ⟨gva, gdnt⟩ := get_node_dnt wf hv (p := ⟨q.y, q.x, zsrc⟩) hzs
      exact ⟨wf, Ext.refl u, by rw [hq0]; simpa using gva, rfl, gdnt⟩
    | some qs =>
      obtain ⟨q0, q1, q2, q3⟩ := qs
      dsimp only
      obtain ⟨hqz, h1z, h2z, h3z⟩ := P3.quadrants_z hquad
      obtain ⟨wf0, ext0, va0, memo0, dnt0⟩ :=
        ih u tr zsrc q0 z wf hv hzs (by omega)
      rcases hr0 : Universe.reframeGo tr zsrc fuel u q0 with ⟨u0, r0⟩
      rw [hr0] at wf0 ext0 va0 memo0 dnt0
      dsimp only at wf0 ext0 va0 memo0 dnt0 ⊢
      have hvu0 : validAt u0 tr z := validAt_mono ext0 wf.hchild hv
      obtain ⟨wf1, ext1, va1, memo1, dnt1⟩ :=
        ih u0 tr zsrc q1 z wf0 hvu0 hzs (by omega)
      rcases hr1 : Universe.reframeGo tr zsrc fuel u0 q1 with ⟨u1, r1⟩
      rw [hr1] at wf1 ext1 va1 memo1 dnt1
      dsimp only at wf1 ext1 va1 memo1 dnt1 ⊢
      have hvu1 : validAt u1 tr z := validAt_mono ext1 wf0.hchild hvu0
      obtain ⟨wf2, ext2, va2, memo2, dnt2⟩ :=
        ih u1 tr zsrc q2 z wf1 hvu1 hzs (by omega)
      rcases hr2 : Universe.reframeGo tr zsrc fuel u1 q2 with ⟨u2, r2⟩
      rw [hr2] at wf2 ext2 va2 memo2 dnt2
      dsimp only at wf2 ext2 va2 memo2 dnt2 ⊢
      have hvu2 : validAt u2 tr z := validAt_mono ext2 wf1.hchild hvu1
      obtain ⟨wf3, ext3, va3, memo3, dnt3⟩ :=
        ih u2 tr zsrc q3 z wf2 hvu2 hzs (by omega)
      rcases hr3 : Universe.reframeGo tr zsrc fuel u2 q3 with ⟨u3, r3⟩
      rw [hr3] at wf3 ext3 va3 memo3 dnt3
      dsimp only at wf3 ext3 va3 memo3 dnt3 ⊢
      have hva0' : validAt u3 r0 (q0.z + (z - zsrc)) :=
        validAt_mono ((ext1.trans ext2).trans ext3) wf0.hchild va0
      have hva1' : validAt u3 r1 (q1.z + (z - zsrc)) :=
        validAt_mono (ext2.trans ext3) wf1.hchild va1
      have hva2' : validAt u3 r2 (q2.z + (z - zsrc)) :=
        validAt_mono ext3 wf2.hchild va2
      obtain ⟨cwf, cext, clt, cstored, cdnt, cmemo, cemp⟩ :=
        canonicalise_spec wf3 (t := .branch r0 r1 r2 r3)
          ⟨hva0'.1, hva1'.1, hva2'.1, va3.1⟩
      rcases hrc : u3.canonicalise (.branch r0 r1 r2 r3) with ⟨uc, rc⟩
      rw [hrc] at cwf cext clt cstored cdnt cmemo cemp
      dsimp only at cwf cext clt cstored cdnt cmemo cemp ⊢
      have hdr0 : dnt u3 r0 = dnt u0 r0 :=
        ((ext1.trans ext2).trans ext3).dnt_eq wf0.hchild va0.1
      have hdr1 : dnt u3 r1 = dnt u1 r1 :=
        (ext2.trans ext3).dnt_eq wf1.hchild va1.1
      have hdr2 : dnt u3 r2 = dnt u2 r2 := ext3.dnt_eq wf2.hchild va2.1
      have hdt0 : dnt u0 tr = dnt u tr := ext0.dnt_eq wf.hchild hv.1
      have hdt1 : dnt u1 tr = dnt u0 tr := ext1.dnt_eq wf0.hchild hvu0.1
      have hdt2 : dnt u2 tr = dnt u1 tr := ext2.dnt_eq wf1.hchild hvu1.1
      refine ⟨cwf, ((((ext0.trans ext1).trans ext2).trans ext3).trans cext),
        ?_, ?_, ?_⟩
      · refine ⟨clt, ?_⟩
        rw [cdnt, interp_branch]
        rw [show q.z + (z - zsrc) = (q0.z + (z - zsrc)) + 1 by omega]
        refine uni_branch hva0'.2 ?_ ?_ ?_
        · rw [show q0.z = q1.z from h1z.symm]
          exact hva1'.2
        · rw [show q0.z = q2.z from h2z.symm]
          exact hva2'.2
        · rw [show q0.z = q3.z from h3z.symm]
          exact va3.2
      · rw [cmemo, memo3, memo2, memo1, memo0]
      · rw [cdnt, interp_branch, hdr0, hdr1, hdr2, dnt0, dnt1, dnt2, dnt3,
          hdt2, hdt1, hdt0]

/-- `reframe` computes the denotational `reframeQ` and extends the store. -/
theorem reframe_spec {u : Universe} (wf : WF u) {tr : Nat} {p : P3}
    {zout z : Nat} (hv : validAt u tr z) (hzs : p.z ≤ z) :
    WF (u.reframe tr p zout).1 ∧ Ext u (u.reframe tr p zout).1 ∧
    validAt (u.reframe tr p zout).1 (u.reframe tr p zout).2
      (zout + (z - p.z)) ∧
    (u.reframe tr p zout).1.next_gen = u.next_gen ∧
    dnt (u.reframe tr p zout).1 (u.reframe tr p zout).2 =
      (dnt u tr).reframeQ p zout := by
  have h := reframeGo_spec zout u tr p.z ⟨p.y, p.x, zout⟩ z wf hv hzs
    (by exact Nat.le_refl zout)
  exact h

/-- Depth-uniformity determines the depth. -/
theorem uni_unique : ∀ {t : QTree} {z z' : Nat}, QTree.uni z t = true →
    QTree.uni z' t = true → z = z' := by
  intro t
  induction t with
  | leaf b =>
    intro z z' hz hz'
    cases z with
    | zero => cases z' with
      | zero => rfl
      | succ m => exact absurd hz' (by simp [QTree.uni])
    | succ m => exact absurd hz (by simp [QTree.uni])
  | branch a b c d iha _ _ _ =>
    intro z z' hz hz'
    cases z with
    | zero => exact absurd hz (by simp [QTree.uni])
    | succ m => cases z' with
      | zero => exact absurd hz' (by simp [QTree.uni])
      | succ m' =>
        simp only [QTree.uni, Bool.and_eq_true] at hz hz'
        have := iha hz.1.1.1 hz'.1.1.1
        omega

/-- The pure mirror of `u16::count_ones` on the masked window together
with the B3/S23 decision of `l2_gen`'s inner `leaf`. -/
def QTree.l2leafQ (bitmask : Nat) : QTree :=
  match Universe.l2leaf bitmask with
  | .leaf b => .leaf b
  | .branch _ _ _ _ => .leaf false

/-- The pure mirror of `Universe::l2_gen`. -/
def QTree.l2genQ (bitmask : Nat) : QTree :=
  .branch (QTree.l2leafQ (bitmask >>> 5)) (QTree.l2leafQ (bitmask >>> 4))
    (QTree.l2leafQ (bitmask >>> 1)) (QTree.l2leafQ (bitmask >>> 0))

/-- The pure mirror of `Universe::make_l2_bitmask`. -/
def QTree.maskQ (t : QTree) : Nat :=
  ([-2, -1, 0, 1] : List Int).foldl (fun bm y =>
    ([-2, -1, 0, 1] : List Int).foldl (fun bm x =>
      2 * bm + (if (t.getQ ⟨y, x, 2⟩).aliveQ then 1 else 0)) bm) 0

/-- The pure mirror of the engine's compute phase (`Universe::step`
without the memo). -/
def QTree.stepQ : QTree → Nat → Nat → QTree
  | t, 0, _ => t
  | t, 1, _ => t
  | t, 2, _ => QTree.l2genQ (QTree.maskQ t)
  | t, d + 3, ssd =>
    let t0 := t.reframeQ ⟨-2, -2, 3⟩ 2
    let t1 := t.reframeQ ⟨-2, 0, 3⟩ 2
    let t2 := t.reframeQ ⟨-2, 2, 3⟩ 2
    let t3 := t.reframeQ ⟨0, -2, 3⟩ 2
    let t4 := t.reframeQ ⟨0, 0, 3⟩ 2
    let t5 := t.reframeQ ⟨0, 2, 3⟩ 2
    let t6 := t.reframeQ ⟨2, -2, 3⟩ 2
    let t7 := t.reframeQ ⟨2, 0, 3⟩ 2
    let t8 := t.reframeQ ⟨2, 2, 3⟩ 2
    let phase := fun (s : QTree) =>
      if d + 3 ≤ ssd then QTree.stepQ s (d + 2) ssd
      else s.reframeQ (P3.origin 2) 1
    let n0 := phase t0
    let n1 := phase t1
    let n2 := phase t2
    let n3 := phase t3
    let n4 := phase t4
    let n5 := phase t5
    let n6 := phase t6
    let n7 := phase t7
    let n8 := phase t8
    .branch (QTree.stepQ (.branch n0 n1 n3 n4) (d + 2) ssd)
      (QTree.stepQ (.branch n1 n2 n4 n5) (d + 2) ssd)
      (QTree.stepQ (.branch n3 n4 n6 n7) (d + 2) ssd)
      (QTree.stepQ (.branch n4 n5 n7 n8) (d + 2) ssd)

/-- Semantic soundness of the `next_gen` memo, relative to a fixed
superspeed depth: every entry maps a depth-`z` node to its `stepQ`
result. -/
def MemoSem (ssd : Nat) (u : Universe) : Prop :=
  ∀ k r, alookup u.next_gen k = some r →
    ∃ z, 2 ≤ z ∧ validAt u k.1 z ∧ k.2 = decide (z ≤ ssd) ∧
      validAt u r (z - 1) ∧
      dnt u r = QTree.stepQ (dnt u k.1) z ssd

theorem alive_dnt (u : Universe) (tr : Nat) :
    u.alive tr = (dnt u tr).aliveQ := by
  unfold Universe.alive dnt dntL dntN
  rw [getD_eq_get?]
  cases hq : u.nodes.get? tr with
  | none => rfl
  | some t => cases t <;> rfl

theorem make_l2_bitmask_dnt {u : Universe} (wf : WF u) {tr : Nat}
    (hv : validAt u tr 2) :
    u.make_l2_bitmask tr = QTree.maskQ (dnt u tr) := by
  have hs : ∀ y x : Int, u.alive (u.get_node tr ⟨y, x, 2⟩) =
      ((dnt u tr).getQ ⟨y, x, 2⟩).aliveQ := by
    intro y x
    rw [alive_dnt, (get_node_dnt wf hv (by exact Nat.le_refl 2)).2]
  unfold Universe.make_l2_bitmask QTree.maskQ
  simp only [List.foldl, hs]

/-- `l2_gen` interns the pure `l2genQ` of the bitmask. -/
theorem l2_gen_spec {u : Universe} (wf : WF u) (bm : Nat) :
    WF (u.l2_gen bm).1 ∧ Ext u (u.l2_gen bm).1 ∧
    validAt (u.l2_gen bm).1 (u.l2_gen bm).2 1 ∧
    (u.l2_gen bm).1.next_gen = u.next_gen ∧
    dnt (u.l2_gen bm).1 (u.l2_gen bm).2 = QTree.l2genQ bm := by
  unfold Universe.l2_gen
  have hleafQ : ∀ m (u' : Universe), interpT u'.nodes (Universe.l2leaf m) =
      QTree.l2leafQ m := by
    intro m u'
    cases hc : Universe.l2leaf m with
    | leaf b =>
      unfold QTree.l2leafQ
      rw [hc]
      rfl
    | branch a b c d =>
      exfalso
      unfold Universe.l2leaf at hc
      dsimp only at hc
      split at hc <;> exact Tree.noConfusion hc
  have hleafuni : ∀ m, QTree.uni 0 (QTree.l2leafQ m) = true := by
    intro m
    unfold QTree.l2leafQ
    split
    · rfl
    · rfl
  obtain ⟨awf, aext, alt, astored, adnt, amemo, aemp⟩ :=
    canonicalise_spec wf (t := Universe.l2leaf (bm >>> 5))
      (by unfold Universe.l2leaf; dsimp only; split <;> trivial)
  rcases hra : u.canonicalise (Universe.l2leaf (bm >>> 5)) with ⟨ua, ra⟩
  rw [hra] at awf aext alt astored adnt amemo aemp
  dsimp only at awf aext alt astored adnt amemo aemp ⊢
  obtain ⟨bwf, bext, blt, bstored, bdnt, bmemo, bemp⟩ :=
    canonicalise_spec awf (t := Universe.l2leaf (bm >>> 4))
      (by unfold Universe.l2leaf; dsimp only; split <;> trivial)
  rcases hrb : ua.canonicalise (Universe.l2leaf (bm >>> 4)) with ⟨ub, rb⟩
  rw [hrb] at bwf bext blt bstored bdnt bmemo bemp
  dsimp only at bwf bext blt bstored bdnt bmemo bemp ⊢
  obtain ⟨cwf, cext, clt, cstored, cdnt, cmemo, cemp⟩ :=
    canonicalise_spec bwf (t := Universe.l2leaf (bm >>> 1))
      (by unfold Universe.l2leaf; dsimp only; split <;> trivial)
  rcases hrc : ub.canonicalise (Universe.l2leaf (bm >>> 1)) with ⟨uc, rc⟩
  rw [hrc] at cwf cext clt cstored cdnt cmemo cemp
  dsimp only at cwf cext clt cstored cdnt cmemo cemp ⊢
  obtain ⟨dwf, dext, dlt, dstored, ddnt, dmemo, demp⟩ :=
    canonicalise_spec cwf (t := Universe.l2leaf (bm >>> 0))
      (by unfold Universe.l2leaf; dsimp only; split <;> trivial)
  rcases hrd : uc.canonicalise (Universe.l2leaf (bm >>> 0)) with ⟨ud, rd⟩
  rw [hrd] at dwf dext dlt dstored ddnt dmemo demp
  dsimp only at dwf dext dlt dstored ddnt dmemo demp ⊢
  have hlena := aext.len_le
  have hlenb := bext.len_le
  have hlenc := cext.len_le
  have hlend := dext.len_le
  obtain ⟨fwf, fext, flt, fstored, fdnt, fmemo, femp⟩ :=
    canonicalise_spec dwf (t := .branch ra rb rc rd)
      ⟨by omega, by omega, by omega, by omega⟩
  rcases hrf : ud.canonicalise (.branch ra rb rc rd) with ⟨uf, rf⟩
  rw [hrf] at fwf fext flt fstored fdnt fmemo femp
  dsimp only at fwf fext flt fstored fdnt fmemo femp ⊢
  have hda : dnt ud ra = QTree.l2leafQ (bm >>> 5) := by
    rw [((bext.trans cext).trans dext).dnt_eq awf.hchild alt, adnt, hleafQ]
  have hdb : dnt ud rb = QTree.l2leafQ (bm >>> 4) := by
    rw [(cext.trans dext).dnt_eq bwf.hchild blt, bdnt, hleafQ]
  have hdc : dnt ud rc = QTree.l2leafQ (bm >>> 1) := by
    rw [dext.dnt_eq cwf.hchild clt, cdnt, hleafQ]
  have hdd : dnt ud rd = QTree.l2leafQ (bm >>> 0) := by
    rw [ddnt, hleafQ]
  have hfdnt : dnt uf rf = QTree.l2genQ bm := by
    rw [fdnt, interp_branch, hda, hdb, hdc, hdd]
    rfl
  refine ⟨fwf, ((((aext.trans bext).trans cext).trans dext).trans fext),
    ⟨flt, ?_⟩, ?_, hfdnt⟩
  · rw [hfdnt]
    exact uni_branch (hleafuni _) (hleafuni _) (hleafuni _) (hleafuni _)
  · rw [fmemo, dmemo, cmemo, bmemo, amemo]

theorem Ext.keep {u v : Universe} (he : Ext u v) (wf : WF u) {h z : Nat}
    (hv : validAt u h z) : validAt v h z ∧ dnt v h = dnt u h :=
  ⟨validAt_mono he wf.hchild hv, he.dnt_eq wf.hchild hv.1⟩

theorem MemoSem_ext {ssd : Nat} {u u' : Universe} (wf : WF u)
    (ms : MemoSem ssd u) (he : Ext u u') (hng : u'.next_gen = u.next_gen) :
    MemoSem ssd u' := by
  intro k r hk
  rw [hng] at hk
  obtain ⟨z, hz, hv1, hf, hv2, hd⟩ := ms k r hk
  refine ⟨z, hz, validAt_mono he wf.hchild hv1, hf,
    validAt_mono he wf.hchild hv2, ?_⟩
  rw [he.dnt_eq wf.hchild hv2.1, he.dnt_eq wf.hchild hv1.1]
  exact hd

/-- Every `next_gen` entry of `v` that is not already in `u` was created
for a node of depth at most `D`. -/
def NewB (u v : Universe) (D : Nat) : Prop :=
  ∀ k rr, alookup v.next_gen k = some rr →
    alookup u.next_gen k = some rr ∨
    ∃ z', 2 ≤ z' ∧ z' ≤ D ∧ validAt v k.1 z'

theorem NewB_of_preserved {u v : Universe} (D : Nat)
    (h : v.next_gen = u.next_gen) : NewB u v D := by
  intro k rr hk
  rw [h] at hk
  exact Or.inl hk

theorem NewB_weaken {u v : Universe} {D D' : Nat} (h : D ≤ D')
    (hn : NewB u v D) : NewB u v D' := by
  intro k rr hk
  rcases hn k rr hk with h1 | ⟨z', h2, h3, h4⟩
  · exact Or.inl h1
  · exact Or.inr ⟨z', h2, by omega, h4⟩

theorem NewB_trans {u v w : Universe} {D : Nat} (wfv : WF v) (hvw : Ext v w)
    (h1 : NewB u v D) (h2 : NewB v w D) : NewB u w D := by
  intro k rr hk
  rcases h2 k rr hk with ha | ⟨z', hb, hc, hd⟩
  · rcases h1 k rr ha with he | ⟨z', hf, hg, hh⟩
    · exact Or.inl he
    · exact Or.inr ⟨z', hf, hg, validAt_mono hvw wfv.hchild hh⟩
  · exact Or.inr ⟨z', hb, hc, hd⟩

/-- Bundle of the state-transition facts threaded through the engine. -/
structure Step1 (u v : Universe) (ssd D : Nat) : Prop where
  wf : WF v
  ext : Ext u v
  ms : MemoSem ssd v
  nb : NewB u v D

theorem Step1.comp {u v w : Universe} {ssd D : Nat} (s1 : Step1 u v ssd D)
    (s2 : Step1 v w ssd D) : Step1 u w ssd D :=
  ⟨s2.wf, s1.ext.trans s2.ext, s2.ms, NewB_trans s1.wf s2.ext s1.nb s2.nb⟩

theorem Step1.stay {u : Universe} {ssd D : Nat} (wf : WF u)
    (ms : MemoSem ssd u) : Step1 u u ssd D :=
  ⟨wf, Ext.refl u, ms, NewB_of_preserved D rfl⟩

/-- An operation that extends the store without touching the memo yields a
`Step1`. -/
theorem Step1.ofPreserved {u v : Universe} {ssd D : Nat} (wf : WF u)
    (ms : MemoSem ssd u) (wfv : WF v) (he : Ext u v)
    (hng : v.next_gen = u.next_gen) : Step1 u v ssd D :=
  ⟨wfv, he, MemoSem_ext wf ms he hng, NewB_of_preserved D hng⟩

/-- Adding a semantically correct memo entry preserves the invariants. -/
theorem WF_consMemo {u : Universe} (wf : WF u) {k : Nat × Bool} {r z : Nat}
    (hz : 2 ≤ z) (hv1 : validAt u k.1 z) (hv2 : validAt u r (z - 1)) :
    WF { u with next_gen := (k, r) :: u.next_gen } := by
  constructor
  case hlen => exact wf.hlen
  case hchild => exact wf.hchild
  case hintern => exact wf.hintern
  case hpop => exact wf.hpop
  case hempty => exact wf.hempty
  case hmemo =>
    intro k' r' hk'
    show ∃ z', _
    by_cases hkk : k = k'
    · subst hkk
      simp [alookup] at hk'
      subst hk'
      exact ⟨z, hz, hv1, hv2⟩
    · simp only [alookup, if_neg hkk] at hk'
      exact wf.hmemo k' r' hk'

theorem Ext.consMemo {u : Universe} {k : Nat × Bool} {r : Nat}
    (hmiss : alookup u.next_gen k = none) :
    Ext u { u with next_gen := (k, r) :: u.next_gen } := by
  refine ⟨⟨[], by simp⟩, ⟨[], by simp⟩, fun _ _ h => h, ⟨[], by simp⟩, ?_⟩
  intro k' r' hk'
  show alookup ((k, r) :: u.next_gen) k' = some r'
  by_cases hkk : k = k'
  · subst hkk
    rw [hmiss] at hk'
    exact Option.noConfusion hk'
  · simpa [alookup, if_neg hkk] using hk'

theorem dnt_consMemo (u : Universe) (k : Nat × Bool) (r i : Nat) :
    dnt { u with next_gen := (k, r) :: u.next_gen } i = dnt u i := rfl

theorem validAt_consMemo {u : Universe} {k : Nat × Bool} {r i z : Nat}
    (h : validAt u i z) :
    validAt { u with next_gen := (k, r) :: u.next_gen } i z := h

/-- Nine-tuples of pure trees. -/
def QT9 : Type := QTree × QTree × QTree × QTree × QTree × QTree × QTree ×
  QTree × QTree

/-- The pure mirror of `nineReframes`. -/
def QTree.nineQ (t : QTree) : QT9 :=
  (t.reframeQ ⟨-2, -2, 3⟩ 2, t.reframeQ ⟨-2, 0, 3⟩ 2, t.reframeQ ⟨-2, 2, 3⟩ 2,
   t.reframeQ ⟨0, -2, 3⟩ 2, t.reframeQ ⟨0, 0, 3⟩ 2, t.reframeQ ⟨0, 2, 3⟩ 2,
   t.reframeQ ⟨2, -2, 3⟩ 2, t.reframeQ ⟨2, 0, 3⟩ 2, t.reframeQ ⟨2, 2, 3⟩ 2)

def mapNineQ (f : QTree → QTree) (N : QT9) : QT9 :=
  (f N.1, f N.2.1, f N.2.2.1, f N.2.2.2.1, f N.2.2.2.2.1, f N.2.2.2.2.2.1,
   f N.2.2.2.2.2.2.1, f N.2.2.2.2.2.2.2.1, f N.2.2.2.2.2.2.2.2)

/-- All nine handles are valid at depth `z` and denote the matching pure
tree. -/
def NineOK (v : Universe) (n : Universe.Nine) (z : Nat) (N : QT9) : Prop :=
  (validAt v n.1 z ∧ dnt v n.1 = N.1) ∧
  (validAt v n.2.1 z ∧ dnt v n.2.1 = N.2.1) ∧
  (validAt v n.2.2.1 z ∧ dnt v n.2.2.1 = N.2.2.1) ∧
  (validAt v n.2.2.2.1 z ∧ dnt v n.2.2.2.1 = N.2.2.2.1) ∧
  (validAt v n.2.2.2.2.1 z ∧ dnt v n.2.2.2.2.1 = N.2.2.2.2.1) ∧
  (validAt v n.2.2.2.2.2.1 z ∧ dnt v n.2.2.2.2.2.1 = N.2.2.2.2.2.1) ∧
  (validAt v n.2.2.2.2.2.2.1 z ∧ dnt v n.2.2.2.2.2.2.1 = N.2.2.2.2.2.2.1) ∧
  (validAt v n.2.2.2.2.2.2.2.1 z ∧
    dnt v n.2.2.2.2.2.2.2.1 = N.2.2.2.2.2.2.2.1) ∧
  (validAt v n.2.2.2.2.2.2.2.2 z ∧
    dnt v n.2.2.2.2.2.2.2.2 = N.2.2.2.2.2.2.2.2)

theorem NineOK_mono {u v : Universe} {n : Universe.Nine} {z : Nat} {N : QT9}
    (wf : WF u) (he : Ext u v) (h : NineOK u n z N) : NineOK v n z N := by
  obtain ⟨h0, h1, h2, h3, h4, h5, h6, h7, h8⟩ := h
  refine ⟨?_, ?_, ?_, ?_, ?_, ?_, ?_, ?_, ?_⟩ <;>
    first
      | exact ⟨(he.keep wf h0.1).1, (he.keep wf h0.1).2.trans h0.2⟩
      | exact ⟨(he.keep wf h1.1).1, (he.keep wf h1.1).2.trans h1.2⟩
      | exact ⟨(he.keep wf h2.1).1, (he.keep wf h2.1).2.trans h2.2⟩
      | exact ⟨(he.keep wf h3.1).1, (he.keep wf h3.1).2.trans h3.2⟩
      | exact ⟨(he.keep wf h4.1).1, (he.keep wf h4.1).2.trans h4.2⟩
      | exact ⟨(he.keep wf h5.1).1, (he.keep wf h5.1).2.trans h5.2⟩
      | exact ⟨(he.keep wf h6.1).1, (he.keep wf h6.1).2.trans h6.2⟩
      | exact ⟨(he.keep wf h7.1).1, (he.keep wf h7.1).2.trans h7.2⟩
      | exact ⟨(he.keep wf h8.1).1, (he.keep wf h8.1).2.trans h8.2⟩


theorem nineReframes_spec {u : Universe} {tr d ssd : Nat} (wf : WF u)
    (ms : MemoSem ssd u) (hv : validAt u tr (d + 3)) :
    Step1 u (Universe.nineReframes u tr).1 ssd (d + 2) ∧
    validAt (Universe.nineReframes u tr).1 tr (d + 3) ∧
    dnt (Universe.nineReframes u tr).1 tr = dnt u tr ∧
    NineOK (Universe.nineReframes u tr).1 (Universe.nineReframes u tr).2 (d + 2)
      (QTree.nineQ (dnt u tr)) := by
  unfold Universe.nineReframes
  obtain ⟨wf0, ext0, va0, memo0, dnt0⟩ :=
    @reframe_spec u wf tr ⟨-2, -2, 3⟩ 2 (d + 3) hv
      (Nat.le_add_left 3 d)
  rcases h0 : Universe.reframe u tr ⟨-2, -2, 3⟩ 2 with ⟨u0, t0⟩
  rw [h0] at wf0 ext0 va0 memo0 dnt0
  dsimp only at wf0 ext0 va0 memo0 dnt0
  have s0 : Step1 u u0 ssd (d + 2) :=
    Step1.ofPreserved wf ms wf0 ext0 memo0
  have ms0 : MemoSem ssd u0 := s0.ms
  have hvtr0 : validAt u0 tr (d + 3) := (ext0.keep wf hv).1
  have hdtr0 : dnt u0 tr = dnt u tr := by
    rw [(ext0.keep wf hv).2]
  have hva0 : validAt u0 t0 (d + 2) := by
    have := va0
    rw [show 2 + (d + 3 - 3) = d + 2 by omega] at this
    exact this
  have hdn0 : dnt u0 t0 = (dnt u tr).reframeQ ⟨-2, -2, 3⟩ 2 := by
    rw [dnt0]
  obtain ⟨wf1, ext1, va1, memo1, dnt1⟩ :=
    @reframe_spec u0 wf0 tr ⟨-2, 0, 3⟩ 2 (d + 3) hvtr0
      (Nat.le_add_left 3 d)
  rcases h1 : Universe.reframe u0 tr ⟨-2, 0, 3⟩ 2 with ⟨u1, t1⟩
  rw [h1] at wf1 ext1 va1 memo1 dnt1
  dsimp only at wf1 ext1 va1 memo1 dnt1
  have s1 : Step1 u0 u1 ssd (d + 2) :=
    Step1.ofPreserved wf0 ms0 wf1 ext1 memo1
  have ms1 : MemoSem ssd u1 := s1.ms
  have hvtr1 : validAt u1 tr (d + 3) := (ext1.keep wf0 hvtr0).1
  have hdtr1 : dnt u1 tr = dnt u tr := by
    rw [(ext1.keep wf0 hvtr0).2, hdtr0]
  have hva1 : validAt u1 t1 (d + 2) := by
    have := va1
    rw [show 2 + (d + 3 - 3) = d + 2 by omega] at this
    exact this
  have hdn1 : dnt u1 t1 = (dnt u tr).reframeQ ⟨-2, 0, 3⟩ 2 := by
    rw [dnt1, hdtr0]
  have hva0' := (ext1.keep wf0 hva0).1
  have hdn0' := ((ext1.keep wf0 hva0).2).trans hdn0
  have hva0 := hva0'
  have hdn0 := hdn0' 
  obtain ⟨wf2, ext2, va2, memo2, dnt2⟩ :=
    @reframe_spec u1 wf1 tr ⟨-2, 2, 3⟩ 2 (d + 3) hvtr1
      (Nat.le_add_left 3 d)
  rcases h2 : Universe.reframe u1 tr ⟨-2, 2, 3⟩ 2 with ⟨u2, t2⟩
  rw [h2] at wf2 ext2 va2 memo2 dnt2
  dsimp only at wf2 ext2 va2 memo2 dnt2
  have s2 : Step1 u1 u2 ssd (d + 2) :=
    Step1.ofPreserved wf1 ms1 wf2 ext2 memo2
  have ms2 : MemoSem ssd u2 := s2.ms
  have hvtr2 : validAt u2 tr (d + 3) := (ext2.keep wf1 hvtr1).1
  have hdtr2 : dnt u2 tr = dnt u tr := by
    rw [(ext2.keep wf1 hvtr1).2, hdtr1]
  have hva2 : validAt u2 t2 (d + 2) := by
    have := va2
    rw [show 2 + (d + 3 - 3) = d + 2 by omega] at this
    exact this
  have hdn2 : dnt u2 t2 = (dnt u tr).reframeQ ⟨-2, 2, 3⟩ 2 := by
    rw [dnt2, hdtr1]
  have hva0' := (ext2.keep wf1 hva0).1
  have hdn0' := ((ext2.keep wf1 hva0).2).trans hdn0
  have hva0 := hva0'
  have hdn0 := hdn0' 
  have hva1' := (ext2.keep wf1 hva1).1
  have hdn1' := ((ext2.keep wf1 hva1).2).trans hdn1
  have hva1 := hva1'
  have hdn1 := hdn1' 
  obtain ⟨wf3, ext3, va3, memo3, dnt3⟩ :=
    @reframe_spec u2 wf2 tr ⟨0, -2, 3⟩ 2 (d + 3) hvtr2
      (Nat.le_add_left 3 d)
  rcases h3 : Universe.reframe u2 tr ⟨0, -2, 3⟩ 2 with ⟨u3, t3⟩
  rw [h3] at wf3 ext3 va3 memo3 dnt3
  dsimp only at wf3 ext3 va3 memo3 dnt3
  have s3 : Step1 u2 u3 ssd (d + 2) :=
    Step1.ofPreserved wf2 ms2 wf3 ext3 memo3
  have ms3 : MemoSem ssd u3 := s3.ms
  have hvtr3 : validAt u3 tr (d + 3) := (ext3.keep wf2 hvtr2).1
  have hdtr3 : dnt u3 tr = dnt u tr := by
    rw [(ext3.keep wf2 hvtr2).2, hdtr2]
  have hva3 : validAt u3 t3 (d + 2) := by
    have := va3
    rw [show 2 + (d + 3 - 3) = d + 2 by omega] at this
    exact this
  have hdn3 : dnt u3 t3 = (dnt u tr).reframeQ ⟨0, -2, 3⟩ 2 := by
    rw [dnt3, hdtr2]
  have hva0' := (ext3.keep wf2 hva0).1
  have hdn0' := ((ext3.keep wf2 hva0).2).trans hdn0
  have hva0 := hva0'
  have hdn0 := hdn0' 
  have hva1' := (ext3.keep wf2 hva1).1
  have hdn1' := ((ext3.keep wf2 hva1).2).trans hdn1
  have hva1 := hva1'
  have hdn1 := hdn1' 
  have hva2' := (ext3.keep wf2 hva2).1
  have hdn2' := ((ext3.keep wf2 hva2).2).trans hdn2
  have hva2 := hva2'
  have hdn2 := hdn2' 
  obtain ⟨wf4, ext4, va4, memo4, dnt4⟩ :=
    @reframe_spec u3 wf3 tr ⟨0, 0, 3⟩ 2 (d + 3) hvtr3
      (Nat.le_add_left 3 d)
  rcases h4 : Universe.reframe u3 tr ⟨0, 0, 3⟩ 2 with ⟨u4, t4⟩
  rw [h4] at wf4 ext4 va4 memo4 dnt4
  dsimp only at wf4 ext4 va4 memo4 dnt4
  have s4 : Step1 u3 u4 ssd (d + 2) :=
    Step1.ofPreserved wf3 ms3 wf4 ext4 memo4
  have ms4 : MemoSem ssd u4 := s4.ms
  have hvtr4 : validAt u4 tr (d + 3) := (ext4.keep wf3 hvtr3).1
  have hdtr4 : dnt u4 tr = dnt u tr := by
    rw [(ext4.keep wf3 hvtr3).2, hdtr3]
  have hva4 : validAt u4 t4 (d + 2) := by
    have := va4
    rw [show 2 + (d + 3 - 3) = d + 2 by omega] at this
    exact this
  have hdn4 : dnt u4 t4 = (dnt u tr).reframeQ ⟨0, 0, 3⟩ 2 := by
    rw [dnt4, hdtr3]
  have hva0' := (ext4.keep wf3 hva0).1
  have hdn0' := ((ext4.keep wf3 hva0).2).trans hdn0
  have hva0 := hva0'
  have hdn0 := hdn0' 
  have hva1' := (ext4.keep wf3 hva1).1
  have hdn1' := ((ext4.keep wf3 hva1).2).trans hdn1
  have hva1 := hva1'
  have hdn1 := hdn1' 
  have hva2' := (ext4.keep wf3 hva2).1
  have hdn2' := ((ext4.keep wf3 hva2).2).trans hdn2
  have hva2 := hva2'
  have hdn2 := hdn2' 
  have hva3' := (ext4.keep wf3 hva3).1
  have hdn3' := ((ext4.keep wf3 hva3).2).trans hdn3
  have hva3 := hva3'
  have hdn3 := hdn3' 
  obtain ⟨wf5, ext5, va5, memo5, dnt5⟩ :=
    @reframe_spec u4 wf4 tr ⟨0, 2, 3⟩ 2 (d + 3) hvtr4
      (Nat.le_add_left 3 d)
  rcases h5 : Universe.reframe u4 tr ⟨0, 2, 3⟩ 2 with ⟨u5, t5⟩
  rw [h5] at wf5 ext5 va5 memo5 dnt5
  dsimp only at wf5 ext5 va5 memo5 dnt5
  have s5 : Step1 u4 u5 ssd (d + 2) :=
    Step1.ofPreserved wf4 ms4 wf5 ext5 memo5
  have ms5 : MemoSem ssd u5 := s5.ms
  have hvtr5 : validAt u5 tr (d + 3) := (ext5.keep wf4 hvtr4).1
  have hdtr5 : dnt u5 tr = dnt u tr := by
    rw [(ext5.keep wf4 hvtr4).2, hdtr4]
  have hva5 : validAt u5 t5 (d + 2) := by
    have := va5
    rw [show 2 + (d + 3 - 3) = d + 2 by omega] at this
    exact this
  have hdn5 : dnt u5 t5 = (dnt u tr).reframeQ ⟨0, 2, 3⟩ 2 := by
    rw [dnt5, hdtr4]
  have hva0' := (ext5.keep wf4 hva0).1
  have hdn0' := ((ext5.keep wf4 hva0).2).trans hdn0
  have hva0 := hva0'
  have hdn0 := hdn0' 
  have hva1' := (ext5.keep wf4 hva1).1
  have hdn1' := ((ext5.keep wf4 hva1).2).trans hdn1
  have hva1 := hva1'
  have hdn1 := hdn1' 
  have hva2' := (ext5.keep wf4 hva2).1
  have hdn2' := ((ext5.keep wf4 hva2).2).trans hdn2
  have hva2 := hva2'
  have hdn2 := hdn2' 
  have hva3' := (ext5.keep wf4 hva3).1
  have hdn3' := ((ext5.keep wf4 hva3).2).trans hdn3
  have hva3 := hva3'
  have hdn3 := hdn3' 
  have hva4' := (ext5.keep wf4 hva4).1
  have hdn4' := ((ext5.keep wf4 hva4).2).trans hdn4
  have hva4 := hva4'
  have hdn4 := hdn4' 
  obtain ⟨wf6, ext6, va6, memo6, dnt6⟩ :=
    @reframe_spec u5 wf5 tr ⟨2, -2, 3⟩ 2 (d + 3) hvtr5
      (Nat.le_add_left 3 d)
  rcases h6 : Universe.reframe u5 tr ⟨2, -2, 3⟩ 2 with ⟨u6, t6⟩
  rw [h6] at wf6 ext6 va6 memo6 dnt6
  dsimp only at wf6 ext6 va6 memo6 dnt6
  have s6 : Step1 u5 u6 ssd (d + 2) :=
    Step1.ofPreserved wf5 ms5 wf6 ext6 memo6
  have ms6 : MemoSem ssd u6 := s6.ms
  have hvtr6 : validAt u6 tr (d + 3) := (ext6.keep wf5 hvtr5).1
  have hdtr6 : dnt u6 tr = dnt u tr := by
    rw [(ext6.keep wf5 hvtr5).2, hdtr5]
  have hva6 : validAt u6 t6 (d + 2) := by
    have := va6
    rw [show 2 + (d + 3 - 3) = d + 2 by omega] at this
    exact this
  have hdn6 : dnt u6 t6 = (dnt u tr).reframeQ ⟨2, -2, 3⟩ 2 := by
    rw [dnt6, hdtr5]
  have hva0' := (ext6.keep wf5 hva0).1
  have hdn0' := ((ext6.keep wf5 hva0).2).trans hdn0
  have hva0 := hva0'
  have hdn0 := hdn0' 
  have hva1' := (ext6.keep wf5 hva1).1
  have hdn1' := ((ext6.keep wf5 hva1).2).trans hdn1
  have hva1 := hva1'
  have hdn1 := hdn1' 
  have hva2' := (ext6.keep wf5 hva2).1
  have hdn2' := ((ext6.keep wf5 hva2).2).trans hdn2
  have hva2 := hva2'
  have hdn2 := hdn2' 
  have hva3' := (ext6.keep wf5 hva3).1
  have hdn3' := ((ext6.keep wf5 hva3).2).trans hdn3
  have hva3 := hva3'
  have hdn3 := hdn3' 
  have hva4' := (ext6.keep wf5 hva4).1
  have hdn4' := ((ext6.keep wf5 hva4).2).trans hdn4
  have hva4 := hva4'
  have hdn4 := hdn4' 
  have hva5' := (ext6.keep wf5 hva5).1
  have hdn5' := ((ext6.keep wf5 hva5).2).trans hdn5
  have hva5 := hva5'
  have hdn5 := hdn5' 
  obtain ⟨wf7, ext7, va7, memo7, dnt7⟩ :=
    @reframe_spec u6 wf6 tr ⟨2, 0, 3⟩ 2 (d + 3) hvtr6
      (Nat.le_add_left 3 d)
  rcases h7 : Universe.reframe u6 tr ⟨2, 0, 3⟩ 2 with ⟨u7, t7⟩
  rw [h7] at wf7 ext7 va7 memo7 dnt7
  dsimp only at wf7 ext7 va7 memo7 dnt7
  have s7 : Step1 u6 u7 ssd (d + 2) :=
    Step1.ofPreserved wf6 ms6 wf7 ext7 memo7
  have ms7 : MemoSem ssd u7 := s7.ms
  have hvtr7 : validAt u7 tr (d + 3) := (ext7.keep wf6 hvtr6).1
  have hdtr7 : dnt u7 tr = dnt u tr := by
    rw [(ext7.keep wf6 hvtr6).2, hdtr6]
  have hva7 : validAt u7 t7 (d + 2) := by
    have := va7
    rw [show 2 + (d + 3 - 3) = d + 2 by omega] at this
    exact this
  have hdn7 : dnt u7 t7 = (dnt u tr).reframeQ ⟨2, 0, 3⟩ 2 := by
    rw [dnt7, hdtr6]
  have hva0' := (ext7.keep wf6 hva0).1
  have hdn0' := ((ext7.keep wf6 hva0).2).trans hdn0
  have hva0 := hva0'
  have hdn0 := hdn0' 
  have hva1' := (ext7.keep wf6 hva1).1
  have hdn1' := ((ext7.keep wf6 hva1).2).trans hdn1
  have hva1 := hva1'
  have hdn1 := hdn1' 
  have hva2' := (ext7.keep wf6 hva2).1
  have hdn2' := ((ext7.keep wf6 hva2).2).trans hdn2
  have hva2 := hva2'
  have hdn2 := hdn2' 
  have hva3' := (ext7.keep wf6 hva3).1
  have hdn3' := ((ext7.keep wf6 hva3).2).trans hdn3
  have hva3 := hva3'
  have hdn3 := hdn3' 
  have hva4' := (ext7.keep wf6 hva4).1
  have hdn4' := ((ext7.keep wf6 hva4).2).trans hdn4
  have hva4 := hva4'
  have hdn4 := hdn4' 
  have hva5' := (ext7.keep wf6 hva5).1
  have hdn5' := ((ext7.keep wf6 hva5).2).trans hdn5
  have hva5 := hva5'
  have hdn5 := hdn5' 
  have hva6' := (ext7.keep wf6 hva6).1
  have hdn6' := ((ext7.keep wf6 hva6).2).trans hdn6
  have hva6 := hva6'
  have hdn6 := hdn6' 
  obtain ⟨wf8, ext8, va8, memo8, dnt8⟩ :=
    @reframe_spec u7 wf7 tr ⟨2, 2, 3⟩ 2 (d + 3) hvtr7
      (Nat.le_add_left 3 d)
  rcases h8 : Universe.reframe u7 tr ⟨2, 2, 3⟩ 2 with ⟨u8, t8⟩
  rw [h8] at wf8 ext8 va8 memo8 dnt8
  dsimp only at wf8 ext8 va8 memo8 dnt8
  have s8 : Step1 u7 u8 ssd (d + 2) :=
    Step1.ofPreserved wf7 ms7 wf8 ext8 memo8
  have ms8 : MemoSem ssd u8 := s8.ms
  have hvtr8 : validAt u8 tr (d + 3) := (ext8.keep wf7 hvtr7).1
  have hdtr8 : dnt u8 tr = dnt u tr := by
    rw [(ext8.keep wf7 hvtr7).2, hdtr7]
  have hva8 : validAt u8 t8 (d + 2) := by
    have := va8
    rw [show 2 + (d + 3 - 3) = d + 2 by omega] at this
    exact this
  have hdn8 : dnt u8 t8 = (dnt u tr).reframeQ ⟨2, 2, 3⟩ 2 := by
    rw [dnt8, hdtr7]
  have hva0' := (ext8.keep wf7 hva0).1
  have hdn0' := ((ext8.keep wf7 hva0).2).trans hdn0
  have hva0 := hva0'
  have hdn0 := hdn0' 
  have hva1' := (ext8.keep wf7 hva1).1
  have hdn1' := ((ext8.keep wf7 hva1).2).trans hdn1
  have hva1 := hva1'
  have hdn1 := hdn1' 
  have hva2' := (ext8.keep wf7 hva2).1
  have hdn2' := ((ext8.keep wf7 hva2).2).trans hdn2
  have hva2 := hva2'
  have hdn2 := hdn2' 
  have hva3' := (ext8.keep wf7 hva3).1
  have hdn3' := ((ext8.keep wf7 hva3).2).trans hdn3
  have hva3 := hva3'
  have hdn3 := hdn3' 
  have hva4' := (ext8.keep wf7 hva4).1
  have hdn4' := ((ext8.keep wf7 hva4).2).trans hdn4
  have hva4 := hva4'
  have hdn4 := hdn4' 
  have hva5' := (ext8.keep wf7 hva5).1
  have hdn5' := ((ext8.keep wf7 hva5).2).trans hdn5
  have hva5 := hva5'
  have hdn5 := hdn5' 
  have hva6' := (ext8.keep wf7 hva6).1
  have hdn6' := ((ext8.keep wf7 hva6).2).trans hdn6
  have hva6 := hva6'
  have hdn6 := hdn6' 
  have hva7' := (ext8.keep wf7 hva7).1
  have hdn7' := ((ext8.keep wf7 hva7).2).trans hdn7
  have hva7 := hva7'
  have hdn7 := hdn7' 
  dsimp only
  rw [h1]
  dsimp only
  rw [h2]
  dsimp only
  rw [h3]
  dsimp only
  rw [h4]
  dsimp only
  rw [h5]
  dsimp only
  rw [h6]
  dsimp only
  rw [h7]
  dsimp only
  rw [h8]
  dsimp only
  refine ⟨((((((((s0.comp s1).comp s2).comp s3).comp s4).comp s5).comp
    s6).comp s7).comp s8), hvtr8, hdtr8,
    ⟨hva0, hdn0⟩, ⟨hva1, hdn1⟩, ⟨hva2, hdn2⟩, ⟨hva3, hdn3⟩, ⟨hva4, hdn4⟩,
    ⟨hva5, hdn5⟩, ⟨hva6, hdn6⟩, ⟨hva7, hdn7⟩, ⟨hva8, hdn8⟩⟩


theorem Ext.keep_pair {u v : Universe} {h z : Nat} {N : QTree} (e : Ext u v)
    (w : WF u) (hv : validAt u h z) (hd : dnt u h = N) :
    validAt v h z ∧ dnt v h = N :=
  ⟨(e.keep w hv).1, (e.keep w hv).2.trans hd⟩

/-- The induction-hypothesis shape for the recursive step at depth `d + 2`. -/
def StepFOK (stepf : Universe → Nat → Universe × Nat) (d ssd : Nat) : Prop :=
  ∀ u tr, WF u → MemoSem ssd u → validAt u tr (d + 2) →
    Step1 u (stepf u tr).1 ssd (d + 2) ∧
    validAt (stepf u tr).1 (stepf u tr).2 (d + 1) ∧
    dnt (stepf u tr).1 (stepf u tr).2 = QTree.stepQ (dnt u tr) (d + 2) ssd

theorem nineSteps_spec {stepf : Universe → Nat → Universe × Nat}
    {d ssd : Nat} (hf : StepFOK stepf d ssd) {u : Universe}
    {t : Universe.Nine} {N : QT9} (wf : WF u) (ms : MemoSem ssd u)
    (hN : NineOK u t (d + 2) N) :
    Step1 u (Universe.nineSteps stepf u t).1 ssd (d + 2) ∧
    NineOK (Universe.nineSteps stepf u t).1 (Universe.nineSteps stepf u t).2
      (d + 1) (mapNineQ (fun s => QTree.stepQ s (d + 2) ssd) N) := by
  obtain ⟨t0, t1, t2, t3, t4, t5, t6, t7, t8⟩ := t
  obtain ⟨hp0, hp1, hp2, hp3, hp4, hp5, hp6, hp7, hp8⟩ := hN
  obtain ⟨hvt0, hdt0⟩ := hp0
  obtain ⟨hvt1, hdt1⟩ := hp1
  obtain ⟨hvt2, hdt2⟩ := hp2
  obtain ⟨hvt3, hdt3⟩ := hp3
  obtain ⟨hvt4, hdt4⟩ := hp4
  obtain ⟨hvt5, hdt5⟩ := hp5
  obtain ⟨hvt6, hdt6⟩ := hp6
  obtain ⟨hvt7, hdt7⟩ := hp7
  obtain ⟨hvt8, hdt8⟩ := hp8
  unfold Universe.nineSteps
  dsimp only
  obtain ⟨s0, hvn0, hdn0⟩ := hf u t0 wf ms hvt0
  rcases hS0 : stepf u t0 with ⟨v0, n0⟩
  rw [hS0] at s0 hvn0 hdn0
  dsimp only at s0 hvn0 hdn0
  have hdq0 : dnt v0 n0 = QTree.stepQ N.1 (d + 2) ssd := by
    rw [hdn0, hdt0]
  obtain ⟨hvt1, hdt1⟩ := s0.ext.keep_pair wf hvt1 hdt1
  obtain ⟨hvt2, hdt2⟩ := s0.ext.keep_pair wf hvt2 hdt2
  obtain ⟨hvt3, hdt3⟩ := s0.ext.keep_pair wf hvt3 hdt3
  obtain ⟨hvt4, hdt4⟩ := s0.ext.keep_pair wf hvt4 hdt4
  obtain ⟨hvt5, hdt5⟩ := s0.ext.keep_pair wf hvt5 hdt5
  obtain ⟨hvt6, hdt6⟩ := s0.ext.keep_pair wf hvt6 hdt6
  obtain ⟨hvt7, hdt7⟩ := s0.ext.keep_pair wf hvt7 hdt7
  obtain ⟨hvt8, hdt8⟩ := s0.ext.keep_pair wf hvt8 hdt8
  obtain ⟨s1, hvn1, hdn1⟩ := hf v0 t1 s0.wf s0.ms hvt1
  rcases hS1 : stepf v0 t1 with ⟨v1, n1⟩
  rw [hS1] at s1 hvn1 hdn1
  dsimp only at s1 hvn1 hdn1
  have hdq1 : dnt v1 n1 = QTree.stepQ N.2.1 (d + 2) ssd := by
    rw [hdn1, hdt1]
  obtain ⟨hvn0, hdq0⟩ := s1.ext.keep_pair s0.wf hvn0 hdq0
  obtain ⟨hvt2, hdt2⟩ := s1.ext.keep_pair s0.wf hvt2 hdt2
  obtain ⟨hvt3, hdt3⟩ := s1.ext.keep_pair s0.wf hvt3 hdt3
  obtain ⟨hvt4, hdt4⟩ := s1.ext.keep_pair s0.wf hvt4 hdt4
  obtain ⟨hvt5, hdt5⟩ := s1.ext.keep_pair s0.wf hvt5 hdt5
  obtain ⟨hvt6, hdt6⟩ := s1.ext.keep_pair s0.wf hvt6 hdt6
  obtain ⟨hvt7, hdt7⟩ := s1.ext.keep_pair s0.wf hvt7 hdt7
  obtain ⟨hvt8, hdt8⟩ := s1.ext.keep_pair s0.wf hvt8 hdt8
  obtain ⟨s2, hvn2, hdn2⟩ := hf v1 t2 s1.wf s1.ms hvt2
  rcases hS2 : stepf v1 t2 with ⟨v2, n2⟩
  rw [hS2] at s2 hvn2 hdn2
  dsimp only at s2 hvn2 hdn2
  have hdq2 : dnt v2 n2 = QTree.stepQ N.2.2.1 (d + 2) ssd := by
    rw [hdn2, hdt2]
  obtain ⟨hvn0, hdq0⟩ := s2.ext.keep_pair s1.wf hvn0 hdq0
  obtain ⟨hvn1, hdq1⟩ := s2.ext.keep_pair s1.wf hvn1 hdq1
  obtain ⟨hvt3, hdt3⟩ := s2.ext.keep_pair s1.wf hvt3 hdt3
  obtain ⟨hvt4, hdt4⟩ := s2.ext.keep_pair s1.wf hvt4 hdt4
  obtain ⟨hvt5, hdt5⟩ := s2.ext.keep_pair s1.wf hvt5 hdt5
  obtain ⟨hvt6, hdt6⟩ := s2.ext.keep_pair s1.wf hvt6 hdt6
  obtain ⟨hvt7, hdt7⟩ := s2.ext.keep_pair s1.wf hvt7 hdt7
  obtain ⟨hvt8, hdt8⟩ := s2.ext.keep_pair s1.wf hvt8 hdt8
  obtain ⟨s3, hvn3, hdn3⟩ := hf v2 t3 s2.wf s2.ms hvt3
  rcases hS3 : stepf v2 t3 with ⟨v3, n3⟩
  rw [hS3] at s3 hvn3 hdn3
  dsimp only at s3 hvn3 hdn3
  have hdq3 : dnt v3 n3 = QTree.stepQ N.2.2.2.1 (d + 2) ssd := by
    rw [hdn3, hdt3]
  obtain ⟨hvn0, hdq0⟩ := s3.ext.keep_pair s2.wf hvn0 hdq0
  obtain ⟨hvn1, hdq1⟩ := s3.ext.keep_pair s2.wf hvn1 hdq1
  obtain ⟨hvn2, hdq2⟩ := s3.ext.keep_pair s2.wf hvn2 hdq2
  obtain ⟨hvt4, hdt4⟩ := s3.ext.keep_pair s2.wf hvt4 hdt4
  obtain ⟨hvt5, hdt5⟩ := s3.ext.keep_pair s2.wf hvt5 hdt5
  obtain ⟨hvt6, hdt6⟩ := s3.ext.keep_pair s2.wf hvt6 hdt6
  obtain ⟨hvt7, hdt7⟩ := s3.ext.keep_pair s2.wf hvt7 hdt7
  obtain ⟨hvt8, hdt8⟩ := s3.ext.keep_pair s2.wf hvt8 hdt8
  obtain ⟨s4, hvn4, hdn4⟩ := hf v3 t4 s3.wf s3.ms hvt4
  rcases hS4 : stepf v3 t4 with ⟨v4, n4⟩
  rw [hS4] at s4 hvn4 hdn4
  dsimp only at s4 hvn4 hdn4
  have hdq4 : dnt v4 n4 = QTree.stepQ N.2.2.2.2.1 (d + 2) ssd := by
    rw [hdn4, hdt4]
  obtain ⟨hvn0, hdq0⟩ := s4.ext.keep_pair s3.wf hvn0 hdq0
  obtain ⟨hvn1, hdq1⟩ := s4.ext.keep_pair s3.wf hvn1 hdq1
  obtain ⟨hvn2, hdq2⟩ := s4.ext.keep_pair s3.wf hvn2 hdq2
  obtain ⟨hvn3, hdq3⟩ := s4.ext.keep_pair s3.wf hvn3 hdq3
  obtain ⟨hvt5, hdt5⟩ := s4.ext.keep_pair s3.wf hvt5 hdt5
  obtain ⟨hvt6, hdt6⟩ := s4.ext.keep_pair s3.wf hvt6 hdt6
  obtain ⟨hvt7, hdt7⟩ := s4.ext.keep_pair s3.wf hvt7 hdt7
  obtain ⟨hvt8, hdt8⟩ := s4.ext.keep_pair s3.wf hvt8 hdt8
  obtain ⟨s5, hvn5, hdn5⟩ := hf v4 t5 s4.wf s4.ms hvt5
  rcases hS5 : stepf v4 t5 with ⟨v5, n5⟩
  rw [hS5] at s5 hvn5 hdn5
  dsimp only at s5 hvn5 hdn5
  have hdq5 : dnt v5 n5 = QTree.stepQ N.2.2.2.2.2.1 (d + 2) ssd := by
    rw [hdn5, hdt5]
  obtain ⟨hvn0, hdq0⟩ := s5.ext.keep_pair s4.wf hvn0 hdq0
  obtain ⟨hvn1, hdq1⟩ := s5.ext.keep_pair s4.wf hvn1 hdq1
  obtain ⟨hvn2, hdq2⟩ := s5.ext.keep_pair s4.wf hvn2 hdq2
  obtain ⟨hvn3, hdq3⟩ := s5.ext.keep_pair s4.wf hvn3 hdq3
  obtain ⟨hvn4, hdq4⟩ := s5.ext.keep_pair s4.wf hvn4 hdq4
  obtain ⟨hvt6, hdt6⟩ := s5.ext.keep_pair s4.wf hvt6 hdt6
  obtain ⟨hvt7, hdt7⟩ := s5.ext.keep_pair s4.wf hvt7 hdt7
  obtain ⟨hvt8, hdt8⟩ := s5.ext.keep_pair s4.wf hvt8 hdt8
  obtain ⟨s6, hvn6, hdn6⟩ := hf v5 t6 s5.wf s5.ms hvt6
  rcases hS6 : stepf v5 t6 with ⟨v6, n6⟩
  rw [hS6] at s6 hvn6 hdn6
  dsimp only at s6 hvn6 hdn6
  have hdq6 : dnt v6 n6 = QTree.stepQ N.2.2.2.2.2.2.1 (d + 2) ssd := by
    rw [hdn6, hdt6]
  obtain ⟨hvn0, hdq0⟩ := s6.ext.keep_pair s5.wf hvn0 hdq0
  obtain ⟨hvn1, hdq1⟩ := s6.ext.keep_pair s5.wf hvn1 hdq1
  obtain ⟨hvn2, hdq2⟩ := s6.ext.keep_pair s5.wf hvn2 hdq2
  obtain ⟨hvn3, hdq3⟩ := s6.ext.keep_pair s5.wf hvn3 hdq3
  obtain ⟨hvn4, hdq4⟩ := s6.ext.keep_pair s5.wf hvn4 hdq4
  obtain ⟨hvn5, hdq5⟩ := s6.ext.keep_pair s5.wf hvn5 hdq5
  obtain ⟨hvt7, hdt7⟩ := s6.ext.keep_pair s5.wf hvt7 hdt7
  obtain ⟨hvt8, hdt8⟩ := s6.ext.keep_pair s5.wf hvt8 hdt8
  obtain ⟨s7, hvn7, hdn7⟩ := hf v6 t7 s6.wf s6.ms hvt7
  rcases hS7 : stepf v6 t7 with ⟨v7, n7⟩
  rw [hS7] at s7 hvn7 hdn7
  dsimp only at s7 hvn7 hdn7
  have hdq7 : dnt v7 n7 = QTree.stepQ N.2.2.2.2.2.2.2.1 (d + 2) ssd := by
    rw [hdn7, hdt7]
  obtain ⟨hvn0, hdq0⟩ := s7.ext.keep_pair s6.wf hvn0 hdq0
  obtain ⟨hvn1, hdq1⟩ := s7.ext.keep_pair s6.wf hvn1 hdq1
  obtain ⟨hvn2, hdq2⟩ := s7.ext.keep_pair s6.wf hvn2 hdq2
  obtain ⟨hvn3, hdq3⟩ := s7.ext.keep_pair s6.wf hvn3 hdq3
  obtain ⟨hvn4, hdq4⟩ := s7.ext.keep_pair s6.wf hvn4 hdq4
  obtain ⟨hvn5, hdq5⟩ := s7.ext.keep_pair s6.wf hvn5 hdq5
  obtain ⟨hvn6, hdq6⟩ := s7.ext.keep_pair s6.wf hvn6 hdq6
  obtain ⟨hvt8, hdt8⟩ := s7.ext.keep_pair s6.wf hvt8 hdt8
  obtain ⟨s8, hvn8, hdn8⟩ := hf v7 t8 s7.wf s7.ms hvt8
  rcases hS8 : stepf v7 t8 with ⟨v8, n8⟩
  rw [hS8] at s8 hvn8 hdn8
  dsimp only at s8 hvn8 hdn8
  have hdq8 : dnt v8 n8 = QTree.stepQ N.2.2.2.2.2.2.2.2 (d + 2) ssd := by
    rw [hdn8, hdt8]
  obtain ⟨hvn0, hdq0⟩ := s8.ext.keep_pair s7.wf hvn0 hdq0
  obtain ⟨hvn1, hdq1⟩ := s8.ext.keep_pair s7.wf hvn1 hdq1
  obtain ⟨hvn2, hdq2⟩ := s8.ext.keep_pair s7.wf hvn2 hdq2
  obtain ⟨hvn3, hdq3⟩ := s8.ext.keep_pair s7.wf hvn3 hdq3
  obtain ⟨hvn4, hdq4⟩ := s8.ext.keep_pair s7.wf hvn4 hdq4
  obtain ⟨hvn5, hdq5⟩ := s8.ext.keep_pair s7.wf hvn5 hdq5
  obtain ⟨hvn6, hdq6⟩ := s8.ext.keep_pair s7.wf hvn6 hdq6
  obtain ⟨hvn7, hdq7⟩ := s8.ext.keep_pair s7.wf hvn7 hdq7
  exact ⟨((((((((s0.comp s1).comp s2).comp s3).comp s4).comp s5).comp s6).comp s7).comp s8),
    ⟨hvn0, hdq0⟩, ⟨hvn1, hdq1⟩, ⟨hvn2, hdq2⟩, ⟨hvn3, hdq3⟩, ⟨hvn4, hdq4⟩,
    ⟨hvn5, hdq5⟩, ⟨hvn6, hdq6⟩, ⟨hvn7, hdq7⟩, ⟨hvn8, hdq8⟩⟩

theorem nineCentres_spec {d ssd : Nat} {u : Universe}
    {t : Universe.Nine} {N : QT9} (wf : WF u) (ms : MemoSem ssd u)
    (hN : NineOK u t (d + 2) N) :
    Step1 u (Universe.nineCentres u t).1 ssd (d + 2) ∧
    NineOK (Universe.nineCentres u t).1 (Universe.nineCentres u t).2
      (d + 1) (mapNineQ (fun s => s.reframeQ (P3.origin 2) 1) N) := by
  obtain ⟨t0, t1, t2, t3, t4, t5, t6, t7, t8⟩ := t
  obtain ⟨hp0, hp1, hp2, hp3, hp4, hp5, hp6, hp7, hp8⟩ := hN
  obtain ⟨hvt0, hdt0⟩ := hp0
  obtain ⟨hvt1, hdt1⟩ := hp1
  obtain ⟨hvt2, hdt2⟩ := hp2
  obtain ⟨hvt3, hdt3⟩ := hp3
  obtain ⟨hvt4, hdt4⟩ := hp4
  obtain ⟨hvt5, hdt5⟩ := hp5
  obtain ⟨hvt6, hdt6⟩ := hp6
  obtain ⟨hvt7, hdt7⟩ := hp7
  obtain ⟨hvt8, hdt8⟩ := hp8
  unfold Universe.nineCentres
  dsimp only
  obtain ⟨wf0, ext0, va0, memo0, dq0⟩ :=
    @reframe_spec u wf t0 (P3.origin 2) 1 (d + 2) hvt0
      (Nat.le_add_left 2 d)
  rcases hS0 : Universe.reframe u t0 (P3.origin 2) 1
    with ⟨v0, n0⟩
  rw [hS0] at wf0 ext0 va0 memo0 dq0
  dsimp only at wf0 ext0 va0 memo0 dq0
  have s0 : Step1 u v0 ssd (d + 2) :=
    Step1.ofPreserved wf ms wf0 ext0 memo0
  have hvn0 : validAt v0 n0 (d + 1) := by
    have := va0
    rw [show 1 + (d + 2 - (P3.origin 2).z) = d + 1 by
      show 1 + (d + 2 - 2) = d + 1
      omega] at this
    exact this
  have hdq0 : dnt v0 n0 = N.1.reframeQ (P3.origin 2) 1 := by
    rw [dq0, hdt0]
  obtain ⟨hvt1, hdt1⟩ := ext0.keep_pair wf hvt1 hdt1
  obtain ⟨hvt2, hdt2⟩ := ext0.keep_pair wf hvt2 hdt2
  obtain ⟨hvt3, hdt3⟩ := ext0.keep_pair wf hvt3 hdt3
  obtain ⟨hvt4, hdt4⟩ := ext0.keep_pair wf hvt4 hdt4
  obtain ⟨hvt5, hdt5⟩ := ext0.keep_pair wf hvt5 hdt5
  obtain ⟨hvt6, hdt6⟩ := ext0.keep_pair wf hvt6 hdt6
  obtain ⟨hvt7, hdt7⟩ := ext0.keep_pair wf hvt7 hdt7
  obtain ⟨hvt8, hdt8⟩ := ext0.keep_pair wf hvt8 hdt8
  obtain ⟨wf1, ext1, va1, memo1, dq1⟩ :=
    @reframe_spec v0 wf0 t1 (P3.origin 2) 1 (d + 2) hvt1
      (Nat.le_add_left 2 d)
  rcases hS1 : Universe.reframe v0 t1 (P3.origin 2) 1
    with ⟨v1, n1⟩
  rw [hS1] at wf1 ext1 va1 memo1 dq1
  dsimp only at wf1 ext1 va1 memo1 dq1
  have s1 : Step1 v0 v1 ssd (d + 2) :=
    Step1.ofPreserved wf0 s0.ms wf1 ext1 memo1
  have hvn1 : validAt v1 n1 (d + 1) := by
    have := va1
    rw [show 1 + (d + 2 - (P3.origin 2).z) = d + 1 by
      show 1 + (d + 2 - 2) = d + 1
      omega] at this
    exact this
  have hdq1 : dnt v1 n1 = N.2.1.reframeQ (P3.origin 2) 1 := by
    rw [dq1, hdt1]
  obtain ⟨hvn0, hdq0⟩ := ext1.keep_pair wf0 hvn0 hdq0
  obtain ⟨hvt2, hdt2⟩ := ext1.keep_pair wf0 hvt2 hdt2
  obtain ⟨hvt3, hdt3⟩ := ext1.keep_pair wf0 hvt3 hdt3
  obtain ⟨hvt4, hdt4⟩ := ext1.keep_pair wf0 hvt4 hdt4
  obtain ⟨hvt5, hdt5⟩ := ext1.keep_pair wf0 hvt5 hdt5
  obtain ⟨hvt6, hdt6⟩ := ext1.keep_pair wf0 hvt6 hdt6
  obtain ⟨hvt7, hdt7⟩ := ext1.keep_pair wf0 hvt7 hdt7
  obtain ⟨hvt8, hdt8⟩ := ext1.keep_pair wf0 hvt8 hdt8
  obtain ⟨wf2, ext2, va2, memo2, dq2⟩ :=
    @reframe_spec v1 wf1 t2 (P3.origin 2) 1 (d + 2) hvt2
      (Nat.le_add_left 2 d)
  rcases hS2 : Universe.reframe v1 t2 (P3.origin 2) 1
    with ⟨v2, n2⟩
  rw [hS2] at wf2 ext2 va2 memo2 dq2
  dsimp only at wf2 ext2 va2 memo2 dq2
  have s2 : Step1 v1 v2 ssd (d + 2) :=
    Step1.ofPreserved wf1 s1.ms wf2 ext2 memo2
  have hvn2 : validAt v2 n2 (d + 1) := by
    have := va2
    rw [show 1 + (d + 2 - (P3.origin 2).z) = d + 1 by
      show 1 + (d + 2 - 2) = d + 1
      omega] at this
    exact this
  have hdq2 : dnt v2 n2 = N.2.2.1.reframeQ (P3.origin 2) 1 := by
    rw [dq2, hdt2]
  obtain ⟨hvn0, hdq0⟩ := ext2.keep_pair wf1 hvn0 hdq0
  obtain ⟨hvn1, hdq1⟩ := ext2.keep_pair wf1 hvn1 hdq1
  obtain ⟨hvt3, hdt3⟩ := ext2.keep_pair wf1 hvt3 hdt3
  obtain ⟨hvt4, hdt4⟩ := ext2.keep_pair wf1 hvt4 hdt4
  obtain ⟨hvt5, hdt5⟩ := ext2.keep_pair wf1 hvt5 hdt5
  obtain ⟨hvt6, hdt6⟩ := ext2.keep_pair wf1 hvt6 hdt6
  obtain ⟨hvt7, hdt7⟩ := ext2.keep_pair wf1 hvt7 hdt7
  obtain ⟨hvt8, hdt8⟩ := ext2.keep_pair wf1 hvt8 hdt8
  obtain ⟨wf3, ext3, va3, memo3, dq3⟩ :=
    @reframe_spec v2 wf2 t3 (P3.origin 2) 1 (d + 2) hvt3
      (Nat.le_add_left 2 d)
  rcases hS3 : Universe.reframe v2 t3 (P3.origin 2) 1
    with ⟨v3, n3⟩
  rw [hS3] at wf3 ext3 va3 memo3 dq3
  dsimp only at wf3 ext3 va3 memo3 dq3
  have s3 : Step1 v2 v3 ssd (d + 2) :=
    Step1.ofPreserved wf2 s2.ms wf3 ext3 memo3
  have hvn3 : validAt v3 n3 (d + 1) := by
    have := va3
    rw [show 1 + (d + 2 - (P3.origin 2).z) = d + 1 by
      show 1 + (d + 2 - 2) = d + 1
      omega] at this
    exact this
  have hdq3 : dnt v3 n3 = N.2.2.2.1.reframeQ (P3.origin 2) 1 := by
    rw [dq3, hdt3]
  obtain ⟨hvn0, hdq0⟩ := ext3.keep_pair wf2 hvn0 hdq0
  obtain ⟨hvn1, hdq1⟩ := ext3.keep_pair wf2 hvn1 hdq1
  obtain ⟨hvn2, hdq2⟩ := ext3.keep_pair wf2 hvn2 hdq2
  obtain ⟨hvt4, hdt4⟩ := ext3.keep_pair wf2 hvt4 hdt4
  obtain ⟨hvt5, hdt5⟩ := ext3.keep_pair wf2 hvt5 hdt5
  obtain ⟨hvt6, hdt6⟩ := ext3.keep_pair wf2 hvt6 hdt6
  obtain ⟨hvt7, hdt7⟩ := ext3.keep_pair wf2 hvt7 hdt7
  obtain ⟨hvt8, hdt8⟩ := ext3.keep_pair wf2 hvt8 hdt8
  obtain ⟨wf4, ext4, va4, memo4, dq4⟩ :=
    @reframe_spec v3 wf3 t4 (P3.origin 2) 1 (d + 2) hvt4
      (Nat.le_add_left 2 d)
  rcases hS4 : Universe.reframe v3 t4 (P3.origin 2) 1
    with ⟨v4, n4⟩
  rw [hS4] at wf4 ext4 va4 memo4 dq4
  dsimp only at wf4 ext4 va4 memo4 dq4
  have s4 : Step1 v3 v4 ssd (d + 2) :=
    Step1.ofPreserved wf3 s3.ms wf4 ext4 memo4
  have hvn4 : validAt v4 n4 (d + 1) := by
    have := va4
    rw [show 1 + (d + 2 - (P3.origin 2).z) = d + 1 by
      show 1 + (d + 2 - 2) = d + 1
      omega] at this
    exact this
  have hdq4 : dnt v4 n4 = N.2.2.2.2.1.reframeQ (P3.origin 2) 1 := by
    rw [dq4, hdt4]
  obtain ⟨hvn0, hdq0⟩ := ext4.keep_pair wf3 hvn0 hdq0
  obtain ⟨hvn1, hdq1⟩ := ext4.keep_pair wf3 hvn1 hdq1
  obtain ⟨hvn2, hdq2⟩ := ext4.keep_pair wf3 hvn2 hdq2
  obtain ⟨hvn3, hdq3⟩ := ext4.keep_pair wf3 hvn3 hdq3
  obtain ⟨hvt5, hdt5⟩ := ext4.keep_pair wf3 hvt5 hdt5
  obtain ⟨hvt6, hdt6⟩ := ext4.keep_pair wf3 hvt6 hdt6
  obtain ⟨hvt7, hdt7⟩ := ext4.keep_pair wf3 hvt7 hdt7
  obtain ⟨hvt8, hdt8⟩ := ext4.keep_pair wf3 hvt8 hdt8
  obtain ⟨wf5, ext5, va5, memo5, dq5⟩ :=
    @reframe_spec v4 wf4 t5 (P3.origin 2) 1 (d + 2) hvt5
      (Nat.le_add_left 2 d)
  rcases hS5 : Universe.reframe v4 t5 (P3.origin 2) 1
    with ⟨v5, n5⟩
  rw [hS5] at wf5 ext5 va5 memo5 dq5
  dsimp only at wf5 ext5 va5 memo5 dq5
  have s5 : Step1 v4 v5 ssd (d + 2) :=
    Step1.ofPreserved wf4 s4.ms wf5 ext5 memo5
  have hvn5 : validAt v5 n5 (d + 1) := by
    have := va5
    rw [show 1 + (d + 2 - (P3.origin 2).z) = d + 1 by
      show 1 + (d + 2 - 2) = d + 1
      omega] at this
    exact this
  have hdq5 : dnt v5 n5 = N.2.2.2.2.2.1.reframeQ (P3.origin 2) 1 := by
    rw [dq5, hdt5]
  obtain ⟨hvn0, hdq0⟩ := ext5.keep_pair wf4 hvn0 hdq0
  obtain ⟨hvn1, hdq1⟩ := ext5.keep_pair wf4 hvn1 hdq1
  obtain ⟨hvn2, hdq2⟩ := ext5.keep_pair wf4 hvn2 hdq2
  obtain ⟨hvn3, hdq3⟩ := ext5.keep_pair wf4 hvn3 hdq3
  obtain ⟨hvn4, hdq4⟩ := ext5.keep_pair wf4 hvn4 hdq4
  obtain ⟨hvt6, hdt6⟩ := ext5.keep_pair wf4 hvt6 hdt6
  obtain ⟨hvt7, hdt7⟩ := ext5.keep_pair wf4 hvt7 hdt7
  obtain ⟨hvt8, hdt8⟩ := ext5.keep_pair wf4 hvt8 hdt8
  obtain ⟨wf6, ext6, va6, memo6, dq6⟩ :=
    @reframe_spec v5 wf5 t6 (P3.origin 2) 1 (d + 2) hvt6
      (Nat.le_add_left 2 d)
  rcases hS6 : Universe.reframe v5 t6 (P3.origin 2) 1
    with ⟨v6, n6⟩
  rw [hS6] at wf6 ext6 va6 memo6 dq6
  dsimp only at wf6 ext6 va6 memo6 dq6
  have s6 : Step1 v5 v6 ssd (d + 2) :=
    Step1.ofPreserved wf5 s5.ms wf6 ext6 memo6
  have hvn6 : validAt v6 n6 (d + 1) := by
    have := va6
    rw [show 1 + (d + 2 - (P3.origin 2).z) = d + 1 by
      show 1 + (d + 2 - 2) = d + 1
      omega] at this
    exact this
  have hdq6 : dnt v6 n6 = N.2.2.2.2.2.2.1.reframeQ (P3.origin 2) 1 := by
    rw [dq6, hdt6]
  obtain ⟨hvn0, hdq0⟩ := ext6.keep_pair wf5 hvn0 hdq0
  obtain ⟨hvn1, hdq1⟩ := ext6.keep_pair wf5 hvn1 hdq1
  obtain ⟨hvn2, hdq2⟩ := ext6.keep_pair wf5 hvn2 hdq2
  obtain ⟨hvn3, hdq3⟩ := ext6.keep_pair wf5 hvn3 hdq3
  obtain ⟨hvn4, hdq4⟩ := ext6.keep_pair wf5 hvn4 hdq4
  obtain ⟨hvn5, hdq5⟩ := ext6.keep_pair wf5 hvn5 hdq5
  obtain ⟨hvt7, hdt7⟩ := ext6.keep_pair wf5 hvt7 hdt7
  obtain ⟨hvt8, hdt8⟩ := ext6.keep_pair wf5 hvt8 hdt8
  obtain ⟨wf7, ext7, va7, memo7, dq7⟩ :=
    @reframe_spec v6 wf6 t7 (P3.origin 2) 1 (d + 2) hvt7
      (Nat.le_add_left 2 d)
  rcases hS7 : Universe.reframe v6 t7 (P3.origin 2) 1
    with ⟨v7, n7⟩
  rw [hS7] at wf7 ext7 va7 memo7 dq7
  dsimp only at wf7 ext7 va7 memo7 dq7
  have s7 : Step1 v6 v7 ssd (d + 2) :=
    Step1.ofPreserved wf6 s6.ms wf7 ext7 memo7
  have hvn7 : validAt v7 n7 (d + 1) := by
    have := va7
    rw [show 1 + (d + 2 - (P3.origin 2).z) = d + 1 by
      show 1 + (d + 2 - 2) = d + 1
      omega] at this
    exact this
  have hdq7 : dnt v7 n7 = N.2.2.2.2.2.2.2.1.reframeQ (P3.origin 2) 1 := by
    rw [dq7, hdt7]
  obtain ⟨hvn0, hdq0⟩ := ext7.keep_pair wf6 hvn0 hdq0
  obtain ⟨hvn1, hdq1⟩ := ext7.keep_pair wf6 hvn1 hdq1
  obtain ⟨hvn2, hdq2⟩ := ext7.keep_pair wf6 hvn2 hdq2
  obtain ⟨hvn3, hdq3⟩ := ext7.keep_pair wf6 hvn3 hdq3
  obtain ⟨hvn4, hdq4⟩ := ext7.keep_pair wf6 hvn4 hdq4
  obtain ⟨hvn5, hdq5⟩ := ext7.keep_pair wf6 hvn5 hdq5
  obtain ⟨hvn6, hdq6⟩ := ext7.keep_pair wf6 hvn6 hdq6
  obtain ⟨hvt8, hdt8⟩ := ext7.keep_pair wf6 hvt8 hdt8
  obtain ⟨wf8, ext8, va8, memo8, dq8⟩ :=
    @reframe_spec v7 wf7 t8 (P3.origin 2) 1 (d + 2) hvt8
      (Nat.le_add_left 2 d)
  rcases hS8 : Universe.reframe v7 t8 (P3.origin 2) 1
    with ⟨v8, n8⟩
  rw [hS8] at wf8 ext8 va8 memo8 dq8
  dsimp only at wf8 ext8 va8 memo8 dq8
  have s8 : Step1 v7 v8 ssd (d + 2) :=
    Step1.ofPreserved wf7 s7.ms wf8 ext8 memo8
  have hvn8 : validAt v8 n8 (d + 1) := by
    have := va8
    rw [show 1 + (d + 2 - (P3.origin 2).z) = d + 1 by
      show 1 + (d + 2 - 2) = d + 1
      omega] at this
    exact this
  have hdq8 : dnt v8 n8 = N.2.2.2.2.2.2.2.2.reframeQ (P3.origin 2) 1 := by
    rw [dq8, hdt8]
  obtain ⟨hvn0, hdq0⟩ := ext8.keep_pair wf7 hvn0 hdq0
  obtain ⟨hvn1, hdq1⟩ := ext8.keep_pair wf7 hvn1 hdq1
  obtain ⟨hvn2, hdq2⟩ := ext8.keep_pair wf7 hvn2 hdq2
  obtain ⟨hvn3, hdq3⟩ := ext8.keep_pair wf7 hvn3 hdq3
  obtain ⟨hvn4, hdq4⟩ := ext8.keep_pair wf7 hvn4 hdq4
  obtain ⟨hvn5, hdq5⟩ := ext8.keep_pair wf7 hvn5 hdq5
  obtain ⟨hvn6, hdq6⟩ := ext8.keep_pair wf7 hvn6 hdq6
  obtain ⟨hvn7, hdq7⟩ := ext8.keep_pair wf7 hvn7 hdq7
  exact ⟨((((((((s0.comp s1).comp s2).comp s3).comp s4).comp s5).comp s6).comp s7).comp s8),
    ⟨hvn0, hdq0⟩, ⟨hvn1, hdq1⟩, ⟨hvn2, hdq2⟩, ⟨hvn3, hdq3⟩, ⟨hvn4, hdq4⟩,
    ⟨hvn5, hdq5⟩, ⟨hvn6, hdq6⟩, ⟨hvn7, hdq7⟩, ⟨hvn8, hdq8⟩⟩


theorem stepTail_spec {stepf : Universe → Nat → Universe × Nat}
    {d ssd : Nat} (hf : StepFOK stepf d ssd) {u : Universe}
    {n : Universe.Nine} {N : QT9} (wf : WF u) (ms : MemoSem ssd u)
    (hN : NineOK u n (d + 1) N) :
    Step1 u (Universe.stepTail stepf u n).1 ssd (d + 2) ∧
    validAt (Universe.stepTail stepf u n).1
      (Universe.stepTail stepf u n).2 (d + 2) ∧
    dnt (Universe.stepTail stepf u n).1 (Universe.stepTail stepf u n).2 =
      QTree.branch
        (QTree.stepQ (QTree.branch N.1 N.2.1 N.2.2.2.1 N.2.2.2.2.1) (d + 2) ssd)
        (QTree.stepQ (QTree.branch N.2.1 N.2.2.1 N.2.2.2.2.1 N.2.2.2.2.2.1) (d + 2) ssd)
        (QTree.stepQ (QTree.branch N.2.2.2.1 N.2.2.2.2.1 N.2.2.2.2.2.2.1 N.2.2.2.2.2.2.2.1) (d + 2) ssd)
        (QTree.stepQ (QTree.branch N.2.2.2.2.1 N.2.2.2.2.2.1 N.2.2.2.2.2.2.2.1 N.2.2.2.2.2.2.2.2) (d + 2) ssd) := by
  obtain ⟨n0, n1, n2, n3, n4, n5, n6, n7, n8⟩ := n
  obtain ⟨hp0, hp1, hp2, hp3, hp4, hp5, hp6, hp7, hp8⟩ := hN
  obtain ⟨hvt0, hdt0⟩ := hp0
  obtain ⟨hvt1, hdt1⟩ := hp1
  obtain ⟨hvt2, hdt2⟩ := hp2
  obtain ⟨hvt3, hdt3⟩ := hp3
  obtain ⟨hvt4, hdt4⟩ := hp4
  obtain ⟨hvt5, hdt5⟩ := hp5
  obtain ⟨hvt6, hdt6⟩ := hp6
  obtain ⟨hvt7, hdt7⟩ := hp7
  obtain ⟨hvt8, hdt8⟩ := hp8
  have hu0 : QTree.uni (d + 1) N.1 = true := by
    rw [show N.1 = dnt u n0 from hdt0.symm]
    exact hvt0.2
  have hu1 : QTree.uni (d + 1) N.2.1 = true := by
    rw [show N.2.1 = dnt u n1 from hdt1.symm]
    exact hvt1.2
  have hu2 : QTree.uni (d + 1) N.2.2.1 = true := by
    rw [show N.2.2.1 = dnt u n2 from hdt2.symm]
    exact hvt2.2
  have hu3 : QTree.uni (d + 1) N.2.2.2.1 = true := by
    rw [show N.2.2.2.1 = dnt u n3 from hdt3.symm]
    exact hvt3.2
  have hu4 : QTree.uni (d + 1) N.2.2.2.2.1 = true := by
    rw [show N.2.2.2.2.1 = dnt u n4 from hdt4.symm]
    exact hvt4.2
  have hu5 : QTree.uni (d + 1) N.2.2.2.2.2.1 = true := by
    rw [show N.2.2.2.2.2.1 = dnt u n5 from hdt5.symm]
    exact hvt5.2
  have hu6 : QTree.uni (d + 1) N.2.2.2.2.2.2.1 = true := by
    rw [show N.2.2.2.2.2.2.1 = dnt u n6 from hdt6.symm]
    exact hvt6.2
  have hu7 : QTree.uni (d + 1) N.2.2.2.2.2.2.2.1 = true := by
    rw [show N.2.2.2.2.2.2.2.1 = dnt u n7 from hdt7.symm]
    exact hvt7.2
  have hu8 : QTree.uni (d + 1) N.2.2.2.2.2.2.2.2 = true := by
    rw [show N.2.2.2.2.2.2.2.2 = dnt u n8 from hdt8.symm]
    exact hvt8.2
  have ht0 : TreeOK u.nodes (Tree.branch n0 n1 n3 n4) :=
    ⟨hvt0.1, hvt1.1, hvt3.1, hvt4.1⟩
  have cs0 := canonicalise_spec wf ht0
  rcases hC0 : Universe.canonicalise u (Tree.branch n0 n1 n3 n4)
    with ⟨w0, f0⟩
  rw [hC0] at cs0
  have sc0 : Step1 u w0 ssd (d + 2) :=
    Step1.ofPreserved wf ms cs0.wf cs0.ext cs0.memo
  have hdf0 : dnt w0 f0 = QTree.branch N.1 N.2.1 N.2.2.2.1 N.2.2.2.2.1 := by
    rw [cs0.dnt_eq, interp_branch, hdt0, hdt1, hdt3, hdt4]
  have hvf0 : validAt w0 f0 (d + 2) := by
    refine ⟨cs0.lt, ?_⟩
    rw [hdf0]
    exact uni_branch hu0 hu1 hu3 hu4
  obtain ⟨hvt0, hdt0⟩ := cs0.ext.keep_pair wf hvt0 hdt0
  obtain ⟨hvt1, hdt1⟩ := cs0.ext.keep_pair wf hvt1 hdt1
  obtain ⟨hvt2, hdt2⟩ := cs0.ext.keep_pair wf hvt2 hdt2
  obtain ⟨hvt3, hdt3⟩ := cs0.ext.keep_pair wf hvt3 hdt3
  obtain ⟨hvt4, hdt4⟩ := cs0.ext.keep_pair wf hvt4 hdt4
  obtain ⟨hvt5, hdt5⟩ := cs0.ext.keep_pair wf hvt5 hdt5
  obtain ⟨hvt6, hdt6⟩ := cs0.ext.keep_pair wf hvt6 hdt6
  obtain ⟨hvt7, hdt7⟩ := cs0.ext.keep_pair wf hvt7 hdt7
  obtain ⟨hvt8, hdt8⟩ := cs0.ext.keep_pair wf hvt8 hdt8
  have ht1 : TreeOK w0.nodes (Tree.branch n1 n2 n4 n5) :=
    ⟨hvt1.1, hvt2.1, hvt4.1, hvt5.1⟩
  have cs1 := canonicalise_spec cs0.wf ht1
  rcases hC1 : Universe.canonicalise w0 (Tree.branch n1 n2 n4 n5)
    with ⟨w1, f1⟩
  rw [hC1] at cs1
  have sc1 : Step1 w0 w1 ssd (d + 2) :=
    Step1.ofPreserved cs0.wf sc0.ms cs1.wf cs1.ext cs1.memo
  have hdf1 : dnt w1 f1 = QTree.branch N.2.1 N.2.2.1 N.2.2.2.2.1 N.2.2.2.2.2.1 := by
    rw [cs1.dnt_eq, interp_branch, hdt1, hdt2, hdt4, hdt5]
  have hvf1 : validAt w1 f1 (d + 2) := by
    refine ⟨cs1.lt, ?_⟩
    rw [hdf1]
    exact uni_branch hu1 hu2 hu4 hu5
  obtain ⟨hvf0, hdf0⟩ := cs1.ext.keep_pair cs0.wf hvf0 hdf0
  obtain ⟨hvt0, hdt0⟩ := cs1.ext.keep_pair cs0.wf hvt0 hdt0
  obtain ⟨hvt1, hdt1⟩ := cs1.ext.keep_pair cs0.wf hvt1 hdt1
  obtain ⟨hvt2, hdt2⟩ := cs1.ext.keep_pair cs0.wf hvt2 hdt2
  obtain ⟨hvt3, hdt3⟩ := cs1.ext.keep_pair cs0.wf hvt3 hdt3
  obtain ⟨hvt4, hdt4⟩ := cs1.ext.keep_pair cs0.wf hvt4 hdt4
  obtain ⟨hvt5, hdt5⟩ := cs1.ext.keep_pair cs0.wf hvt5 hdt5
  obtain ⟨hvt6, hdt6⟩ := cs1.ext.keep_pair cs0.wf hvt6 hdt6
  obtain ⟨hvt7, hdt7⟩ := cs1.ext.keep_pair cs0.wf hvt7 hdt7
  obtain ⟨hvt8, hdt8⟩ := cs1.ext.keep_pair cs0.wf hvt8 hdt8
  have ht2 : TreeOK w1.nodes (Tree.branch n3 n4 n6 n7) :=
    ⟨hvt3.1, hvt4.1, hvt6.1, hvt7.1⟩
  have cs2 := canonicalise_spec cs1.wf ht2
  rcases hC2 : Universe.canonicalise w1 (Tree.branch n3 n4 n6 n7)
    with ⟨w2, f2⟩
  rw [hC2] at cs2
  have sc2 : Step1 w1 w2 ssd (d + 2) :=
    Step1.ofPreserved cs1.wf sc1.ms cs2.wf cs2.ext cs2.memo
  have hdf2 : dnt w2 f2 = QTree.branch N.2.2.2.1 N.2.2.2.2.1 N.2.2.2.2.2.2.1 N.2.2.2.2.2.2.2.1 := by
    rw [cs2.dnt_eq, interp_branch, hdt3, hdt4, hdt6, hdt7]
  have hvf2 : validAt w2 f2 (d + 2) := by
    refine ⟨cs2.lt, ?_⟩
    rw [hdf2]
    exact uni_branch hu3 hu4 hu6 hu7
  obtain ⟨hvf0, hdf0⟩ := cs2.ext.keep_pair cs1.wf hvf0 hdf0
  obtain ⟨hvf1, hdf1⟩ := cs2.ext.keep_pair cs1.wf hvf1 hdf1
  obtain ⟨hvt0, hdt0⟩ := cs2.ext.keep_pair cs1.wf hvt0 hdt0
  obtain ⟨hvt1, hdt1⟩ := cs2.ext.keep_pair cs1.wf hvt1 hdt1
  obtain ⟨hvt2, hdt2⟩ := cs2.ext.keep_pair cs1.wf hvt2 hdt2
  obtain ⟨hvt3, hdt3⟩ := cs2.ext.keep_pair cs1.wf hvt3 hdt3
  obtain ⟨hvt4, hdt4⟩ := cs2.ext.keep_pair cs1.wf hvt4 hdt4
  obtain ⟨hvt5, hdt5⟩ := cs2.ext.keep_pair cs1.wf hvt5 hdt5
  obtain ⟨hvt6, hdt6⟩ := cs2.ext.keep_pair cs1.wf hvt6 hdt6
  obtain ⟨hvt7, hdt7⟩ := cs2.ext.keep_pair cs1.wf hvt7 hdt7
  obtain ⟨hvt8, hdt8⟩ := cs2.ext.keep_pair cs1.wf hvt8 hdt8
  have ht3 : TreeOK w2.nodes (Tree.branch n4 n5 n7 n8) :=
    ⟨hvt4.1, hvt5.1, hvt7.1, hvt8.1⟩
  have cs3 := canonicalise_spec cs2.wf ht3
  rcases hC3 : Universe.canonicalise w2 (Tree.branch n4 n5 n7 n8)
    with ⟨w3, f3⟩
  rw [hC3] at cs3
  have sc3 : Step1 w2 w3 ssd (d + 2) :=
    Step1.ofPreserved cs2.wf sc2.ms cs3.wf cs3.ext cs3.memo
  have hdf3 : dnt w3 f3 = QTree.branch N.2.2.2.2.1 N.2.2.2.2.2.1 N.2.2.2.2.2.2.2.1 N.2.2.2.2.2.2.2.2 := by
    rw [cs3.dnt_eq, interp_branch, hdt4, hdt5, hdt7, hdt8]
  have hvf3 : validAt w3 f3 (d + 2) := by
    refine ⟨cs3.lt, ?_⟩
    rw [hdf3]
    exact uni_branch hu4 hu5 hu7 hu8
  obtain ⟨hvf0, hdf0⟩ := cs3.ext.keep_pair cs2.wf hvf0 hdf0
  obtain ⟨hvf1, hdf1⟩ := cs3.ext.keep_pair cs2.wf hvf1 hdf1
  obtain ⟨hvf2, hdf2⟩ := cs3.ext.keep_pair cs2.wf hvf2 hdf2
  obtain ⟨hvt0, hdt0⟩ := cs3.ext.keep_pair cs2.wf hvt0 hdt0
  obtain ⟨hvt1, hdt1⟩ := cs3.ext.keep_pair cs2.wf hvt1 hdt1
  obtain ⟨hvt2, hdt2⟩ := cs3.ext.keep_pair cs2.wf hvt2 hdt2
  obtain ⟨hvt3, hdt3⟩ := cs3.ext.keep_pair cs2.wf hvt3 hdt3
  obtain ⟨hvt4, hdt4⟩ := cs3.ext.keep_pair cs2.wf hvt4 hdt4
  obtain ⟨hvt5, hdt5⟩ := cs3.ext.keep_pair cs2.wf hvt5 hdt5
  obtain ⟨hvt6, hdt6⟩ := cs3.ext.keep_pair cs2.wf hvt6 hdt6
  obtain ⟨hvt7, hdt7⟩ := cs3.ext.keep_pair cs2.wf hvt7 hdt7
  obtain ⟨hvt8, hdt8⟩ := cs3.ext.keep_pair cs2.wf hvt8 hdt8
  obtain ⟨ss0, hvr0, hdr0⟩ := hf w3 f0 cs3.wf sc3.ms hvf0
  rcases hS0 : stepf w3 f0 with ⟨x0, r0⟩
  rw [hS0] at ss0 hvr0 hdr0
  dsimp only at ss0 hvr0 hdr0
  have hdR0 : dnt x0 r0 = QTree.stepQ (QTree.branch N.1 N.2.1 N.2.2.2.1 N.2.2.2.2.1) (d + 2) ssd := by
    rw [hdr0, hdf0]
  obtain ⟨hvf1, hdf1⟩ := ss0.ext.keep_pair cs3.wf hvf1 hdf1
  obtain ⟨hvf2, hdf2⟩ := ss0.ext.keep_pair cs3.wf hvf2 hdf2
  obtain ⟨hvf3, hdf3⟩ := ss0.ext.keep_pair cs3.wf hvf3 hdf3
  obtain ⟨ss1, hvr1, hdr1⟩ := hf x0 f1 ss0.wf ss0.ms hvf1
  rcases hS1 : stepf x0 f1 with ⟨x1, r1⟩
  rw [hS1] at ss1 hvr1 hdr1
  dsimp only at ss1 hvr1 hdr1
  have hdR1 : dnt x1 r1 = QTree.stepQ (QTree.branch N.2.1 N.2.2.1 N.2.2.2.2.1 N.2.2.2.2.2.1) (d + 2) ssd := by
    rw [hdr1, hdf1]
  obtain ⟨hvr0, hdR0⟩ := ss1.ext.keep_pair ss0.wf hvr0 hdR0
  obtain ⟨hvf2, hdf2⟩ := ss1.ext.keep_pair ss0.wf hvf2 hdf2
  obtain ⟨hvf3, hdf3⟩ := ss1.ext.keep_pair ss0.wf hvf3 hdf3
  obtain ⟨ss2, hvr2, hdr2⟩ := hf x1 f2 ss1.wf ss1.ms hvf2
  rcases hS2 : stepf x1 f2 with ⟨x2, r2⟩
  rw [hS2] at ss2 hvr2 hdr2
  dsimp only at ss2 hvr2 hdr2
  have hdR2 : dnt x2 r2 = QTree.stepQ (QTree.branch N.2.2.2.1 N.2.2.2.2.1 N.2.2.2.2.2.2.1 N.2.2.2.2.2.2.2.1) (d + 2) ssd := by
    rw [hdr2, hdf2]
  obtain ⟨hvr0, hdR0⟩ := ss2.ext.keep_pair ss1.wf hvr0 hdR0
  obtain ⟨hvr1, hdR1⟩ := ss2.ext.keep_pair ss1.wf hvr1 hdR1
  obtain ⟨hvf3, hdf3⟩ := ss2.ext.keep_pair ss1.wf hvf3 hdf3
  obtain ⟨ss3, hvr3, hdr3⟩ := hf x2 f3 ss2.wf ss2.ms hvf3
  rcases hS3 : stepf x2 f3 with ⟨x3, r3⟩
  rw [hS3] at ss3 hvr3 hdr3
  dsimp only at ss3 hvr3 hdr3
  have hdR3 : dnt x3 r3 = QTree.stepQ (QTree.branch N.2.2.2.2.1 N.2.2.2.2.2.1 N.2.2.2.2.2.2.2.1 N.2.2.2.2.2.2.2.2) (d + 2) ssd := by
    rw [hdr3, hdf3]
  obtain ⟨hvr0, hdR0⟩ := ss3.ext.keep_pair ss2.wf hvr0 hdR0
  obtain ⟨hvr1, hdR1⟩ := ss3.ext.keep_pair ss2.wf hvr1 hdR1
  obtain ⟨hvr2, hdR2⟩ := ss3.ext.keep_pair ss2.wf hvr2 hdR2
  have hur0 : QTree.uni (d + 1) (dnt x3 r0) = true := hvr0.2
  have hur1 : QTree.uni (d + 1) (dnt x3 r1) = true := hvr1.2
  have hur2 : QTree.uni (d + 1) (dnt x3 r2) = true := hvr2.2
  have hur3 : QTree.uni (d + 1) (dnt x3 r3) = true := hvr3.2
  have htF : TreeOK x3.nodes (Tree.branch r0 r1 r2 r3) :=
    ⟨hvr0.1, hvr1.1, hvr2.1, hvr3.1⟩
  have csF := canonicalise_spec ss3.wf htF
  unfold Universe.stepTail
  dsimp only
  rw [hC0]
  dsimp only
  rw [hC1]
  dsimp only
  rw [hC2]
  dsimp only
  rw [hC3]
  dsimp only
  rw [hS0]
  dsimp only
  rw [hS1]
  dsimp only
  rw [hS2]
  dsimp only
  rw [hS3]
  dsimp only
  have hdF : dnt (Universe.canonicalise x3 (Tree.branch r0 r1 r2 r3)).1
      (Universe.canonicalise x3 (Tree.branch r0 r1 r2 r3)).2 =
      QTree.branch (dnt x3 r0) (dnt x3 r1) (dnt x3 r2)
        (dnt x3 r3) := by
    rw [csF.dnt_eq, interp_branch]
  refine ⟨(((((((sc0.comp sc1).comp sc2).comp sc3).comp ss0).comp ss1).comp ss2).comp ss3).comp
    (Step1.ofPreserved ss3.wf ss3.ms csF.wf csF.ext csF.memo),
    ⟨csF.lt, ?_⟩, ?_⟩
  · rw [hdF]
    exact uni_branch hur0 hur1 hur2 hur3
  · rw [hdF, hdR0, hdR1, hdR2, hdR3]


theorem Step1.weaken {u v : Universe} {ssd D E : Nat} (h : D ≤ E)
    (s : Step1 u v ssd D) : Step1 u v ssd E :=
  ⟨s.wf, s.ext, s.ms, NewB_weaken h s.nb⟩

theorem MemoSem_consMemo {ssd : Nat} {u : Universe} {k : Nat × Bool}
    {r z : Nat} (ms : MemoSem ssd u) (hz : 2 ≤ z) (hv1 : validAt u k.1 z)
    (hkey : k.2 = decide (z ≤ ssd)) (hv2 : validAt u r (z - 1))
    (hdr : dnt u r = QTree.stepQ (dnt u k.1) z ssd) :
    MemoSem ssd { u with next_gen := (k, r) :: u.next_gen } := by
  intro q rr hq
  by_cases hkk : k = q
  · subst hkk
    have hrr : r = rr := by
      simpa [alookup] using hq
    subst hrr
    exact ⟨z, hz, hv1, hkey, hv2, hdr⟩
  · have hq' : alookup u.next_gen q = some rr := by
      simpa [alookup, if_neg hkk] using hq
    exact ms q rr hq'

theorem NewB_consMemo {u : Universe} {k : Nat × Bool} {r : Nat} {z D : Nat}
    (hz : 2 ≤ z) (hzD : z ≤ D) (hv1 : validAt u k.1 z) :
    NewB u { u with next_gen := (k, r) :: u.next_gen } D := by
  intro q rr hq
  by_cases hkk : k = q
  · subst hkk
    exact Or.inr ⟨z, hz, hzD, hv1⟩
  · refine Or.inl ?_
    simpa [alookup, if_neg hkk] using hq

/-- Inserting a semantically correct memo entry for a fresh key is a valid
single step of the engine. -/
theorem Step1.insertMemo {u : Universe} {ssd D : Nat} {k : Nat × Bool}
    {r z : Nat} (wf : WF u) (ms : MemoSem ssd u)
    (hmiss : alookup u.next_gen k = none) (hz : 2 ≤ z) (hzD : z ≤ D)
    (hv1 : validAt u k.1 z) (hkey : k.2 = decide (z ≤ ssd))
    (hv2 : validAt u r (z - 1))
    (hdr : dnt u r = QTree.stepQ (dnt u k.1) z ssd) :
    Step1 u { u with next_gen := (k, r) :: u.next_gen } ssd D :=
  ⟨WF_consMemo wf hz hv1 hv2, Ext.consMemo hmiss,
   MemoSem_consMemo ms hz hv1 hkey hv2 hdr, NewB_consMemo hz hzD hv1⟩

/-- The four-group recombination of `stepTail`, on pure trees. -/
def stepTailQ (N : QT9) (d ssd : Nat) : QTree :=
  QTree.branch
    (QTree.stepQ (QTree.branch N.1 N.2.1 N.2.2.2.1 N.2.2.2.2.1) (d + 2) ssd)
    (QTree.stepQ (QTree.branch N.2.1 N.2.2.1 N.2.2.2.2.1 N.2.2.2.2.2.1)
      (d + 2) ssd)
    (QTree.stepQ (QTree.branch N.2.2.2.1 N.2.2.2.2.1 N.2.2.2.2.2.2.1
      N.2.2.2.2.2.2.2.1) (d + 2) ssd)
    (QTree.stepQ (QTree.branch N.2.2.2.2.1 N.2.2.2.2.2.1 N.2.2.2.2.2.2.2.1
      N.2.2.2.2.2.2.2.2) (d + 2) ssd)

theorem stepQ_succ3 (t : QTree) (d ssd : Nat) :
    QTree.stepQ t (d + 3) ssd =
      stepTailQ (mapNineQ (fun s =>
        if d + 3 ≤ ssd then QTree.stepQ s (d + 2) ssd
        else s.reframeQ (P3.origin 2) 1) (QTree.nineQ t)) d ssd := rfl

set_option maxRecDepth 10000 in
theorem step_memo_hit (u : Universe) (tr depth ssd r : Nat)
    (hm : alookup u.next_gen (tr, decide (depth ≤ ssd)) = some r) :
    Universe.step u tr depth ssd = (u, r) := by
  refine (Universe.step.eq_def u tr depth ssd).trans ?_
  dsimp only
  rw [hm]

set_option maxRecDepth 10000 in
theorem step_miss_two (u : Universe) (tr ssd : Nat)
    (hm : alookup u.next_gen (tr, decide (2 ≤ ssd)) = none) :
    Universe.step u tr 2 ssd =
      (match Universe.l2_gen u (u.make_l2_bitmask tr) with
       | (u1, res) =>
         ({ u1 with next_gen := ((tr, decide (2 ≤ ssd)), res) ::
            u1.next_gen }, res)) := by
  refine (Universe.step.eq_def u tr 2 ssd).trans ?_
  dsimp only
  rw [hm]

set_option maxRecDepth 10000 in
theorem step_miss_succ3 (u : Universe) (tr d ssd : Nat)
    (hm : alookup u.next_gen (tr, decide (d + 3 ≤ ssd)) = none) :
    Universe.step u tr (d + 3) ssd =
      (match Universe.nineReframes u tr with
       | (u, t) =>
         match
           if d + 3 ≤ ssd then
             Universe.nineSteps (fun u l2 => Universe.step u l2 (d + 2) ssd)
               u t
           else Universe.nineCentres u t with
         | (u, n) =>
           match Universe.stepTail
               (fun u l2 => Universe.step u l2 (d + 2) ssd) u n with
           | (u, res) =>
             ({ u with next_gen := ((tr, decide (d + 3 ≤ ssd)), res) ::
                u.next_gen }, res)) := by
  refine (Universe.step.eq_def u tr (d + 3) ssd).trans ?_
  dsimp only
  rw [hm]

set_option maxRecDepth 10000 in
/-- Full correctness of the step engine relative to the pure recursion
`stepQ`: the store evolves by a valid engine step, the result handle is a
valid node one level down, and it denotes exactly `stepQ` of the input. -/
theorem step_spec {ssd : Nat} : ∀ depth u tr, WF u → MemoSem ssd u →
    validAt u tr depth → 2 ≤ depth →
    Step1 u (Universe.step u tr depth ssd).1 ssd depth ∧
    validAt (Universe.step u tr depth ssd).1
      (Universe.step u tr depth ssd).2 (depth - 1) ∧
    dnt (Universe.step u tr depth ssd).1 (Universe.step u tr depth ssd).2 =
      QTree.stepQ (dnt u tr) depth ssd := by
  intro depth
  induction depth with
  | zero =>
    intro u tr _ _ _ h2
    exact absurd h2 (by omega)
  | succ n ih =>
    intro u tr wf ms hv h2
    cases hm : alookup u.next_gen (tr, decide (n + 1 ≤ ssd)) with
    | some r =>
      rw [step_memo_hit u tr (n + 1) ssd r hm]
      obtain ⟨z, hz2, hvk, hkey, hvr, hdr⟩ := ms (tr, decide (n + 1 ≤ ssd)) r hm
      have hvk' : validAt u tr z := hvk
      have hzz : z = n + 1 := uni_unique hvk'.2 hv.2
      subst hzz
      exact ⟨Step1.stay wf ms, hvr, hdr⟩
    | none =>
      rcases Nat.lt_or_ge n 2 with hn | hn
      · have hn1 : n = 1 := by omega
        subst hn1
        rw [show (1 : Nat) + 1 = 2 from rfl] at hm hv ⊢
        rcases hL : Universe.l2_gen u (u.make_l2_bitmask tr) with ⟨u1, res⟩
        obtain ⟨wf1, ext1, hvres, hng1, hdres⟩ :=
          l2_gen_spec wf (u.make_l2_bitmask tr)
        rw [hL] at wf1 ext1 hvres hng1 hdres
        dsimp only at wf1 ext1 hvres hng1 hdres
        have hstep := step_miss_two u tr ssd hm
        rw [hL] at hstep
        dsimp only at hstep
        rw [hstep]
        have s1 : Step1 u u1 ssd 2 := Step1.ofPreserved wf ms wf1 ext1 hng1
        obtain ⟨hvtr1, hdtr1⟩ := ext1.keep_pair wf hv rfl
        have hmiss1 : alookup u1.next_gen (tr, decide (2 ≤ ssd)) = none := by
          rw [hng1]
          exact hm
        have hbm : u.make_l2_bitmask tr = QTree.maskQ (dnt u tr) :=
          make_l2_bitmask_dnt wf hv
        have hdres1 : dnt u1 res = QTree.stepQ (dnt u1 tr) 2 ssd := by
          rw [hdres, hbm, hdtr1]
          rfl
        have hdres2 : dnt u1 res = QTree.stepQ (dnt u tr) 2 ssd :=
          hdres1.trans (by rw [hdtr1])
        have sF := Step1.insertMemo (D := 2) wf1 s1.ms hmiss1
          (by omega) (by omega) hvtr1 rfl hvres hdres1
        exact ⟨s1.comp sF, validAt_consMemo hvres, hdres2⟩
      · obtain ⟨d, rfl⟩ : ∃ d, n = d + 2 := ⟨n - 2, by omega⟩
        rw [show d + 2 + 1 = d + 3 from rfl] at hm hv ⊢
        have hstepf : StepFOK (fun u l2 => Universe.step u l2 (d + 2) ssd)
            d ssd := by
          intro v tw w m hvv
          exact ih v tw w m hvv (by omega)
        obtain ⟨s9, hvtr9, hdtr9, hN9⟩ := nineReframes_spec wf ms hv
        rcases h9 : Universe.nineReframes u tr with ⟨u9, t9⟩
        rw [h9] at s9 hvtr9 hdtr9 hN9
        dsimp only at s9 hvtr9 hdtr9 hN9
        have hstep := step_miss_succ3 u tr d ssd hm
        rw [h9] at hstep
        dsimp only at hstep
        by_cases hss : d + 3 ≤ ssd
        · obtain ⟨sN, hNN⟩ := nineSteps_spec hstepf s9.wf s9.ms hN9
          rcases hB : Universe.nineSteps
              (fun u l2 => Universe.step u l2 (d + 2) ssd) u9 t9
            with ⟨uB, nB⟩
          rw [hB] at sN hNN
          dsimp only at sN hNN
          obtain ⟨hvtrB, hdtrB⟩ := sN.ext.keep_pair s9.wf hvtr9 hdtr9
          obtain ⟨sT, hvT, hdT⟩ := stepTail_spec hstepf sN.wf sN.ms hNN
          rcases hT : Universe.stepTail
              (fun u l2 => Universe.step u l2 (d + 2) ssd) uB nB
            with ⟨uT, res⟩
          rw [hT] at sT hvT hdT
          dsimp only at sT hvT hdT
          obtain ⟨hvtrT, hdtrT⟩ := sT.ext.keep_pair sN.wf hvtrB hdtrB
          rw [if_pos hss] at hstep
          rw [hB] at hstep
          dsimp only at hstep
          rw [hT] at hstep
          dsimp only at hstep
          rw [hstep]
          have sAll : Step1 u uT ssd (d + 2) := (s9.comp sN).comp sT
          have hmissT : alookup uT.next_gen (tr, decide (d + 3 ≤ ssd)) =
              none := by
            cases hq : alookup uT.next_gen (tr, decide (d + 3 ≤ ssd)) with
            | none => rfl
            | some rr =>
              exfalso
              rcases sAll.nb _ rr hq with hold | ⟨w, hw1, hw2, hwa⟩
              · rw [hm] at hold
                exact Option.noConfusion hold
              · have hwa' : validAt uT tr w := hwa
                have : w = d + 3 := uni_unique hwa'.2 hvtrT.2
                omega
          have hdRes : dnt uT res = QTree.stepQ (dnt uT tr) (d + 3) ssd := by
            rw [hdT, hdtrT, stepQ_succ3]
            simp only [if_pos hss]
            rfl
          have hdRes2 : dnt uT res = QTree.stepQ (dnt u tr) (d + 3) ssd :=
            hdRes.trans (by rw [hdtrT])
          have sC := Step1.insertMemo (D := d + 3) sT.wf sT.ms hmissT
            (by omega) (by omega) hvtrT rfl hvT hdRes
          exact ⟨(sAll.weaken (by omega)).comp sC, validAt_consMemo hvT,
            hdRes2⟩
        · obtain ⟨sN, hNN⟩ := nineCentres_spec s9.wf s9.ms hN9
          rcases hB : Universe.nineCentres u9 t9 with ⟨uB, nB⟩
          rw [hB] at sN hNN
          dsimp only at sN hNN
          obtain ⟨hvtrB, hdtrB⟩ := sN.ext.keep_pair s9.wf hvtr9 hdtr9
          obtain ⟨sT, hvT, hdT⟩ := stepTail_spec hstepf sN.wf sN.ms hNN
          rcases hT : Universe.stepTail
              (fun u l2 => Universe.step u l2 (d + 2) ssd) uB nB
            with ⟨uT, res⟩
          rw [hT] at sT hvT hdT
          dsimp only at sT hvT hdT
          obtain ⟨hvtrT, hdtrT⟩ := sT.ext.keep_pair sN.wf hvtrB hdtrB
          rw [if_neg hss] at hstep
          rw [hB] at hstep
          dsimp only at hstep
          rw [hT] at hstep
          dsimp only at hstep
          rw [hstep]
          have sAll : Step1 u uT ssd (d + 2) := (s9.comp sN).comp sT
          have hmissT : alookup uT.next_gen (tr, decide (d + 3 ≤ ssd)) =
              none := by
            cases hq : alookup uT.next_gen (tr, decide (d + 3 ≤ ssd)) with
            | none => rfl
            | some rr =>
              exfalso
              rcases sAll.nb _ rr hq with hold | ⟨w, hw1, hw2, hwa⟩
              · rw [hm] at hold
                exact Option.noConfusion hold
              · have hwa' : validAt uT tr w := hwa
                have : w = d + 3 := uni_unique hwa'.2 hvtrT.2
                omega
          have hdRes : dnt uT res = QTree.stepQ (dnt uT tr) (d + 3) ssd := by
            rw [hdT, hdtrT, stepQ_succ3]
            simp only [if_neg hss]
            rfl
          have hdRes2 : dnt uT res = QTree.stepQ (dnt u tr) (d + 3) ssd :=
            hdRes.trans (by rw [hdtrT])
          have sC := Step1.insertMemo (D := d + 3) sT.wf sT.ms hmissT
            (by omega) (by omega) hvtrT rfl hvT hdRes
          exact ⟨(sAll.weaken (by omega)).comp sC, validAt_consMemo hvT,
            hdRes2⟩


/-- The B3/S23 rule on one cell given its number of live neighbours. -/
def lifeRule (alive : Bool) (n : Nat) : Bool :=
  if alive then decide (n = 2 ∨ n = 3) else decide (n = 3)

/-- Number of live neighbours of `q` in the world `w`. -/
def liveNbrs (w : Int × Int → Bool) (q : Int × Int) : Nat :=
  (neighbours q).countP w

/-- One synchronous Life generation on an unbounded world. -/
def lifeStep (w : Int × Int → Bool) : Int × Int → Bool :=
  fun q => lifeRule (w q) (liveNbrs w q)

/-- Translation of a world by an offset. -/
def shiftW (c : Int × Int) (w : Int × Int → Bool) : Int × Int → Bool :=
  fun q => w (q.1 + c.1, q.2 + c.2)

/-- One axis of the span of a depth-`z` tree:
`[-2 ^ (z - 1), 2 ^ (z - 1))`, degenerating to `{0}` at `z = 0`. -/
def Sp : Nat → Int → Prop
  | 0, a => a = 0
  | z + 1, a => -((2 : Int) ^ z) ≤ a ∧ a < (2 : Int) ^ z

instance : ∀ (z : Nat) (a : Int), Decidable (Sp z a)
  | 0, a => by unfold Sp; infer_instance
  | _ + 1, a => by unfold Sp; infer_instance

/-- The half-block offset relating inner coordinates to block corners. -/
def off : Nat → Int
  | 0 => 0
  | s + 1 => (2 : Int) ^ s

theorem within_eq_Sp (y x : Int) (z : Nat) :
    (⟨y, x, z⟩ : P3).within_tree = true ↔ Sp z y ∧ Sp z x := by
  cases z with
  | zero =>
    have hd : (⟨y, x, 0⟩ : P3).within_tree =
        decide ((⟨0, 0, 0⟩ : P3) = ⟨y, x, 0⟩) := rfl
    rw [hd, decide_eq_true_eq]
    constructor
    · intro h
      cases h
      exact ⟨rfl, rfl⟩
    · rintro ⟨h1, h2⟩
      have hy : y = 0 := h1
      have hx : x = 0 := h2
      subst hy
      subst hx
      rfl
  | succ m =>
    unfold P3.within_tree P3.contains P3.origin Sp
    have h1 : ¬ ((0 : Nat) ≥ m + 1) := by omega
    have he : m + 1 - 0 - 1 = m := by omega
    simp only [if_neg h1, he, Int.sub_zero, Bool.and_eq_true,
      decide_eq_true_eq]

theorem descend_one (y x : Int) :
    (⟨y, x, 1⟩ : P3).descend =
      some ((if y < 0 then if x < 0 then 0 else 1
             else if x < 0 then 2 else 3), ⟨0, 0, 0⟩) := rfl

theorem descend_succ2 (y x : Int) (m : Nat) :
    (⟨y, x, m + 2⟩ : P3).descend =
      some ((if y < 0 then if x < 0 then 0 else 1
             else if x < 0 then 2 else 3),
        ⟨y + (if y < 0 then ((2 : Int) ^ m) else -((2 : Int) ^ m)),
         x + (if x < 0 then ((2 : Int) ^ m) else -((2 : Int) ^ m)),
         m + 1⟩) := by
  have h0 : ¬ (m + 1 = 0) := by omega
  have hw : (((2 ^ (m + 2)) / 4 : Nat) : Int) = (2 : Int) ^ m := by
    have h4 : (2 : Nat) ^ (m + 2) = 4 * 2 ^ m := by ring
    rw [h4, Nat.mul_div_cancel_left _ (by norm_num)]
    push_cast
    rfl
  unfold P3.descend
  dsimp only
  rw [if_neg h0, hw]

theorem getQ_succ (t : QTree) (y x : Int) (z : Nat) (i : Nat) (p' : P3)
    (h : (⟨y, x, z + 1⟩ : P3).descend = some (i, p')) (hz : p'.z = z) :
    QTree.getQ t ⟨y, x, z + 1⟩ = QTree.getQ (t.child i) p' := by
  have h1 : QTree.getQ t ⟨y, x, z + 1⟩ =
      (match (⟨y, x, z + 1⟩ : P3).descend with
       | none => t
       | some (i, p') => QTree.getQN z (t.child i) p') := rfl
  rw [h1, h]
  show QTree.getQN z (t.child i) p' = QTree.getQN p'.z (t.child i) p'
  rw [hz]

theorem getQ_zero (t : QTree) (y x : Int) :
    QTree.getQ t ⟨y, x, 0⟩ = t := rfl


theorem Sp_off {s : Nat} {w : Int} (h : Sp s w) :
    0 ≤ w + off s ∧ w + off s < 2 ^ s := by
  cases s with
  | zero =>
    have h0 : w = 0 := h
    subst h0
    norm_num [off]
  | succ m =>
    have h1 : -((2 : Int) ^ m) ≤ w ∧ w < (2 : Int) ^ m := h
    have h2 : ((2 : Int) ^ (m + 1)) = 2 ^ m * 2 := pow_succ 2 m
    have h3 : off (m + 1) = (2 : Int) ^ m := rfl
    rw [h3]
    omega

theorem Sp_one {a : Int} (h : Sp 1 a) : a = -1 ∨ a = 0 := by
  have h1 : -((2 : Int) ^ 0) ≤ a ∧ a < (2 : Int) ^ 0 := h
  norm_num at h1
  omega

theorem Sp_mk {z : Nat} {a : Int} (h1 : -((2 : Int) ^ z) ≤ a)
    (h2 : a < (2 : Int) ^ z) : Sp (z + 1) a := ⟨h1, h2⟩

theorem Sp_elim {z : Nat} {a : Int} (h : Sp (z + 1) a) :
    -((2 : Int) ^ z) ≤ a ∧ a < (2 : Int) ^ z := h

set_option maxHeartbeats 1000000 in
theorem getQ_sub : ∀ (zsrc s : Nat) (t : QTree), 1 ≤ zsrc →
    QTree.uni (zsrc + s) t = true → ∀ qy qx : Int, Sp zsrc qy →
    Sp zsrc qx →
    QTree.uni s (t.getQ ⟨qy, qx, zsrc⟩) = true ∧
    ∀ wy wx : Int, Sp s wy → Sp s wx →
      QTree.getQ (t.getQ ⟨qy, qx, zsrc⟩) ⟨wy, wx, s⟩ =
        t.getQ ⟨qy * 2 ^ s + wy + off s, qx * 2 ^ s + wx + off s,
          zsrc + s⟩ := by
  intro zsrc
  induction zsrc with
  | zero =>
    intro s t h1
    exact absurd h1 (by omega)
  | succ n ih =>
    rcases Nat.eq_zero_or_pos n with hn | hn
    · subst hn
      intro s t h1 hu qy qx hqy hqx
      have hu1 : QTree.uni (s + 1) t = true := by
        rw [show s + 1 = 0 + 1 + s by omega]
        exact hu
      obtain ⟨a, b, c, d, rfl, ha, hb, hc, hd⟩ := uni_succ hu1
      rw [show (0 : Nat) + 1 = 1 from rfl] at hqy hqx ⊢
      rcases Sp_one hqy with hqy1 | hqy1 <;> rcases Sp_one hqx with hqx1 | hqx1
      · -- qy = -1, qx = -1
        subst hqy1
        subst hqx1
        have hsub : (QTree.branch a b c d).getQ ⟨-1, -1, 1⟩ = a := by
          rw [getQ_succ (QTree.branch a b c d) (-1) (-1) 0 0 ⟨0, 0, 0⟩ ?_ rfl]
          · rfl
          · rw [descend_one]
            rw [if_pos (show (-1 : Int) < 0 by norm_num), if_pos (show (-1 : Int) < 0 by norm_num)]
        refine ⟨by rw [hsub]; exact ha, ?_⟩
        intro wy wx hwy hwx
        rw [hsub]
        cases s with
        | zero =>
          have hwy0 : wy = 0 := hwy
          have hwx0 : wx = 0 := hwx
          subst hwy0
          subst hwx0
          rw [getQ_zero]
          have e1 : ((-1 : Int) * 2 ^ 0 + 0 + off 0) = -1 := by
            norm_num [off]
          have e2 : ((-1 : Int) * 2 ^ 0 + 0 + off 0) = -1 := by
            norm_num [off]
          rw [e1]
          exact hsub.symm
        | succ m =>
          have hwy' := Sp_elim hwy
          have hwx' := Sp_elim hwx
          have hp : (0 : Int) < 2 ^ m := by positivity
          have hoff : off (m + 1) = (2 : Int) ^ m := rfl
          have hpow : ((2 : Int) ^ (m + 1)) = 2 ^ m * 2 := pow_succ 2 m
          have hd : (⟨(-1 : Int) * 2 ^ (m + 1) + wy + off (m + 1),
              (-1 : Int) * 2 ^ (m + 1) + wx + off (m + 1), m + 2⟩ :
                P3).descend =
              some (0, ⟨wy, wx, m + 1⟩) := by
            rw [descend_succ2]
            have hys : (-1 : Int) * 2 ^ (m + 1) + wy + off (m + 1) < 0 := by
              rw [hoff]
              omega
            have hxs : (-1 : Int) * 2 ^ (m + 1) + wx + off (m + 1) < 0 := by
              rw [hoff]
              omega
            rw [if_pos hys, if_pos hxs]
            simp only [Option.some.injEq, Prod.mk.injEq, P3.mk.injEq]
            refine ⟨trivial, ?_, ?_, trivial⟩
            · rw [hoff]
              omega
            · rw [hoff]
              omega
          have hz1 : (1 : Nat) + (m + 1) = m + 2 := by omega
          rw [hz1]
          rw [getQ_succ (QTree.branch a b c d) _ _ (m + 1) 0 ⟨wy, wx, m + 1⟩ hd rfl]
          rfl

      · -- qy = -1, qx = 0
        subst hqy1
        subst hqx1
        have hsub : (QTree.branch a b c d).getQ ⟨-1, 0, 1⟩ = b := by
          rw [getQ_succ (QTree.branch a b c d) (-1) 0 0 1 ⟨0, 0, 0⟩ ?_ rfl]
          · rfl
          · rw [descend_one]
            rw [if_pos (show (-1 : Int) < 0 by norm_num), if_neg (show ¬ ((0 : Int) < 0) by norm_num)]
        refine ⟨by rw [hsub]; exact hb, ?_⟩
        intro wy wx hwy hwx
        rw [hsub]
        cases s with
        | zero =>
          have hwy0 : wy = 0 := hwy
          have hwx0 : wx = 0 := hwx
          subst hwy0
          subst hwx0
          rw [getQ_zero]
          have e1 : ((-1 : Int) * 2 ^ 0 + 0 + off 0) = -1 := by
            norm_num [off]
          have e2 : ((0 : Int) * 2 ^ 0 + 0 + off 0) = 0 := by
            norm_num [off]
          rw [e1, e2]
          exact hsub.symm
        | succ m =>
          have hwy' := Sp_elim hwy
          have hwx' := Sp_elim hwx
          have hp : (0 : Int) < 2 ^ m := by positivity
          have hoff : off (m + 1) = (2 : Int) ^ m := rfl
          have hpow : ((2 : Int) ^ (m + 1)) = 2 ^ m * 2 := pow_succ 2 m
          have hd : (⟨(-1 : Int) * 2 ^ (m + 1) + wy + off (m + 1),
              (0 : Int) * 2 ^ (m + 1) + wx + off (m + 1), m + 2⟩ :
                P3).descend =
              some (1, ⟨wy, wx, m + 1⟩) := by
            rw [descend_succ2]
            have hys : (-1 : Int) * 2 ^ (m + 1) + wy + off (m + 1) < 0 := by
              rw [hoff]
              omega
            have hxs : ¬ ((0 : Int) * 2 ^ (m + 1) + wx + off (m + 1) < 0) := by
              rw [hoff]
              omega
            rw [if_pos hys, if_neg hxs]
            simp only [Option.some.injEq, Prod.mk.injEq, P3.mk.injEq]
            refine ⟨trivial, ?_, ?_, trivial⟩
            · rw [hoff]
              omega
            · rw [hoff]
              omega
          have hz1 : (1 : Nat) + (m + 1) = m + 2 := by omega
          rw [hz1]
          rw [getQ_succ (QTree.branch a b c d) _ _ (m + 1) 1 ⟨wy, wx, m + 1⟩ hd rfl]
          rfl

      · -- qy = 0, qx = -1
        subst hqy1
        subst hqx1
        have hsub : (QTree.branch a b c d).getQ ⟨0, -1, 1⟩ = c := by
          rw [getQ_succ (QTree.branch a b c d) 0 (-1) 0 2 ⟨0, 0, 0⟩ ?_ rfl]
          · rfl
          · rw [descend_one]
            rw [if_neg (show ¬ ((0 : Int) < 0) by norm_num), if_pos (show (-1 : Int) < 0 by norm_num)]
        refine ⟨by rw [hsub]; exact hc, ?_⟩
        intro wy wx hwy hwx
        rw [hsub]
        cases s with
        | zero =>
          have hwy0 : wy = 0 := hwy
          have hwx0 : wx = 0 := hwx
          subst hwy0
          subst hwx0
          rw [getQ_zero]
          have e1 : ((0 : Int) * 2 ^ 0 + 0 + off 0) = 0 := by
            norm_num [off]
          have e2 : ((-1 : Int) * 2 ^ 0 + 0 + off 0) = -1 := by
            norm_num [off]
          rw [e1, e2]
          exact hsub.symm
        | succ m =>
          have hwy' := Sp_elim hwy
          have hwx' := Sp_elim hwx
          have hp : (0 : Int) < 2 ^ m := by positivity
          have hoff : off (m + 1) = (2 : Int) ^ m := rfl
          have hpow : ((2 : Int) ^ (m + 1)) = 2 ^ m * 2 := pow_succ 2 m
          have hd : (⟨(0 : Int) * 2 ^ (m + 1) + wy + off (m + 1),
              (-1 : Int) * 2 ^ (m + 1) + wx + off (m + 1), m + 2⟩ :
                P3).descend =
              some (2, ⟨wy, wx, m + 1⟩) := by
            rw [descend_succ2]
            have hys : ¬ ((0 : Int) * 2 ^ (m + 1) + wy + off (m + 1) < 0) := by
              rw [hoff]
              omega
            have hxs : (-1 : Int) * 2 ^ (m + 1) + wx + off (m + 1) < 0 := by
              rw [hoff]
              omega
            rw [if_neg hys, if_pos hxs]
            simp only [Option.some.injEq, Prod.mk.injEq, P3.mk.injEq]
            refine ⟨trivial, ?_, ?_, trivial⟩
            · rw [hoff]
              omega
            · rw [hoff]
              omega
          have hz1 : (1 : Nat) + (m + 1) = m + 2 := by omega
          rw [hz1]
          rw [getQ_succ (QTree.branch a b c d) _ _ (m + 1) 2 ⟨wy, wx, m + 1⟩ hd rfl]
          rfl

      · -- qy = 0, qx = 0
        subst hqy1
        subst hqx1
        have hsub : (QTree.branch a b c d).getQ ⟨0, 0, 1⟩ = d := by
          rw [getQ_succ (QTree.branch a b c d) 0 0 0 3 ⟨0, 0, 0⟩ ?_ rfl]
          · rfl
          · rw [descend_one]
            rw [if_neg (show ¬ ((0 : Int) < 0) by norm_num), if_neg (show ¬ ((0 : Int) < 0) by norm_num)]
        refine ⟨by rw [hsub]; exact hd, ?_⟩
        intro wy wx hwy hwx
        rw [hsub]
        cases s with
        | zero =>
          have hwy0 : wy = 0 := hwy
          have hwx0 : wx = 0 := hwx
          subst hwy0
          subst hwx0
          rw [getQ_zero]
          have e1 : ((0 : Int) * 2 ^ 0 + 0 + off 0) = 0 := by
            norm_num [off]
          have e2 : ((0 : Int) * 2 ^ 0 + 0 + off 0) = 0 := by
            norm_num [off]
          rw [e1]
          exact hsub.symm
        | succ m =>
          have hwy' := Sp_elim hwy
          have hwx' := Sp_elim hwx
          have hp : (0 : Int) < 2 ^ m := by positivity
          have hoff : off (m + 1) = (2 : Int) ^ m := rfl
          have hpow : ((2 : Int) ^ (m + 1)) = 2 ^ m * 2 := pow_succ 2 m
          have hd : (⟨(0 : Int) * 2 ^ (m + 1) + wy + off (m + 1),
              (0 : Int) * 2 ^ (m + 1) + wx + off (m + 1), m + 2⟩ :
                P3).descend =
              some (3, ⟨wy, wx, m + 1⟩) := by
            rw [descend_succ2]
            have hys : ¬ ((0 : Int) * 2 ^ (m + 1) + wy + off (m + 1) < 0) := by
              rw [hoff]
              omega
            have hxs : ¬ ((0 : Int) * 2 ^ (m + 1) + wx + off (m + 1) < 0) := by
              rw [hoff]
              omega
            rw [if_neg hys, if_neg hxs]
            simp only [Option.some.injEq, Prod.mk.injEq, P3.mk.injEq]
            refine ⟨trivial, ?_, ?_, trivial⟩
            · rw [hoff]
              omega
            · rw [hoff]
              omega
          have hz1 : (1 : Nat) + (m + 1) = m + 2 := by omega
          rw [hz1]
          rw [getQ_succ (QTree.branch a b c d) _ _ (m + 1) 3 ⟨wy, wx, m + 1⟩ hd rfl]
          rfl

    · obtain ⟨m, rfl⟩ : ∃ m, n = m + 1 := ⟨n - 1, by omega⟩
      intro s t h1 hu qy qx hqy hqx
      rw [show m + 1 + 1 = m + 2 from rfl] at hqy hqx ⊢
      have hu1 : QTree.uni ((m + 1 + s) + 1) t = true := by
        rw [show (m + 1 + s) + 1 = m + 1 + 1 + s by omega]
        exact hu
      obtain ⟨a, b, c, d, rfl, ha, hb, hc, hd⟩ := uni_succ hu1
      have hqy' := Sp_elim hqy
      have hqx' := Sp_elim hqx
      have hpm : (0 : Int) < 2 ^ m := by positivity
      have hpow : ((2 : Int) ^ (m + 1)) = 2 ^ m * 2 := pow_succ 2 m
      rcases lt_or_ge qy 0 with hy0 | hy0 <;> rcases lt_or_ge qx 0 with hx0 | hx0
      · have hd0 : (⟨qy, qx, m + 2⟩ : P3).descend =
            some (0, ⟨qy + 2 ^ m, qx + 2 ^ m, m + 1⟩) := by
          rw [descend_succ2]
          rw [if_pos hy0, if_pos hx0]
          simp only [Option.some.injEq, Prod.mk.injEq, P3.mk.injEq]
          refine ⟨trivial, by omega, by omega, trivial⟩
        have hsub : (QTree.branch a b c d).getQ ⟨qy, qx, m + 2⟩ =
            QTree.getQ a ⟨qy + 2 ^ m, qx + 2 ^ m, m + 1⟩ := by
          rw [getQ_succ _ _ _ (m + 1) 0 _ hd0 rfl]
          rfl
        have hSpy : Sp (m + 1) (qy + 2 ^ m) := Sp_mk (by omega) (by omega)
        have hSpx : Sp (m + 1) (qx + 2 ^ m) := Sp_mk (by omega) (by omega)
        obtain ⟨hu2, hf2⟩ := ih s a (by omega) ha (qy + 2 ^ m) (qx + 2 ^ m)
          hSpy hSpx
        refine ⟨by rw [hsub]; exact hu2, ?_⟩
        intro wy wx hwy hwx
        rw [hsub, hf2 wy wx hwy hwx]
        obtain ⟨ho1, ho2⟩ := Sp_off hwy
        obtain ⟨ho3, ho4⟩ := Sp_off hwx
        have hps : (0 : Int) < 2 ^ s := by positivity
        have hys : qy * 2 ^ s + wy + off s < 0 := by
          have hm1 : qy ≤ -1 := by omega
          have hm2 : qy * 2 ^ s ≤ -1 * 2 ^ s :=
            mul_le_mul_of_nonneg_right hm1 (le_of_lt hps)
          omega
        have hxs : qx * 2 ^ s + wx + off s < 0 := by
          have hm1 : qx ≤ -1 := by omega
          have hm2 : qx * 2 ^ s ≤ -1 * 2 ^ s :=
            mul_le_mul_of_nonneg_right hm1 (le_of_lt hps)
          omega
        have hdR : (⟨qy * 2 ^ s + wy + off s, qx * 2 ^ s + wx + off s,
            m + s + 2⟩ : P3).descend =
            some (0, ⟨(qy + 2 ^ m) * 2 ^ s + wy + off s,
              (qx + 2 ^ m) * 2 ^ s + wx + off s, m + s + 1⟩) := by
          rw [descend_succ2]
          simp only [if_pos hys, if_pos hxs]
          simp only [Option.some.injEq, Prod.mk.injEq, P3.mk.injEq]
          refine ⟨trivial, ?_, ?_, trivial⟩
          · rw [pow_add]
            ring
          · rw [pow_add]
            ring
        rw [show m + 2 + s = m + s + 2 by omega]
        rw [getQ_succ (QTree.branch a b c d) _ _ (m + s + 1) 0 _ hdR rfl]
        rw [show m + 1 + s = m + s + 1 by omega]
        rfl

      · have hd0 : (⟨qy, qx, m + 2⟩ : P3).descend =
            some (1, ⟨qy + 2 ^ m, qx - 2 ^ m, m + 1⟩) := by
          rw [descend_succ2]
          rw [if_pos hy0, if_neg (not_lt.mpr hx0)]
          simp only [Option.some.injEq, Prod.mk.injEq, P3.mk.injEq]
          refine ⟨trivial, by omega, by omega, trivial⟩
        have hsub : (QTree.branch a b c d).getQ ⟨qy, qx, m + 2⟩ =
            QTree.getQ b ⟨qy + 2 ^ m, qx - 2 ^ m, m + 1⟩ := by
          rw [getQ_succ _ _ _ (m + 1) 1 _ hd0 rfl]
          rfl
        have hSpy : Sp (m + 1) (qy + 2 ^ m) := Sp_mk (by omega) (by omega)
        have hSpx : Sp (m + 1) (qx - 2 ^ m) := Sp_mk (by omega) (by omega)
        obtain ⟨hu2, hf2⟩ := ih s b (by omega) hb (qy + 2 ^ m) (qx - 2 ^ m)
          hSpy hSpx
        refine ⟨by rw [hsub]; exact hu2, ?_⟩
        intro wy wx hwy hwx
        rw [hsub, hf2 wy wx hwy hwx]
        obtain ⟨ho1, ho2⟩ := Sp_off hwy
        obtain ⟨ho3, ho4⟩ := Sp_off hwx
        have hps : (0 : Int) < 2 ^ s := by positivity
        have hys : qy * 2 ^ s + wy + off s < 0 := by
          have hm1 : qy ≤ -1 := by omega
          have hm2 : qy * 2 ^ s ≤ -1 * 2 ^ s :=
            mul_le_mul_of_nonneg_right hm1 (le_of_lt hps)
          omega
        have hxs : ¬ (qx * 2 ^ s + wx + off s < 0) := by
          have hm2 : 0 ≤ qx * 2 ^ s :=
            mul_nonneg hx0 (le_of_lt hps)
          omega
        have hdR : (⟨qy * 2 ^ s + wy + off s, qx * 2 ^ s + wx + off s,
            m + s + 2⟩ : P3).descend =
            some (1, ⟨(qy + 2 ^ m) * 2 ^ s + wy + off s,
              (qx - 2 ^ m) * 2 ^ s + wx + off s, m + s + 1⟩) := by
          rw [descend_succ2]
          simp only [if_pos hys, if_neg hxs]
          simp only [Option.some.injEq, Prod.mk.injEq, P3.mk.injEq]
          refine ⟨trivial, ?_, ?_, trivial⟩
          · rw [pow_add]
            ring
          · rw [pow_add]
            ring
        rw [show m + 2 + s = m + s + 2 by omega]
        rw [getQ_succ (QTree.branch a b c d) _ _ (m + s + 1) 1 _ hdR rfl]
        rw [show m + 1 + s = m + s + 1 by omega]
        rfl

      · have hd0 : (⟨qy, qx, m + 2⟩ : P3).descend =
            some (2, ⟨qy - 2 ^ m, qx + 2 ^ m, m + 1⟩) := by
          rw [descend_succ2]
          rw [if_neg (not_lt.mpr hy0), if_pos hx0]
          simp only [Option.some.injEq, Prod.mk.injEq, P3.mk.injEq]
          refine ⟨trivial, by omega, by omega, trivial⟩
        have hsub : (QTree.branch a b c d).getQ ⟨qy, qx, m + 2⟩ =
            QTree.getQ c ⟨qy - 2 ^ m, qx + 2 ^ m, m + 1⟩ := by
          rw [getQ_succ _ _ _ (m + 1) 2 _ hd0 rfl]
          rfl
        have hSpy : Sp (m + 1) (qy - 2 ^ m) := Sp_mk (by omega) (by omega)
        have hSpx : Sp (m + 1) (qx + 2 ^ m) := Sp_mk (by omega) (by omega)
        obtain ⟨hu2, hf2⟩ := ih s c (by omega) hc (qy - 2 ^ m) (qx + 2 ^ m)
          hSpy hSpx
        refine ⟨by rw [hsub]; exact hu2, ?_⟩
        intro wy wx hwy hwx
        rw [hsub, hf2 wy wx hwy hwx]
        obtain ⟨ho1, ho2⟩ := Sp_off hwy
        obtain ⟨ho3, ho4⟩ := Sp_off hwx
        have hps : (0 : Int) < 2 ^ s := by positivity
        have hys : ¬ (qy * 2 ^ s + wy + off s < 0) := by
          have hm2 : 0 ≤ qy * 2 ^ s :=
            mul_nonneg hy0 (le_of_lt hps)
          omega
        have hxs : qx * 2 ^ s + wx + off s < 0 := by
          have hm1 : qx ≤ -1 := by omega
          have hm2 : qx * 2 ^ s ≤ -1 * 2 ^ s :=
            mul_le_mul_of_nonneg_right hm1 (le_of_lt hps)
          omega
        have hdR : (⟨qy * 2 ^ s + wy + off s, qx * 2 ^ s + wx + off s,
            m + s + 2⟩ : P3).descend =
            some (2, ⟨(qy - 2 ^ m) * 2 ^ s + wy + off s,
              (qx + 2 ^ m) * 2 ^ s + wx + off s, m + s + 1⟩) := by
          rw [descend_succ2]
          simp only [if_neg hys, if_pos hxs]
          simp only [Option.some.injEq, Prod.mk.injEq, P3.mk.injEq]
          refine ⟨trivial, ?_, ?_, trivial⟩
          · rw [pow_add]
            ring
          · rw [pow_add]
            ring
        rw [show m + 2 + s = m + s + 2 by omega]
        rw [getQ_succ (QTree.branch a b c d) _ _ (m + s + 1) 2 _ hdR rfl]
        rw [show m + 1 + s = m + s + 1 by omega]
        rfl

      · have hd0 : (⟨qy, qx, m + 2⟩ : P3).descend =
            some (3, ⟨qy - 2 ^ m, qx - 2 ^ m, m + 1⟩) := by
          rw [descend_succ2]
          rw [if_neg (not_lt.mpr hy0), if_neg (not_lt.mpr hx0)]
          simp only [Option.some.injEq, Prod.mk.injEq, P3.mk.injEq]
          refine ⟨trivial, by omega, by omega, trivial⟩
        have hsub : (QTree.branch a b c d).getQ ⟨qy, qx, m + 2⟩ =
            QTree.getQ d ⟨qy - 2 ^ m, qx - 2 ^ m, m + 1⟩ := by
          rw [getQ_succ _ _ _ (m + 1) 3 _ hd0 rfl]
          rfl
        have hSpy : Sp (m + 1) (qy - 2 ^ m) := Sp_mk (by omega) (by omega)
        have hSpx : Sp (m + 1) (qx - 2 ^ m) := Sp_mk (by omega) (by omega)
        obtain ⟨hu2, hf2⟩ := ih s d (by omega) hd (qy - 2 ^ m) (qx - 2 ^ m)
          hSpy hSpx
        refine ⟨by rw [hsub]; exact hu2, ?_⟩
        intro wy wx hwy hwx
        rw [hsub, hf2 wy wx hwy hwx]
        obtain ⟨ho1, ho2⟩ := Sp_off hwy
        obtain ⟨ho3, ho4⟩ := Sp_off hwx
        have hps : (0 : Int) < 2 ^ s := by positivity
        have hys : ¬ (qy * 2 ^ s + wy + off s < 0) := by
          have hm2 : 0 ≤ qy * 2 ^ s :=
            mul_nonneg hy0 (le_of_lt hps)
          omega
        have hxs : ¬ (qx * 2 ^ s + wx + off s < 0) := by
          have hm2 : 0 ≤ qx * 2 ^ s :=
            mul_nonneg hx0 (le_of_lt hps)
          omega
        have hdR : (⟨qy * 2 ^ s + wy + off s, qx * 2 ^ s + wx + off s,
            m + s + 2⟩ : P3).descend =
            some (3, ⟨(qy - 2 ^ m) * 2 ^ s + wy + off s,
              (qx - 2 ^ m) * 2 ^ s + wx + off s, m + s + 1⟩) := by
          rw [descend_succ2]
          simp only [if_neg hys, if_neg hxs]
          simp only [Option.some.injEq, Prod.mk.injEq, P3.mk.injEq]
          refine ⟨trivial, ?_, ?_, trivial⟩
          · rw [pow_add]
            ring
          · rw [pow_add]
            ring
        rw [show m + 2 + s = m + s + 2 by omega]
        rw [getQ_succ (QTree.branch a b c d) _ _ (m + s + 1) 3 _ hdR rfl]
        rw [show m + 1 + s = m + s + 1 by omega]
        rfl



/-- Chebyshev ball of radius `n` about `q`. -/
def Near (n : Nat) (q p : Int × Int) : Prop :=
  p.1 - q.1 ≤ n ∧ q.1 - p.1 ≤ n ∧ p.2 - q.2 ≤ n ∧ q.2 - p.2 ≤ n

theorem neighbours_bounds {p r : Int × Int} (h : r ∈ neighbours p) :
    p.1 - 1 ≤ r.1 ∧ r.1 ≤ p.1 + 1 ∧ p.2 - 1 ≤ r.2 ∧ r.2 ≤ p.2 + 1 := by
  simp only [neighbours, neighbourOffsets, List.map_cons, List.map_nil,
    List.mem_cons, List.not_mem_nil, or_false] at h
  rcases h with h | h | h | h | h | h | h | h <;>
    (subst h; refine ⟨by omega, by omega, by omega, by omega⟩)

theorem liveNbrs_congr {w1 w2 : Int × Int → Bool} {q : Int × Int}
    (h : ∀ p ∈ neighbours q, w1 p = w2 p) :
    liveNbrs w1 q = liveNbrs w2 q := by
  unfold liveNbrs
  apply List.countP_congr
  intro p hp
  rw [h p hp]

theorem lifeStep_eq_of_agree {w1 w2 : Int × Int → Bool} {q : Int × Int}
    (hq : w1 q = w2 q) (hn : ∀ p ∈ neighbours q, w1 p = w2 p) :
    lifeStep w1 q = lifeStep w2 q := by
  unfold lifeStep
  rw [hq, liveNbrs_congr hn]

/-- Light-cone locality: `n` Life steps at `q` only read the initial world
within Chebyshev distance `n`. -/
theorem iterate_agree : ∀ (n : Nat) (w1 w2 : Int × Int → Bool)
    (q : Int × Int), (∀ p, Near n q p → w1 p = w2 p) →
    (lifeStep^[n]) w1 q = (lifeStep^[n]) w2 q := by
  intro n
  induction n with
  | zero =>
    intro w1 w2 q h
    exact h q ⟨by omega, by omega, by omega, by omega⟩
  | succ n ih =>
    intro w1 w2 q h
    rw [Function.iterate_succ_apply, Function.iterate_succ_apply]
    apply ih
    intro p hp
    apply lifeStep_eq_of_agree
    · refine h p ⟨?_, ?_, ?_, ?_⟩ <;>
        · obtain ⟨h1, h2, h3, h4⟩ := hp
          push_cast at h1 h2 h3 h4 ⊢
          omega
    · intro r hr
      obtain ⟨b1, b2, b3, b4⟩ := neighbours_bounds hr
      refine h r ⟨?_, ?_, ?_, ?_⟩ <;>
        · obtain ⟨h1, h2, h3, h4⟩ := hp
          push_cast at h1 h2 h3 h4 ⊢
          omega

theorem liveNbrs_shift (c : Int × Int) (w : Int × Int → Bool)
    (q : Int × Int) :
    liveNbrs (shiftW c w) q = liveNbrs w (q.1 + c.1, q.2 + c.2) := by
  unfold liveNbrs neighbours shiftW
  rw [List.countP_map, List.countP_map]
  apply List.countP_congr
  intro d hd
  show w (q.1 + d.1 + c.1, q.2 + d.2 + c.2) = true ↔
    w ((q.1 + c.1) + d.1, (q.2 + c.2) + d.2) = true
  rw [show (q.1 + d.1 + c.1, q.2 + d.2 + c.2) =
      ((q.1 + c.1) + d.1, (q.2 + c.2) + d.2) from by
    rw [Prod.mk.injEq]
    exact ⟨by ring, by ring⟩]

theorem lifeStep_shift (c : Int × Int) (w : Int × Int → Bool) :
    lifeStep (shiftW c w) = shiftW c (lifeStep w) := by
  funext q
  show lifeRule (shiftW c w q) (liveNbrs (shiftW c w) q) =
    lifeRule (w (q.1 + c.1, q.2 + c.2)) (liveNbrs w (q.1 + c.1, q.2 + c.2))
  rw [liveNbrs_shift]
  rfl

theorem iterate_shift : ∀ (n : Nat) (c : Int × Int)
    (w : Int × Int → Bool),
    (lifeStep^[n]) (shiftW c w) = shiftW c ((lifeStep^[n]) w) := by
  intro n
  induction n with
  | zero => intro c w; rfl
  | succ n ih =>
    intro c w
    rw [Function.iterate_succ_apply, Function.iterate_succ_apply,
      lifeStep_shift, ih]


theorem quadrants_one (y x : Int) :
    (⟨y, x, 1⟩ : P3).quadrants =
      some (⟨y - 1, x - 1, 0⟩, ⟨y - 1, x, 0⟩, ⟨y, x - 1, 0⟩,
        ⟨y, x, 0⟩) := by
  unfold P3.quadrants
  dsimp only
  simp only [Option.some.injEq, Prod.mk.injEq, P3.mk.injEq]
  norm_num
  exact ⟨by ring, by ring⟩

theorem quadrants_succ2 (y x : Int) (m : Nat) :
    (⟨y, x, m + 2⟩ : P3).quadrants =
      some (⟨y - 2 ^ m, x - 2 ^ m, m + 1⟩, ⟨y - 2 ^ m, x + 2 ^ m, m + 1⟩,
        ⟨y + 2 ^ m, x - 2 ^ m, m + 1⟩, ⟨y + 2 ^ m, x + 2 ^ m, m + 1⟩) := by
  unfold P3.quadrants
  dsimp only
  have hpos : (((2 ^ (m + 2)) / 4 : Nat) : Int) = (2 : Int) ^ m := by
    have h4 : (2 : Nat) ^ (m + 2) = 4 * 2 ^ m := by ring
    rw [h4, Nat.mul_div_cancel_left _ (by norm_num)]
    push_cast
    rfl
  have hneg : ((((2 ^ (m + 2) + 3) / 4 : Nat)) : Int) = (2 : Int) ^ m := by
    have h4 : ((2 : Nat) ^ (m + 2) + 3) / 4 = 2 ^ m := by
      have h5 : (2 : Nat) ^ (m + 2) = 4 * 2 ^ m := by ring
      omega
    rw [h4]
    push_cast
    ring
  rw [hpos, hneg]
  simp only [Option.some.injEq, Prod.mk.injEq, P3.mk.injEq]
  refine ⟨⟨by ring, by ring, trivial⟩, ⟨by ring, by ring, trivial⟩,
    ⟨by ring, by ring, trivial⟩, trivial⟩

theorem reframeGoQ_zero (t : QTree) (zsrc f : Nat) (y x : Int) :
    QTree.reframeGoQ t zsrc f ⟨y, x, 0⟩ = t.getQ ⟨y, x, zsrc⟩ := by
  cases f with
  | zero => rfl
  | succ f => rfl


set_option maxHeartbeats 2000000 in
theorem reframeGoQ_sub : ∀ (k fuel : Nat), k + 1 ≤ fuel →
    ∀ (zs s : Nat) (t : QTree) (qy qx : Int),
    QTree.uni (zs + 1 + s) t = true →
    -((2 : Int) ^ zs) ≤ qy - 2 ^ k → qy + 2 ^ k ≤ 2 ^ zs →
    -((2 : Int) ^ zs) ≤ qx - 2 ^ k → qx + 2 ^ k ≤ 2 ^ zs →
    QTree.uni (k + 1 + s)
      (QTree.reframeGoQ t (zs + 1) fuel ⟨qy, qx, k + 1⟩) = true ∧
    ∀ wy wx : Int, Sp (k + 1 + s) wy → Sp (k + 1 + s) wx →
      QTree.getQ (QTree.reframeGoQ t (zs + 1) fuel ⟨qy, qx, k + 1⟩)
          ⟨wy, wx, k + 1 + s⟩ =
        t.getQ ⟨qy * 2 ^ s + wy, qx * 2 ^ s + wx, zs + 1 + s⟩ := by
  intro k
  induction k with
  | zero =>
    intro fuel hfl zs s t qy qx hu h1 h2 h3 h4
    obtain ⟨f, rfl⟩ : ∃ f, fuel = f + 1 := ⟨fuel - 1, by omega⟩
    rw [show (0 : Nat) + 1 = 1 from rfl]
    have hp0 : (2 : Int) ^ 0 = 1 := pow_zero 2
    have hbr : QTree.reframeGoQ t (zs + 1) (f + 1) ⟨qy, qx, 1⟩ =
        QTree.branch (t.getQ ⟨qy - 1, qx - 1, zs + 1⟩)
          (t.getQ ⟨qy - 1, qx, zs + 1⟩) (t.getQ ⟨qy, qx - 1, zs + 1⟩)
          (t.getQ ⟨qy, qx, zs + 1⟩) := by
      show (match (⟨qy, qx, 1⟩ : P3).quadrants with
        | none => t.getQ ⟨qy, qx, zs + 1⟩
        | some (q0, q1, q2, q3) =>
          QTree.branch (QTree.reframeGoQ t (zs + 1) f q0)
            (QTree.reframeGoQ t (zs + 1) f q1)
            (QTree.reframeGoQ t (zs + 1) f q2)
            (QTree.reframeGoQ t (zs + 1) f q3)) = _
      rw [quadrants_one]
      dsimp only
      rw [reframeGoQ_zero, reframeGoQ_zero, reframeGoQ_zero,
        reframeGoQ_zero]
    have hSyA : Sp (zs + 1) (qy - 1) := Sp_mk (by omega) (by omega)
    have hSyB : Sp (zs + 1) qy := Sp_mk (by omega) (by omega)
    have hSxA : Sp (zs + 1) (qx - 1) := Sp_mk (by omega) (by omega)
    have hSxB : Sp (zs + 1) qx := Sp_mk (by omega) (by omega)
    obtain ⟨huA, hfA⟩ := getQ_sub (zs + 1) s t (by omega) hu (qy - 1)
      (qx - 1) hSyA hSxA
    obtain ⟨huB, hfB⟩ := getQ_sub (zs + 1) s t (by omega) hu (qy - 1) qx
      hSyA hSxB
    obtain ⟨huC, hfC⟩ := getQ_sub (zs + 1) s t (by omega) hu qy (qx - 1)
      hSyB hSxA
    obtain ⟨huD, hfD⟩ := getQ_sub (zs + 1) s t (by omega) hu qy qx
      hSyB hSxB
    refine ⟨?_, ?_⟩
    · rw [hbr]
      rw [show 1 + s = s + 1 by omega]
      exact uni_branch huA huB huC huD
    intro wy wx hwy hwx
    rw [hbr]
    cases s with
    | zero =>
      rw [show (1 : Nat) + 0 = 1 from rfl] at hwy hwx ⊢
      rw [show (zs : Nat) + 1 + 0 = zs + 1 from rfl]
      rcases Sp_one hwy with hwy1 | hwy1 <;>
        rcases Sp_one hwx with hwx1 | hwx1
      · subst hwy1
        subst hwx1
        have hsubL : QTree.getQ (QTree.branch (t.getQ ⟨qy - 1, qx - 1, zs + 1⟩)
            (t.getQ ⟨qy - 1, qx, zs + 1⟩) (t.getQ ⟨qy, qx - 1, zs + 1⟩)
            (t.getQ ⟨qy, qx, zs + 1⟩)) ⟨-1, -1, 1⟩ = (t.getQ ⟨qy - 1, qx - 1, zs + 1⟩) := by
          rw [getQ_succ _ (-1) (-1) 0 0 ⟨0, 0, 0⟩ ?_ rfl]
          · rfl
          · rw [descend_one]
            rw [if_pos (show (-1 : Int) < 0 by norm_num), if_pos (show (-1 : Int) < 0 by norm_num)]
        rw [hsubL]
        rw [show qy * 2 ^ 0 + (-1 : Int) = qy - 1 by ring,
          show qx * 2 ^ 0 + (-1 : Int) = qx - 1 by ring]
      · subst hwy1
        subst hwx1
        have hsubL : QTree.getQ (QTree.branch (t.getQ ⟨qy - 1, qx - 1, zs + 1⟩)
            (t.getQ ⟨qy - 1, qx, zs + 1⟩) (t.getQ ⟨qy, qx - 1, zs + 1⟩)
            (t.getQ ⟨qy, qx, zs + 1⟩)) ⟨-1, 0, 1⟩ = (t.getQ ⟨qy - 1, qx, zs + 1⟩) := by
          rw [getQ_succ _ (-1) (0) 0 1 ⟨0, 0, 0⟩ ?_ rfl]
          · rfl
          · rw [descend_one]
            rw [if_pos (show (-1 : Int) < 0 by norm_num), if_neg (show ¬ ((0 : Int) < 0) by norm_num)]
        rw [hsubL]
        rw [show qy * 2 ^ 0 + (-1 : Int) = qy - 1 by ring,
          show qx * 2 ^ 0 + (0 : Int) = qx by ring]
      · subst hwy1
        subst hwx1
        have hsubL : QTree.getQ (QTree.branch (t.getQ ⟨qy - 1, qx - 1, zs + 1⟩)
            (t.getQ ⟨qy - 1, qx, zs + 1⟩) (t.getQ ⟨qy, qx - 1, zs + 1⟩)
            (t.getQ ⟨qy, qx, zs + 1⟩)) ⟨0, -1, 1⟩ = (t.getQ ⟨qy, qx - 1, zs + 1⟩) := by
          rw [getQ_succ _ (0) (-1) 0 2 ⟨0, 0, 0⟩ ?_ rfl]
          · rfl
          · rw [descend_one]
            rw [if_neg (show ¬ ((0 : Int) < 0) by norm_num), if_pos (show (-1 : Int) < 0 by norm_num)]
        rw [hsubL]
        rw [show qy * 2 ^ 0 + (0 : Int) = qy by ring,
          show qx * 2 ^ 0 + (-1 : Int) = qx - 1 by ring]
      · subst hwy1
        subst hwx1
        have hsubL : QTree.getQ (QTree.branch (t.getQ ⟨qy - 1, qx - 1, zs + 1⟩)
            (t.getQ ⟨qy - 1, qx, zs + 1⟩) (t.getQ ⟨qy, qx - 1, zs + 1⟩)
            (t.getQ ⟨qy, qx, zs + 1⟩)) ⟨0, 0, 1⟩ = (t.getQ ⟨qy, qx, zs + 1⟩) := by
          rw [getQ_succ _ (0) (0) 0 3 ⟨0, 0, 0⟩ ?_ rfl]
          · rfl
          · rw [descend_one]
            rw [if_neg (show ¬ ((0 : Int) < 0) by norm_num), if_neg (show ¬ ((0 : Int) < 0) by norm_num)]
        rw [hsubL]
        rw [show qy * 2 ^ 0 + (0 : Int) = qy by ring,
          show qx * 2 ^ 0 + (0 : Int) = qx by ring]
    | succ n =>
      rw [show (1 : Nat) + (n + 1) = n + 2 from by omega] at hwy hwx ⊢
      have hwy2 := Sp_elim hwy
      have hwx2 := Sp_elim hwx
      have hpn : (2 : Int) ^ (n + 1) = 2 ^ n * 2 := pow_succ 2 n
      have hpn0 : (0 : Int) < 2 ^ n := by positivity
      rw [show (zs : Nat) + 1 + (n + 1) = zs + 1 + (n + 1) from rfl]
      rcases lt_or_ge wy 0 with hy0 | hy0 <;>
        rcases lt_or_ge wx 0 with hx0 | hx0
      · have hd : (⟨wy, wx, n + 2⟩ : P3).descend =
            some (0, ⟨wy + 2 ^ n, wx + 2 ^ n, n + 1⟩) := by
          rw [descend_succ2]
          simp only [if_pos hy0, if_pos hx0]
        have hsubL : QTree.getQ (QTree.branch
            (t.getQ ⟨qy - 1, qx - 1, zs + 1⟩) (t.getQ ⟨qy - 1, qx, zs + 1⟩)
            (t.getQ ⟨qy, qx - 1, zs + 1⟩) (t.getQ ⟨qy, qx, zs + 1⟩))
            ⟨wy, wx, n + 2⟩ = QTree.getQ (t.getQ ⟨qy - 1, qx - 1, zs + 1⟩) ⟨wy + 2 ^ n, wx + 2 ^ n, n + 1⟩ := by
          rw [getQ_succ _ _ _ (n + 1) 0 _ hd rfl]
          rfl
        rw [hsubL]
        have hSy : Sp (n + 1) (wy + 2 ^ n) := Sp_mk (by omega) (by omega)
        have hSx : Sp (n + 1) (wx + 2 ^ n) := Sp_mk (by omega) (by omega)
        rw [hfA (wy + 2 ^ n) (wx + 2 ^ n) hSy hSx]
        have hco : off (n + 1) = (2 : Int) ^ n := rfl
        rw [show (qy - 1) * 2 ^ (n + 1) + (wy + 2 ^ n) + off (n + 1) =
            qy * 2 ^ (n + 1) + wy from by rw [hco]; ring,
          show (qx - 1) * 2 ^ (n + 1) + (wx + 2 ^ n) + off (n + 1) =
            qx * 2 ^ (n + 1) + wx from by rw [hco]; ring]
      · have hd : (⟨wy, wx, n + 2⟩ : P3).descend =
            some (1, ⟨wy + 2 ^ n, wx - 2 ^ n, n + 1⟩) := by
          rw [descend_succ2]
          simp only [if_pos hy0, if_neg (not_lt.mpr hx0)]
          simp only [Option.some.injEq, Prod.mk.injEq, P3.mk.injEq,
            and_true, true_and]
          omega
        have hsubL : QTree.getQ (QTree.branch
            (t.getQ ⟨qy - 1, qx - 1, zs + 1⟩) (t.getQ ⟨qy - 1, qx, zs + 1⟩)
            (t.getQ ⟨qy, qx - 1, zs + 1⟩) (t.getQ ⟨qy, qx, zs + 1⟩))
            ⟨wy, wx, n + 2⟩ = QTree.getQ (t.getQ ⟨qy - 1, qx, zs + 1⟩) ⟨wy + 2 ^ n, wx - 2 ^ n, n + 1⟩ := by
          rw [getQ_succ _ _ _ (n + 1) 1 _ hd rfl]
          rfl
        rw [hsubL]
        have hSy : Sp (n + 1) (wy + 2 ^ n) := Sp_mk (by omega) (by omega)
        have hSx : Sp (n + 1) (wx - 2 ^ n) := Sp_mk (by omega) (by omega)
        rw [hfB (wy + 2 ^ n) (wx - 2 ^ n) hSy hSx]
        have hco : off (n + 1) = (2 : Int) ^ n := rfl
        rw [show (qy - 1) * 2 ^ (n + 1) + (wy + 2 ^ n) + off (n + 1) =
            qy * 2 ^ (n + 1) + wy from by rw [hco]; ring,
          show (qx) * 2 ^ (n + 1) + (wx - 2 ^ n) + off (n + 1) =
            qx * 2 ^ (n + 1) + wx from by rw [hco]; ring]
      · have hd : (⟨wy, wx, n + 2⟩ : P3).descend =
            some (2, ⟨wy - 2 ^ n, wx + 2 ^ n, n + 1⟩) := by
          rw [descend_succ2]
          simp only [if_neg (not_lt.mpr hy0), if_pos hx0]
          simp only [Option.some.injEq, Prod.mk.injEq, P3.mk.injEq,
            and_true, true_and]
          omega
        have hsubL : QTree.getQ (QTree.branch
            (t.getQ ⟨qy - 1, qx - 1, zs + 1⟩) (t.getQ ⟨qy - 1, qx, zs + 1⟩)
            (t.getQ ⟨qy, qx - 1, zs + 1⟩) (t.getQ ⟨qy, qx, zs + 1⟩))
            ⟨wy, wx, n + 2⟩ = QTree.getQ (t.getQ ⟨qy, qx - 1, zs + 1⟩) ⟨wy - 2 ^ n, wx + 2 ^ n, n + 1⟩ := by
          rw [getQ_succ _ _ _ (n + 1) 2 _ hd rfl]
          rfl
        rw [hsubL]
        have hSy : Sp (n + 1) (wy - 2 ^ n) := Sp_mk (by omega) (by omega)
        have hSx : Sp (n + 1) (wx + 2 ^ n) := Sp_mk (by omega) (by omega)
        rw [hfC (wy - 2 ^ n) (wx + 2 ^ n) hSy hSx]
        have hco : off (n + 1) = (2 : Int) ^ n := rfl
        rw [show (qy) * 2 ^ (n + 1) + (wy - 2 ^ n) + off (n + 1) =
            qy * 2 ^ (n + 1) + wy from by rw [hco]; ring,
          show (qx - 1) * 2 ^ (n + 1) + (wx + 2 ^ n) + off (n + 1) =
            qx * 2 ^ (n + 1) + wx from by rw [hco]; ring]
      · have hd : (⟨wy, wx, n + 2⟩ : P3).descend =
            some (3, ⟨wy - 2 ^ n, wx - 2 ^ n, n + 1⟩) := by
          rw [descend_succ2]
          simp only [if_neg (not_lt.mpr hy0), if_neg (not_lt.mpr hx0)]
          simp only [Option.some.injEq, Prod.mk.injEq, P3.mk.injEq,
            and_true, true_and]
          omega
        have hsubL : QTree.getQ (QTree.branch
            (t.getQ ⟨qy - 1, qx - 1, zs + 1⟩) (t.getQ ⟨qy - 1, qx, zs + 1⟩)
            (t.getQ ⟨qy, qx - 1, zs + 1⟩) (t.getQ ⟨qy, qx, zs + 1⟩))
            ⟨wy, wx, n + 2⟩ = QTree.getQ (t.getQ ⟨qy, qx, zs + 1⟩) ⟨wy - 2 ^ n, wx - 2 ^ n, n + 1⟩ := by
          rw [getQ_succ _ _ _ (n + 1) 3 _ hd rfl]
          rfl
        rw [hsubL]
        have hSy : Sp (n + 1) (wy - 2 ^ n) := Sp_mk (by omega) (by omega)
        have hSx : Sp (n + 1) (wx - 2 ^ n) := Sp_mk (by omega) (by omega)
        rw [hfD (wy - 2 ^ n) (wx - 2 ^ n) hSy hSx]
        have hco : off (n + 1) = (2 : Int) ^ n := rfl
        rw [show (qy) * 2 ^ (n + 1) + (wy - 2 ^ n) + off (n + 1) =
            qy * 2 ^ (n + 1) + wy from by rw [hco]; ring,
          show (qx) * 2 ^ (n + 1) + (wx - 2 ^ n) + off (n + 1) =
            qx * 2 ^ (n + 1) + wx from by rw [hco]; ring]
  | succ j ih =>
    intro fuel hfl zs s t qy qx hu h1 h2 h3 h4
    obtain ⟨f, rfl⟩ : ∃ f, fuel = f + 1 := ⟨fuel - 1, by omega⟩
    rw [show (j : Nat) + 1 + 1 = j + 2 from rfl]
    have hpj : (2 : Int) ^ (j + 1) = 2 ^ j * 2 := pow_succ 2 j
    have hpj0 : (0 : Int) < 2 ^ j := by positivity
    have hbr : QTree.reframeGoQ t (zs + 1) (f + 1) ⟨qy, qx, j + 2⟩ =
        QTree.branch
          (QTree.reframeGoQ t (zs + 1) f ⟨qy - 2 ^ j, qx - 2 ^ j, j + 1⟩)
          (QTree.reframeGoQ t (zs + 1) f ⟨qy - 2 ^ j, qx + 2 ^ j, j + 1⟩)
          (QTree.reframeGoQ t (zs + 1) f ⟨qy + 2 ^ j, qx - 2 ^ j, j + 1⟩)
          (QTree.reframeGoQ t (zs + 1) f ⟨qy + 2 ^ j, qx + 2 ^ j, j + 1⟩)
        := by
      show (match (⟨qy, qx, j + 2⟩ : P3).quadrants with
        | none => t.getQ ⟨qy, qx, zs + 1⟩
        | some (q0, q1, q2, q3) =>
          QTree.branch (QTree.reframeGoQ t (zs + 1) f q0)
            (QTree.reframeGoQ t (zs + 1) f q1)
            (QTree.reframeGoQ t (zs + 1) f q2)
            (QTree.reframeGoQ t (zs + 1) f q3)) = _
      rw [quadrants_succ2]
    obtain ⟨huA, hfA⟩ := ih f (by omega) zs s t (qy - 2 ^ j) (qx - 2 ^ j)
      hu (by omega) (by omega) (by omega) (by omega)
    obtain ⟨huB, hfB⟩ := ih f (by omega) zs s t (qy - 2 ^ j) (qx + 2 ^ j)
      hu (by omega) (by omega) (by omega) (by omega)
    obtain ⟨huC, hfC⟩ := ih f (by omega) zs s t (qy + 2 ^ j) (qx - 2 ^ j)
      hu (by omega) (by omega) (by omega) (by omega)
    obtain ⟨huD, hfD⟩ := ih f (by omega) zs s t (qy + 2 ^ j) (qx + 2 ^ j)
      hu (by omega) (by omega) (by omega) (by omega)
    refine ⟨?_, ?_⟩
    · rw [hbr]
      rw [show j + 2 + s = (j + 1 + s) + 1 by omega]
      exact uni_branch huA huB huC huD
    intro wy wx hwy hwx
    rw [hbr]
    rw [show j + 2 + s = j + s + 2 by omega] at hwy hwx ⊢
    have hwy2 := Sp_elim hwy
    have hwx2 := Sp_elim hwx
    have hpjs : (2 : Int) ^ (j + s + 1) = 2 ^ (j + s) * 2 :=
      pow_succ 2 (j + s)
    have hpjs0 : (0 : Int) < 2 ^ (j + s) := by positivity
    rcases lt_or_ge wy 0 with hy0 | hy0 <;>
      rcases lt_or_ge wx 0 with hx0 | hx0
    · have hd : (⟨wy, wx, j + s + 2⟩ : P3).descend =
          some (0, ⟨wy + 2 ^ (j + s), wx + 2 ^ (j + s), j + s + 1⟩) := by
        rw [descend_succ2]
        simp only [if_pos hy0, if_pos hx0]
      have hsubL : QTree.getQ (QTree.branch
          (QTree.reframeGoQ t (zs + 1) f ⟨qy - 2 ^ j, qx - 2 ^ j, j + 1⟩)
          (QTree.reframeGoQ t (zs + 1) f ⟨qy - 2 ^ j, qx + 2 ^ j, j + 1⟩)
          (QTree.reframeGoQ t (zs + 1) f ⟨qy + 2 ^ j, qx - 2 ^ j, j + 1⟩)
          (QTree.reframeGoQ t (zs + 1) f ⟨qy + 2 ^ j, qx + 2 ^ j, j + 1⟩))
          ⟨wy, wx, j + s + 2⟩ =
          QTree.getQ (QTree.reframeGoQ t (zs + 1) f ⟨qy - 2 ^ j, qx - 2 ^ j, j + 1⟩) ⟨wy + 2 ^ (j + s), wx + 2 ^ (j + s), j + s + 1⟩ := by
        rw [getQ_succ _ _ _ (j + s + 1) 0 _ hd rfl]
        rfl
      rw [hsubL]
      have hSy : Sp (j + 1 + s) (wy + 2 ^ (j + s)) := by
        have h5 : Sp (j + s + 1) (wy + 2 ^ (j + s)) := Sp_mk (by omega) (by omega)
        rw [show j + s + 1 = j + 1 + s by omega] at h5
        exact h5
      have hSx : Sp (j + 1 + s) (wx + 2 ^ (j + s)) := by
        have h5 : Sp (j + s + 1) (wx + 2 ^ (j + s)) := Sp_mk (by omega) (by omega)
        rw [show j + s + 1 = j + 1 + s by omega] at h5
        exact h5
      rw [show (⟨wy + 2 ^ (j + s), wx + 2 ^ (j + s), j + s + 1⟩ : P3) =
          ⟨wy + 2 ^ (j + s), wx + 2 ^ (j + s), j + 1 + s⟩ from by
        rw [show j + s + 1 = j + 1 + s by omega]]
      rw [hfA (wy + 2 ^ (j + s)) (wx + 2 ^ (j + s)) hSy hSx]
      rw [show (qy - 2 ^ j) * 2 ^ s + (wy + 2 ^ (j + s)) = qy * 2 ^ s + wy from by
        rw [pow_add]
        ring,
        show (qx - 2 ^ j) * 2 ^ s + (wx + 2 ^ (j + s)) = qx * 2 ^ s + wx from by
        rw [pow_add]
        ring]
    · have hd : (⟨wy, wx, j + s + 2⟩ : P3).descend =
          some (1, ⟨wy + 2 ^ (j + s), wx - 2 ^ (j + s), j + s + 1⟩) := by
        rw [descend_succ2]
        simp only [if_pos hy0, if_neg (not_lt.mpr hx0)]
        simp only [Option.some.injEq, Prod.mk.injEq, P3.mk.injEq,
          and_true, true_and]
        omega
      have hsubL : QTree.getQ (QTree.branch
          (QTree.reframeGoQ t (zs + 1) f ⟨qy - 2 ^ j, qx - 2 ^ j, j + 1⟩)
          (QTree.reframeGoQ t (zs + 1) f ⟨qy - 2 ^ j, qx + 2 ^ j, j + 1⟩)
          (QTree.reframeGoQ t (zs + 1) f ⟨qy + 2 ^ j, qx - 2 ^ j, j + 1⟩)
          (QTree.reframeGoQ t (zs + 1) f ⟨qy + 2 ^ j, qx + 2 ^ j, j + 1⟩))
          ⟨wy, wx, j + s + 2⟩ =
          QTree.getQ (QTree.reframeGoQ t (zs + 1) f ⟨qy - 2 ^ j, qx + 2 ^ j, j + 1⟩) ⟨wy + 2 ^ (j + s), wx - 2 ^ (j + s), j + s + 1⟩ := by
        rw [getQ_succ _ _ _ (j + s + 1) 1 _ hd rfl]
        rfl
      rw [hsubL]
      have hSy : Sp (j + 1 + s) (wy + 2 ^ (j + s)) := by
        have h5 : Sp (j + s + 1) (wy + 2 ^ (j + s)) := Sp_mk (by omega) (by omega)
        rw [show j + s + 1 = j + 1 + s by omega] at h5
        exact h5
      have hSx : Sp (j + 1 + s) (wx - 2 ^ (j + s)) := by
        have h5 : Sp (j + s + 1) (wx - 2 ^ (j + s)) := Sp_mk (by omega) (by omega)
        rw [show j + s + 1 = j + 1 + s by omega] at h5
        exact h5
      rw [show (⟨wy + 2 ^ (j + s), wx - 2 ^ (j + s), j + s + 1⟩ : P3) =
          ⟨wy + 2 ^ (j + s), wx - 2 ^ (j + s), j + 1 + s⟩ from by
        rw [show j + s + 1 = j + 1 + s by omega]]
      rw [hfB (wy + 2 ^ (j + s)) (wx - 2 ^ (j + s)) hSy hSx]
      rw [show (qy - 2 ^ j) * 2 ^ s + (wy + 2 ^ (j + s)) = qy * 2 ^ s + wy from by
        rw [pow_add]
        ring,
        show (qx + 2 ^ j) * 2 ^ s + (wx - 2 ^ (j + s)) = qx * 2 ^ s + wx from by
        rw [pow_add]
        ring]
    · have hd : (⟨wy, wx, j + s + 2⟩ : P3).descend =
          some (2, ⟨wy - 2 ^ (j + s), wx + 2 ^ (j + s), j + s + 1⟩) := by
        rw [descend_succ2]
        simp only [if_neg (not_lt.mpr hy0), if_pos hx0]
        simp only [Option.some.injEq, Prod.mk.injEq, P3.mk.injEq,
          and_true, true_and]
        omega
      have hsubL : QTree.getQ (QTree.branch
          (QTree.reframeGoQ t (zs + 1) f ⟨qy - 2 ^ j, qx - 2 ^ j, j + 1⟩)
          (QTree.reframeGoQ t (zs + 1) f ⟨qy - 2 ^ j, qx + 2 ^ j, j + 1⟩)
          (QTree.reframeGoQ t (zs + 1) f ⟨qy + 2 ^ j, qx - 2 ^ j, j + 1⟩)
          (QTree.reframeGoQ t (zs + 1) f ⟨qy + 2 ^ j, qx + 2 ^ j, j + 1⟩))
          ⟨wy, wx, j + s + 2⟩ =
          QTree.getQ (QTree.reframeGoQ t (zs + 1) f ⟨qy + 2 ^ j, qx - 2 ^ j, j + 1⟩) ⟨wy - 2 ^ (j + s), wx + 2 ^ (j + s), j + s + 1⟩ := by
        rw [getQ_succ _ _ _ (j + s + 1) 2 _ hd rfl]
        rfl
      rw [hsubL]
      have hSy : Sp (j + 1 + s) (wy - 2 ^ (j + s)) := by
        have h5 : Sp (j + s + 1) (wy - 2 ^ (j + s)) := Sp_mk (by omega) (by omega)
        rw [show j + s + 1 = j + 1 + s by omega] at h5
        exact h5
      have hSx : Sp (j + 1 + s) (wx + 2 ^ (j + s)) := by
        have h5 : Sp (j + s + 1) (wx + 2 ^ (j + s)) := Sp_mk (by omega) (by omega)
        rw [show j + s + 1 = j + 1 + s by omega] at h5
        exact h5
      rw [show (⟨wy - 2 ^ (j + s), wx + 2 ^ (j + s), j + s + 1⟩ : P3) =
          ⟨wy - 2 ^ (j + s), wx + 2 ^ (j + s), j + 1 + s⟩ from by
        rw [show j + s + 1 = j + 1 + s by omega]]
      rw [hfC (wy - 2 ^ (j + s)) (wx + 2 ^ (j + s)) hSy hSx]
      rw [show (qy + 2 ^ j) * 2 ^ s + (wy - 2 ^ (j + s)) = qy * 2 ^ s + wy from by
        rw [pow_add]
        ring,
        show (qx - 2 ^ j) * 2 ^ s + (wx + 2 ^ (j + s)) = qx * 2 ^ s + wx from by
        rw [pow_add]
        ring]
    · have hd : (⟨wy, wx, j + s + 2⟩ : P3).descend =
          some (3, ⟨wy - 2 ^ (j + s), wx - 2 ^ (j + s), j + s + 1⟩) := by
        rw [descend_succ2]
        simp only [if_neg (not_lt.mpr hy0), if_neg (not_lt.mpr hx0)]
        simp only [Option.some.injEq, Prod.mk.injEq, P3.mk.injEq,
          and_true, true_and]
        omega
      have hsubL : QTree.getQ (QTree.branch
          (QTree.reframeGoQ t (zs + 1) f ⟨qy - 2 ^ j, qx - 2 ^ j, j + 1⟩)
          (QTree.reframeGoQ t (zs + 1) f ⟨qy - 2 ^ j, qx + 2 ^ j, j + 1⟩)
          (QTree.reframeGoQ t (zs + 1) f ⟨qy + 2 ^ j, qx - 2 ^ j, j + 1⟩)
          (QTree.reframeGoQ t (zs + 1) f ⟨qy + 2 ^ j, qx + 2 ^ j, j + 1⟩))
          ⟨wy, wx, j + s + 2⟩ =
          QTree.getQ (QTree.reframeGoQ t (zs + 1) f ⟨qy + 2 ^ j, qx + 2 ^ j, j + 1⟩) ⟨wy - 2 ^ (j + s), wx - 2 ^ (j + s), j + s + 1⟩ := by
        rw [getQ_succ _ _ _ (j + s + 1) 3 _ hd rfl]
        rfl
      rw [hsubL]
      have hSy : Sp (j + 1 + s) (wy - 2 ^ (j + s)) := by
        have h5 : Sp (j + s + 1) (wy - 2 ^ (j + s)) := Sp_mk (by omega) (by omega)
        rw [show j + s + 1 = j + 1 + s by omega] at h5
        exact h5
      have hSx : Sp (j + 1 + s) (wx - 2 ^ (j + s)) := by
        have h5 : Sp (j + s + 1) (wx - 2 ^ (j + s)) := Sp_mk (by omega) (by omega)
        rw [show j + s + 1 = j + 1 + s by omega] at h5
        exact h5
      rw [show (⟨wy - 2 ^ (j + s), wx - 2 ^ (j + s), j + s + 1⟩ : P3) =
          ⟨wy - 2 ^ (j + s), wx - 2 ^ (j + s), j + 1 + s⟩ from by
        rw [show j + s + 1 = j + 1 + s by omega]]
      rw [hfD (wy - 2 ^ (j + s)) (wx - 2 ^ (j + s)) hSy hSx]
      rw [show (qy + 2 ^ j) * 2 ^ s + (wy - 2 ^ (j + s)) = qy * 2 ^ s + wy from by
        rw [pow_add]
        ring,
        show (qx + 2 ^ j) * 2 ^ s + (wx - 2 ^ (j + s)) = qx * 2 ^ s + wx from by
        rw [pow_add]
        ring]


/-- Big-endian bit-list value (the accumulator shape of
`make_l2_bitmask`). -/
def bmOf (l : List Bool) : Nat :=
  l.foldl (fun a b => 2 * a + (if b then 1 else 0)) 0

theorem bmOf_append (l : List Bool) (b : Bool) :
    bmOf (l ++ [b]) = 2 * bmOf l + (if b then 1 else 0) := by
  unfold bmOf
  rw [List.foldl_append]
  rfl

theorem bmOf_lt : ∀ l : List Bool, bmOf l < 2 ^ l.length := by
  intro l
  induction l using List.reverseRecOn with
  | nil => norm_num [bmOf]
  | append_singleton l b ih =>
    rw [bmOf_append]
    rw [List.length_append]
    have h2 : (2 : Nat) ^ (l.length + 1) = 2 ^ l.length * 2 := pow_succ 2 _
    cases b <;> simp <;> omega

theorem bmOf_testBit : ∀ (l : List Bool) (j : Nat),
    (bmOf l).testBit j = (l.reverse.get? j).getD false := by
  intro l
  induction l using List.reverseRecOn with
  | nil =>
    intro j
    show Nat.testBit 0 j = _
    rw [Nat.zero_testBit]
    rfl
  | append_singleton l b ih =>
    intro j
    rw [bmOf_append, List.reverse_append]
    cases j with
    | zero =>
      rw [Nat.testBit_zero]
      cases b <;> simp [Nat.mul_add_mod]
    | succ j =>
      rw [Nat.testBit_succ]
      have hdiv : (2 * bmOf l + (if b then 1 else 0)) / 2 = bmOf l := by
        cases b <;> simp <;> omega
      rw [hdiv, ih j]
      simp [List.get?]

theorem countOnesN_mono : ∀ (f1 : Nat), ∀ (f2 n : Nat), n ≤ f1 → n ≤ f2 →
    Universe.countOnesN f1 n = Universe.countOnesN f2 n := by
  intro f1
  induction f1 with
  | zero =>
    intro f2 n h1 h2
    have hn : n = 0 := by omega
    subst hn
    cases f2 with
    | zero => rfl
    | succ f2 => simp [Universe.countOnesN]
  | succ f1 ih =>
    intro f2 n h1 h2
    cases f2 with
    | zero =>
      have hn : n = 0 := by omega
      subst hn
      simp [Universe.countOnesN]
    | succ f2 =>
      show (if n = 0 then 0 else n % 2 + Universe.countOnesN f1 (n / 2)) =
        (if n = 0 then 0 else n % 2 + Universe.countOnesN f2 (n / 2))
      by_cases hn : n = 0
      · rw [if_pos hn, if_pos hn]
      · rw [if_neg hn, if_neg hn, ih f2 (n / 2) (by omega) (by omega)]

theorem countOnes_step (a : Nat) (b : Bool) :
    Universe.countOnes (2 * a + (if b then 1 else 0)) =
      (if b then 1 else 0) + Universe.countOnes a := by
  unfold Universe.countOnes
  by_cases ha : a = 0
  · subst ha
    cases b <;> rfl
  · have hne : ¬ (2 * a + (if b then 1 else 0) = 0) := by
      cases b <;> simp <;> omega
    have h1 : Universe.countOnesN (2 * a + (if b then 1 else 0))
        (2 * a + (if b then 1 else 0)) =
        (2 * a + (if b then 1 else 0)) % 2 +
          Universe.countOnesN (2 * a + (if b then 1 else 0) - 1)
            ((2 * a + (if b then 1 else 0)) / 2) := by
      obtain ⟨k, hk⟩ : ∃ k, 2 * a + (if b then 1 else 0) = k + 1 :=
        ⟨2 * a + (if b then 1 else 0) - 1, by omega⟩
      rw [hk]
      show (if k + 1 = 0 then 0
        else (k + 1) % 2 + Universe.countOnesN k ((k + 1) / 2)) = _
      rw [if_neg (by omega)]
      rw [show k + 1 - 1 = k from rfl]
    rw [h1]
    have hmod : (2 * a + (if b then 1 else 0)) % 2 = (if b then 1 else 0)
      := by cases b <;> simp [Nat.mul_add_mod] <;> omega
    have hdiv : (2 * a + (if b then 1 else 0)) / 2 = a := by
      cases b <;> simp <;> omega
    rw [hmod, hdiv]
    rw [countOnesN_mono _ a a (by cases b <;> simp <;> omega)
      (Nat.le_refl a)]

theorem countOnes_bmOf : ∀ l : List Bool,
    Universe.countOnes (bmOf l) = (l.filter id).length := by
  intro l
  induction l using List.reverseRecOn with
  | nil => rfl
  | append_singleton l b ih =>
    rw [bmOf_append, countOnes_step, ih, List.filter_append]
    cases b <;> simp [List.filter] <;> omega


theorem l2leaf_lifeRule (m : Nat) :
    Universe.l2leaf m = Tree.leaf (lifeRule (m.testBit 5)
      (Universe.countOnes (m &&& 0b011101010111))) := by
  have hc : (m &&& 0b000000100000 != 0) = m.testBit 5 := by
    rw [show (0b000000100000 : Nat) = 2 ^ 5 from rfl, Nat.and_two_pow]
    cases hb : m.testBit 5
    · rfl
    · rfl
  unfold Universe.l2leaf
  dsimp only
  rw [hc]
  cases hb : m.testBit 5 <;>
    rcases hcnt : Universe.countOnes (m &&& 0b011101010111)
      with _ | _ | _ | _ | n
  · rfl
  · rfl
  · rfl
  · rfl
  · show _ = Tree.leaf (lifeRule false (n + 4))
    unfold lifeRule
    rw [if_neg (by simp)]
    rw [decide_eq_false (by omega)]
    rfl
  · rfl
  · rfl
  · rfl
  · rfl
  · show _ = Tree.leaf (lifeRule true (n + 4))
    unfold lifeRule
    rw [if_pos (by simp)]
    rw [decide_eq_false (by omega)]
    rfl

theorem l2leafQ_lifeRule (m : Nat) :
    QTree.l2leafQ m = QTree.leaf (lifeRule (m.testBit 5)
      (Universe.countOnes (m &&& 0b011101010111))) := by
  unfold QTree.l2leafQ
  rw [l2leaf_lifeRule]




theorem uni_zero {t : QTree} (h : QTree.uni 0 t = true) :
    ∃ b, t = QTree.leaf b := by
  cases t with
  | leaf b => exact ⟨b, rfl⟩
  | branch a b c d => simp [QTree.uni] at h

theorem stepQ_two (t : QTree) (ssd : Nat) :
    QTree.stepQ t 2 ssd = QTree.l2genQ (QTree.maskQ t) := rfl

/-- Both coordinates in span, as a `Bool`. -/
def SpB (z : Nat) (q : Int × Int) : Bool :=
  decide (Sp z q.1) && decide (Sp z q.2)

theorem SpB_true {z : Nat} {q : Int × Int} (h1 : Sp z q.1)
    (h2 : Sp z q.2) : SpB z q = true := by
  simp [SpB, h1, h2]

theorem SpB_false {z : Nat} {q : Int × Int}
    (h : ¬ (Sp z q.1 ∧ Sp z q.2)) : SpB z q = false := by
  unfold SpB
  by_cases h1 : Sp z q.1
  · by_cases h2 : Sp z q.2
    · exact absurd ⟨h1, h2⟩ h
    · simp [h2]
  · simp [h1]

theorem worldC_eq (z : Nat) (t : QTree) (q : Int × Int) :
    worldC z t q = (SpB z q && (t.getQ ⟨q.1, q.2, z⟩).aliveQ) := by
  unfold worldC SpB
  congr 1
  cases hw : (P3.new q.1 q.2 z).within_tree
  · by_cases h1 : Sp z q.1
    · by_cases h2 : Sp z q.2
      · exact absurd ((within_eq_Sp q.1 q.2 z).mpr ⟨h1, h2⟩)
          (by rw [show (⟨q.1, q.2, z⟩ : P3) = P3.new q.1 q.2 z from rfl,
            hw]; simp)
      · simp [h2]
    · simp [h1]
  · have h := (within_eq_Sp q.1 q.2 z).mp hw
    symm
    simp [h.1, h.2]

theorem worldC_false {z : Nat} {t : QTree} {q : Int × Int}
    (h : ¬ (Sp z q.1 ∧ Sp z q.2)) : worldC z t q = false := by
  rw [worldC_eq, SpB_false h, Bool.false_and]

theorem countOnes_bmOf_sum : ∀ l : List Bool,
    Universe.countOnes (bmOf l) = (l.map (fun b => if b then 1 else 0)).sum
    := by
  intro l
  induction l using List.reverseRecOn with
  | nil => rfl
  | append_singleton l b ih =>
    rw [bmOf_append, countOnes_step, ih, List.map_append, List.sum_append]
    cases b <;> simp <;> omega


set_option maxHeartbeats 4000000 in
theorem engine_base (ssd : Nat) (t : QTree) (hu : QTree.uni 2 t = true) :
    QTree.uni 1 (QTree.stepQ t 2 ssd) = true ∧
    ∀ q : Int × Int, worldC 1 (QTree.stepQ t 2 ssd) q =
      (SpB 1 q && lifeStep (worldC 2 t) q) := by
  obtain ⟨A, B, C, D, rfl, hA, hB, hC, hD⟩ := uni_succ (show
    QTree.uni (1 + 1) t = true from hu)
  obtain ⟨a0, a1, a2, a3, rfl, ha0, ha1, ha2, ha3⟩ := uni_succ (show
    QTree.uni (0 + 1) A = true from hA)
  obtain ⟨b0, b1, b2, b3, rfl, hb0, hb1, hb2, hb3⟩ := uni_succ (show
    QTree.uni (0 + 1) B = true from hB)
  obtain ⟨c0, c1, c2, c3, rfl, hc0, hc1, hc2, hc3⟩ := uni_succ (show
    QTree.uni (0 + 1) C = true from hC)
  obtain ⟨d0, d1, d2, d3, rfl, hd0, hd1, hd2, hd3⟩ := uni_succ (show
    QTree.uni (0 + 1) D = true from hD)
  obtain ⟨v0, rfl⟩ := uni_zero ha0
  obtain ⟨v1, rfl⟩ := uni_zero ha1
  obtain ⟨v2, rfl⟩ := uni_zero ha2
  obtain ⟨v3, rfl⟩ := uni_zero ha3
  obtain ⟨v4, rfl⟩ := uni_zero hb0
  obtain ⟨v5, rfl⟩ := uni_zero hb1
  obtain ⟨v6, rfl⟩ := uni_zero hb2
  obtain ⟨v7, rfl⟩ := uni_zero hb3
  obtain ⟨v8, rfl⟩ := uni_zero hc0
  obtain ⟨v9, rfl⟩ := uni_zero hc1
  obtain ⟨v10, rfl⟩ := uni_zero hc2
  obtain ⟨v11, rfl⟩ := uni_zero hc3
  obtain ⟨v12, rfl⟩ := uni_zero hd0
  obtain ⟨v13, rfl⟩ := uni_zero hd1
  obtain ⟨v14, rfl⟩ := uni_zero hd2
  obtain ⟨v15, rfl⟩ := uni_zero hd3
  have hmask : QTree.maskQ (QTree.branch (QTree.branch (QTree.leaf v0) (QTree.leaf v1) (QTree.leaf v2) (QTree.leaf v3)) (QTree.branch (QTree.leaf v4) (QTree.leaf v5) (QTree.leaf v6) (QTree.leaf v7)) (QTree.branch (QTree.leaf v8) (QTree.leaf v9) (QTree.leaf v10) (QTree.leaf v11)) (QTree.branch (QTree.leaf v12) (QTree.leaf v13) (QTree.leaf v14) (QTree.leaf v15))) = bmOf [v0, v1, v4, v5, v2, v3, v6, v7, v8, v9, v12, v13, v10, v11, v14, v15] := rfl
  have hw0 : worldC 2 (QTree.branch (QTree.branch (QTree.leaf v0) (QTree.leaf v1) (QTree.leaf v2) (QTree.leaf v3)) (QTree.branch (QTree.leaf v4) (QTree.leaf v5) (QTree.leaf v6) (QTree.leaf v7)) (QTree.branch (QTree.leaf v8) (QTree.leaf v9) (QTree.leaf v10) (QTree.leaf v11)) (QTree.branch (QTree.leaf v12) (QTree.leaf v13) (QTree.leaf v14) (QTree.leaf v15))) ((-2 : Int), (-2 : Int)) = v0 := rfl
  have hw1 : worldC 2 (QTree.branch (QTree.branch (QTree.leaf v0) (QTree.leaf v1) (QTree.leaf v2) (QTree.leaf v3)) (QTree.branch (QTree.leaf v4) (QTree.leaf v5) (QTree.leaf v6) (QTree.leaf v7)) (QTree.branch (QTree.leaf v8) (QTree.leaf v9) (QTree.leaf v10) (QTree.leaf v11)) (QTree.branch (QTree.leaf v12) (QTree.leaf v13) (QTree.leaf v14) (QTree.leaf v15))) ((-2 : Int), (-1 : Int)) = v1 := rfl
  have hw2 : worldC 2 (QTree.branch (QTree.branch (QTree.leaf v0) (QTree.leaf v1) (QTree.leaf v2) (QTree.leaf v3)) (QTree.branch (QTree.leaf v4) (QTree.leaf v5) (QTree.leaf v6) (QTree.leaf v7)) (QTree.branch (QTree.leaf v8) (QTree.leaf v9) (QTree.leaf v10) (QTree.leaf v11)) (QTree.branch (QTree.leaf v12) (QTree.leaf v13) (QTree.leaf v14) (QTree.leaf v15))) ((-2 : Int), (0 : Int)) = v4 := rfl
  have hw3 : worldC 2 (QTree.branch (QTree.branch (QTree.leaf v0) (QTree.leaf v1) (QTree.leaf v2) (QTree.leaf v3)) (QTree.branch (QTree.leaf v4) (QTree.leaf v5) (QTree.leaf v6) (QTree.leaf v7)) (QTree.branch (QTree.leaf v8) (QTree.leaf v9) (QTree.leaf v10) (QTree.leaf v11)) (QTree.branch (QTree.leaf v12) (QTree.leaf v13) (QTree.leaf v14) (QTree.leaf v15))) ((-2 : Int), (1 : Int)) = v5 := rfl
  have hw4 : worldC 2 (QTree.branch (QTree.branch (QTree.leaf v0) (QTree.leaf v1) (QTree.leaf v2) (QTree.leaf v3)) (QTree.branch (QTree.leaf v4) (QTree.leaf v5) (QTree.leaf v6) (QTree.leaf v7)) (QTree.branch (QTree.leaf v8) (QTree.leaf v9) (QTree.leaf v10) (QTree.leaf v11)) (QTree.branch (QTree.leaf v12) (QTree.leaf v13) (QTree.leaf v14) (QTree.leaf v15))) ((-1 : Int), (-2 : Int)) = v2 := rfl
  have hw5 : worldC 2 (QTree.branch (QTree.branch (QTree.leaf v0) (QTree.leaf v1) (QTree.leaf v2) (QTree.leaf v3)) (QTree.branch (QTree.leaf v4) (QTree.leaf v5) (QTree.leaf v6) (QTree.leaf v7)) (QTree.branch (QTree.leaf v8) (QTree.leaf v9) (QTree.leaf v10) (QTree.leaf v11)) (QTree.branch (QTree.leaf v12) (QTree.leaf v13) (QTree.leaf v14) (QTree.leaf v15))) ((-1 : Int), (-1 : Int)) = v3 := rfl
  have hw6 : worldC 2 (QTree.branch (QTree.branch (QTree.leaf v0) (QTree.leaf v1) (QTree.leaf v2) (QTree.leaf v3)) (QTree.branch (QTree.leaf v4) (QTree.leaf v5) (QTree.leaf v6) (QTree.leaf v7)) (QTree.branch (QTree.leaf v8) (QTree.leaf v9) (QTree.leaf v10) (QTree.leaf v11)) (QTree.branch (QTree.leaf v12) (QTree.leaf v13) (QTree.leaf v14) (QTree.leaf v15))) ((-1 : Int), (0 : Int)) = v6 := rfl
  have hw7 : worldC 2 (QTree.branch (QTree.branch (QTree.leaf v0) (QTree.leaf v1) (QTree.leaf v2) (QTree.leaf v3)) (QTree.branch (QTree.leaf v4) (QTree.leaf v5) (QTree.leaf v6) (QTree.leaf v7)) (QTree.branch (QTree.leaf v8) (QTree.leaf v9) (QTree.leaf v10) (QTree.leaf v11)) (QTree.branch (QTree.leaf v12) (QTree.leaf v13) (QTree.leaf v14) (QTree.leaf v15))) ((-1 : Int), (1 : Int)) = v7 := rfl
  have hw8 : worldC 2 (QTree.branch (QTree.branch (QTree.leaf v0) (QTree.leaf v1) (QTree.leaf v2) (QTree.leaf v3)) (QTree.branch (QTree.leaf v4) (QTree.leaf v5) (QTree.leaf v6) (QTree.leaf v7)) (QTree.branch (QTree.leaf v8) (QTree.leaf v9) (QTree.leaf v10) (QTree.leaf v11)) (QTree.branch (QTree.leaf v12) (QTree.leaf v13) (QTree.leaf v14) (QTree.leaf v15))) ((0 : Int), (-2 : Int)) = v8 := rfl
  have hw9 : worldC 2 (QTree.branch (QTree.branch (QTree.leaf v0) (QTree.leaf v1) (QTree.leaf v2) (QTree.leaf v3)) (QTree.branch (QTree.leaf v4) (QTree.leaf v5) (QTree.leaf v6) (QTree.leaf v7)) (QTree.branch (QTree.leaf v8) (QTree.leaf v9) (QTree.leaf v10) (QTree.leaf v11)) (QTree.branch (QTree.leaf v12) (QTree.leaf v13) (QTree.leaf v14) (QTree.leaf v15))) ((0 : Int), (-1 : Int)) = v9 := rfl
  have hw10 : worldC 2 (QTree.branch (QTree.branch (QTree.leaf v0) (QTree.leaf v1) (QTree.leaf v2) (QTree.leaf v3)) (QTree.branch (QTree.leaf v4) (QTree.leaf v5) (QTree.leaf v6) (QTree.leaf v7)) (QTree.branch (QTree.leaf v8) (QTree.leaf v9) (QTree.leaf v10) (QTree.leaf v11)) (QTree.branch (QTree.leaf v12) (QTree.leaf v13) (QTree.leaf v14) (QTree.leaf v15))) ((0 : Int), (0 : Int)) = v12 := rfl
  have hw11 : worldC 2 (QTree.branch (QTree.branch (QTree.leaf v0) (QTree.leaf v1) (QTree.leaf v2) (QTree.leaf v3)) (QTree.branch (QTree.leaf v4) (QTree.leaf v5) (QTree.leaf v6) (QTree.leaf v7)) (QTree.branch (QTree.leaf v8) (QTree.leaf v9) (QTree.leaf v10) (QTree.leaf v11)) (QTree.branch (QTree.leaf v12) (QTree.leaf v13) (QTree.leaf v14) (QTree.leaf v15))) ((0 : Int), (1 : Int)) = v13 := rfl
  have hw12 : worldC 2 (QTree.branch (QTree.branch (QTree.leaf v0) (QTree.leaf v1) (QTree.leaf v2) (QTree.leaf v3)) (QTree.branch (QTree.leaf v4) (QTree.leaf v5) (QTree.leaf v6) (QTree.leaf v7)) (QTree.branch (QTree.leaf v8) (QTree.leaf v9) (QTree.leaf v10) (QTree.leaf v11)) (QTree.branch (QTree.leaf v12) (QTree.leaf v13) (QTree.leaf v14) (QTree.leaf v15))) ((1 : Int), (-2 : Int)) = v10 := rfl
  have hw13 : worldC 2 (QTree.branch (QTree.branch (QTree.leaf v0) (QTree.leaf v1) (QTree.leaf v2) (QTree.leaf v3)) (QTree.branch (QTree.leaf v4) (QTree.leaf v5) (QTree.leaf v6) (QTree.leaf v7)) (QTree.branch (QTree.leaf v8) (QTree.leaf v9) (QTree.leaf v10) (QTree.leaf v11)) (QTree.branch (QTree.leaf v12) (QTree.leaf v13) (QTree.leaf v14) (QTree.leaf v15))) ((1 : Int), (-1 : Int)) = v11 := rfl
  have hw14 : worldC 2 (QTree.branch (QTree.branch (QTree.leaf v0) (QTree.leaf v1) (QTree.leaf v2) (QTree.leaf v3)) (QTree.branch (QTree.leaf v4) (QTree.leaf v5) (QTree.leaf v6) (QTree.leaf v7)) (QTree.branch (QTree.leaf v8) (QTree.leaf v9) (QTree.leaf v10) (QTree.leaf v11)) (QTree.branch (QTree.leaf v12) (QTree.leaf v13) (QTree.leaf v14) (QTree.leaf v15))) ((1 : Int), (0 : Int)) = v14 := rfl
  have hw15 : worldC 2 (QTree.branch (QTree.branch (QTree.leaf v0) (QTree.leaf v1) (QTree.leaf v2) (QTree.leaf v3)) (QTree.branch (QTree.leaf v4) (QTree.leaf v5) (QTree.leaf v6) (QTree.leaf v7)) (QTree.branch (QTree.leaf v8) (QTree.leaf v9) (QTree.leaf v10) (QTree.leaf v11)) (QTree.branch (QTree.leaf v12) (QTree.leaf v13) (QTree.leaf v14) (QTree.leaf v15))) ((1 : Int), (1 : Int)) = v15 := rfl
  have hX5 : (bmOf [v0, v1, v4, v5, v2, v3, v6, v7, v8, v9, v12, v13, v10, v11, v14, v15] >>> 5) &&& 0b011101010111 =
      bmOf [false, v0, v1, v4, false, v2, false, v6, false, v8, v9, v12] := by
    apply Nat.eq_of_testBit_eq
    intro j
    by_cases hj : j < 12
    · interval_cases j
      · rw [Nat.testBit_and, Nat.testBit_shiftRight,
          show (bmOf [v0, v1, v4, v5, v2, v3, v6, v7, v8, v9, v12, v13, v10, v11, v14, v15]).testBit (5 + 0) = v12 from by
            rw [bmOf_testBit]
            rfl,
          show Nat.testBit 0b011101010111 0 = true from rfl,
          Bool.and_true, bmOf_testBit]
        rfl
      · rw [Nat.testBit_and, Nat.testBit_shiftRight,
          show (bmOf [v0, v1, v4, v5, v2, v3, v6, v7, v8, v9, v12, v13, v10, v11, v14, v15]).testBit (5 + 1) = v9 from by
            rw [bmOf_testBit]
            rfl,
          show Nat.testBit 0b011101010111 1 = true from rfl,
          Bool.and_true, bmOf_testBit]
        rfl
      · rw [Nat.testBit_and, Nat.testBit_shiftRight,
          show (bmOf [v0, v1, v4, v5, v2, v3, v6, v7, v8, v9, v12, v13, v10, v11, v14, v15]).testBit (5 + 2) = v8 from by
            rw [bmOf_testBit]
            rfl,
          show Nat.testBit 0b011101010111 2 = true from rfl,
          Bool.and_true, bmOf_testBit]
        rfl
      · rw [Nat.testBit_and, Nat.testBit_shiftRight,
          show Nat.testBit 0b011101010111 3 = false from rfl,
          Bool.and_false, bmOf_testBit]
        rfl
      · rw [Nat.testBit_and, Nat.testBit_shiftRight,
          show (bmOf [v0, v1, v4, v5, v2, v3, v6, v7, v8, v9, v12, v13, v10, v11, v14, v15]).testBit (5 + 4) = v6 from by
            rw [bmOf_testBit]
            rfl,
          show Nat.testBit 0b011101010111 4 = true from rfl,
          Bool.and_true, bmOf_testBit]
        rfl
      · rw [Nat.testBit_and, Nat.testBit_shiftRight,
          show Nat.testBit 0b011101010111 5 = false from rfl,
          Bool.and_false, bmOf_testBit]
        rfl
      · rw [Nat.testBit_and, Nat.testBit_shiftRight,
          show (bmOf [v0, v1, v4, v5, v2, v3, v6, v7, v8, v9, v12, v13, v10, v11, v14, v15]).testBit (5 + 6) = v2 from by
            rw [bmOf_testBit]
            rfl,
          show Nat.testBit 0b011101010111 6 = true from rfl,
          Bool.and_true, bmOf_testBit]
        rfl
      · rw [Nat.testBit_and, Nat.testBit_shiftRight,
          show Nat.testBit 0b011101010111 7 = false from rfl,
          Bool.and_false, bmOf_testBit]
        rfl
      · rw [Nat.testBit_and, Nat.testBit_shiftRight,
          show (bmOf [v0, v1, v4, v5, v2, v3, v6, v7, v8, v9, v12, v13, v10, v11, v14, v15]).testBit (5 + 8) = v4 from by
            rw [bmOf_testBit]
            rfl,
          show Nat.testBit 0b011101010111 8 = true from rfl,
          Bool.and_true, bmOf_testBit]
        rfl
      · rw [Nat.testBit_and, Nat.testBit_shiftRight,
          show (bmOf [v0, v1, v4, v5, v2, v3, v6, v7, v8, v9, v12, v13, v10, v11, v14, v15]).testBit (5 + 9) = v1 from by
            rw [bmOf_testBit]
            rfl,
          show Nat.testBit 0b011101010111 9 = true from rfl,
          Bool.and_true, bmOf_testBit]
        rfl
      · rw [Nat.testBit_and, Nat.testBit_shiftRight,
          show (bmOf [v0, v1, v4, v5, v2, v3, v6, v7, v8, v9, v12, v13, v10, v11, v14, v15]).testBit (5 + 10) = v0 from by
            rw [bmOf_testBit]
            rfl,
          show Nat.testBit 0b011101010111 10 = true from rfl,
          Bool.and_true, bmOf_testBit]
        rfl
      · rw [Nat.testBit_and, Nat.testBit_shiftRight,
          show Nat.testBit 0b011101010111 11 = false from rfl,
          Bool.and_false, bmOf_testBit]
        rfl
    · have h1 : Nat.testBit 0b011101010111 j = false := by
        apply Nat.testBit_lt_two_pow
        calc (0b011101010111 : Nat) < 2 ^ 12 := by norm_num
          _ ≤ 2 ^ j := Nat.pow_le_pow_right (by norm_num) (by omega)
      have h2 : (([false, v0, v1, v4, false, v2, false, v6, false, v8, v9, v12] : List Bool)).reverse.get? j = none :=
        List.get?_len_le (by
          simp only [List.length_reverse, List.length_cons,
            List.length_nil]
          omega)
      rw [Nat.testBit_and, Nat.testBit_shiftRight, h1, Bool.and_false,
        bmOf_testBit, h2]
      rfl
  have hX4 : (bmOf [v0, v1, v4, v5, v2, v3, v6, v7, v8, v9, v12, v13, v10, v11, v14, v15] >>> 4) &&& 0b011101010111 =
      bmOf [false, v1, v4, v5, false, v3, false, v7, false, v9, v12, v13] := by
    apply Nat.eq_of_testBit_eq
    intro j
    by_cases hj : j < 12
    · interval_cases j
      · rw [Nat.testBit_and, Nat.testBit_shiftRight,
          show (bmOf [v0, v1, v4, v5, v2, v3, v6, v7, v8, v9, v12, v13, v10, v11, v14, v15]).testBit (4 + 0) = v13 from by
            rw [bmOf_testBit]
            rfl,
          show Nat.testBit 0b011101010111 0 = true from rfl,
          Bool.and_true, bmOf_testBit]
        rfl
      · rw [Nat.testBit_and, Nat.testBit_shiftRight,
          show (bmOf [v0, v1, v4, v5, v2, v3, v6, v7, v8, v9, v12, v13, v10, v11, v14, v15]).testBit (4 + 1) = v12 from by
            rw [bmOf_testBit]
            rfl,
          show Nat.testBit 0b011101010111 1 = true from rfl,
          Bool.and_true, bmOf_testBit]
        rfl
      · rw [Nat.testBit_and, Nat.testBit_shiftRight,
          show (bmOf [v0, v1, v4, v5, v2, v3, v6, v7, v8, v9, v12, v13, v10, v11, v14, v15]).testBit (4 + 2) = v9 from by
            rw [bmOf_testBit]
            rfl,
          show Nat.testBit 0b011101010111 2 = true from rfl,
          Bool.and_true, bmOf_testBit]
        rfl
      · rw [Nat.testBit_and, Nat.testBit_shiftRight,
          show Nat.testBit 0b011101010111 3 = false from rfl,
          Bool.and_false, bmOf_testBit]
        rfl
      · rw [Nat.testBit_and, Nat.testBit_shiftRight,
          show (bmOf [v0, v1, v4, v5, v2, v3, v6, v7, v8, v9, v12, v13, v10, v11, v14, v15]).testBit (4 + 4) = v7 from by
            rw [bmOf_testBit]
            rfl,
          show Nat.testBit 0b011101010111 4 = true from rfl,
          Bool.and_true, bmOf_testBit]
        rfl
      · rw [Nat.testBit_and, Nat.testBit_shiftRight,
          show Nat.testBit 0b011101010111 5 = false from rfl,
          Bool.and_false, bmOf_testBit]
        rfl
      · rw [Nat.testBit_and, Nat.testBit_shiftRight,
          show (bmOf [v0, v1, v4, v5, v2, v3, v6, v7, v8, v9, v12, v13, v10, v11, v14, v15]).testBit (4 + 6) = v3 from by
            rw [bmOf_testBit]
            rfl,
          show Nat.testBit 0b011101010111 6 = true from rfl,
          Bool.and_true, bmOf_testBit]
        rfl
      · rw [Nat.testBit_and, Nat.testBit_shiftRight,
          show Nat.testBit 0b011101010111 7 = false from rfl,
          Bool.and_false, bmOf_testBit]
        rfl
      · rw [Nat.testBit_and, Nat.testBit_shiftRight,
          show (bmOf [v0, v1, v4, v5, v2, v3, v6, v7, v8, v9, v12, v13, v10, v11, v14, v15]).testBit (4 + 8) = v5 from by
            rw [bmOf_testBit]
            rfl,
          show Nat.testBit 0b011101010111 8 = true from rfl,
          Bool.and_true, bmOf_testBit]
        rfl
      · rw [Nat.testBit_and, Nat.testBit_shiftRight,
          show (bmOf [v0, v1, v4, v5, v2, v3, v6, v7, v8, v9, v12, v13, v10, v11, v14, v15]).testBit (4 + 9) = v4 from by
            rw [bmOf_testBit]
            rfl,
          show Nat.testBit 0b011101010111 9 = true from rfl,
          Bool.and_true, bmOf_testBit]
        rfl
      · rw [Nat.testBit_and, Nat.testBit_shiftRight,
          show (bmOf [v0, v1, v4, v5, v2, v3, v6, v7, v8, v9, v12, v13, v10, v11, v14, v15]).testBit (4 + 10) = v1 from by
            rw [bmOf_testBit]
            rfl,
          show Nat.testBit 0b011101010111 10 = true from rfl,
          Bool.and_true, bmOf_testBit]
        rfl
      · rw [Nat.testBit_and, Nat.testBit_shiftRight,
          show Nat.testBit 0b011101010111 11 = false from rfl,
          Bool.and_false, bmOf_testBit]
        rfl
    · have h1 : Nat.testBit 0b011101010111 j = false := by
        apply Nat.testBit_lt_two_pow
        calc (0b011101010111 : Nat) < 2 ^ 12 := by norm_num
          _ ≤ 2 ^ j := Nat.pow_le_pow_right (by norm_num) (by omega)
      have h2 : (([false, v1, v4, v5, false, v3, false, v7, false, v9, v12, v13] : List Bool)).reverse.get? j = none :=
        List.get?_len_le (by
          simp only [List.length_reverse, List.length_cons,
            List.length_nil]
          omega)
      rw [Nat.testBit_and, Nat.testBit_shiftRight, h1, Bool.and_false,
        bmOf_testBit, h2]
      rfl
  have hX1 : (bmOf [v0, v1, v4, v5, v2, v3, v6, v7, v8, v9, v12, v13, v10, v11, v14, v15] >>> 1) &&& 0b011101010111 =
      bmOf [false, v2, v3, v6, false, v8, false, v12, false, v10, v11, v14] := by
    apply Nat.eq_of_testBit_eq
    intro j
    by_cases hj : j < 12
    · interval_cases j
      · rw [Nat.testBit_and, Nat.testBit_shiftRight,
          show (bmOf [v0, v1, v4, v5, v2, v3, v6, v7, v8, v9, v12, v13, v10, v11, v14, v15]).testBit (1 + 0) = v14 from by
            rw [bmOf_testBit]
            rfl,
          show Nat.testBit 0b011101010111 0 = true from rfl,
          Bool.and_true, bmOf_testBit]
        rfl
      · rw [Nat.testBit_and, Nat.testBit_shiftRight,
          show (bmOf [v0, v1, v4, v5, v2, v3, v6, v7, v8, v9, v12, v13, v10, v11, v14, v15]).testBit (1 + 1) = v11 from by
            rw [bmOf_testBit]
            rfl,
          show Nat.testBit 0b011101010111 1 = true from rfl,
          Bool.and_true, bmOf_testBit]
        rfl
      · rw [Nat.testBit_and, Nat.testBit_shiftRight,
          show (bmOf [v0, v1, v4, v5, v2, v3, v6, v7, v8, v9, v12, v13, v10, v11, v14, v15]).testBit (1 + 2) = v10 from by
            rw [bmOf_testBit]
            rfl,
          show Nat.testBit 0b011101010111 2 = true from rfl,
          Bool.and_true, bmOf_testBit]
        rfl
      · rw [Nat.testBit_and, Nat.testBit_shiftRight,
          show Nat.testBit 0b011101010111 3 = false from rfl,
          Bool.and_false, bmOf_testBit]
        rfl
      · rw [Nat.testBit_and, Nat.testBit_shiftRight,
          show (bmOf [v0, v1, v4, v5, v2, v3, v6, v7, v8, v9, v12, v13, v10, v11, v14, v15]).testBit (1 + 4) = v12 from by
            rw [bmOf_testBit]
            rfl,
          show Nat.testBit 0b011101010111 4 = true from rfl,
          Bool.and_true, bmOf_testBit]
        rfl
      · rw [Nat.testBit_and, Nat.testBit_shiftRight,
          show Nat.testBit 0b011101010111 5 = false from rfl,
          Bool.and_false, bmOf_testBit]
        rfl
      · rw [Nat.testBit_and, Nat.testBit_shiftRight,
          show (bmOf [v0, v1, v4, v5, v2, v3, v6, v7, v8, v9, v12, v13, v10, v11, v14, v15]).testBit (1 + 6) = v8 from by
            rw [bmOf_testBit]
            rfl,
          show Nat.testBit 0b011101010111 6 = true from rfl,
          Bool.and_true, bmOf_testBit]
        rfl
      · rw [Nat.testBit_and, Nat.testBit_shiftRight,
          show Nat.testBit 0b011101010111 7 = false from rfl,
          Bool.and_false, bmOf_testBit]
        rfl
      · rw [Nat.testBit_and, Nat.testBit_shiftRight,
          show (bmOf [v0, v1, v4, v5, v2, v3, v6, v7, v8, v9, v12, v13, v10, v11, v14, v15]).testBit (1 + 8) = v6 from by
            rw [bmOf_testBit]
            rfl,
          show Nat.testBit 0b011101010111 8 = true from rfl,
          Bool.and_true, bmOf_testBit]
        rfl
      · rw [Nat.testBit_and, Nat.testBit_shiftRight,
          show (bmOf [v0, v1, v4, v5, v2, v3, v6, v7, v8, v9, v12, v13, v10, v11, v14, v15]).testBit (1 + 9) = v3 from by
            rw [bmOf_testBit]
            rfl,
          show Nat.testBit 0b011101010111 9 = true from rfl,
          Bool.and_true, bmOf_testBit]
        rfl
      · rw [Nat.testBit_and, Nat.testBit_shiftRight,
          show (bmOf [v0, v1, v4, v5, v2, v3, v6, v7, v8, v9, v12, v13, v10, v11, v14, v15]).testBit (1 + 10) = v2 from by
            rw [bmOf_testBit]
            rfl,
          show Nat.testBit 0b011101010111 10 = true from rfl,
          Bool.and_true, bmOf_testBit]
        rfl
      · rw [Nat.testBit_and, Nat.testBit_shiftRight,
          show Nat.testBit 0b011101010111 11 = false from rfl,
          Bool.and_false, bmOf_testBit]
        rfl
    · have h1 : Nat.testBit 0b011101010111 j = false := by
        apply Nat.testBit_lt_two_pow
        calc (0b011101010111 : Nat) < 2 ^ 12 := by norm_num
          _ ≤ 2 ^ j := Nat.pow_le_pow_right (by norm_num) (by omega)
      have h2 : (([false, v2, v3, v6, false, v8, false, v12, false, v10, v11, v14] : List Bool)).reverse.get? j = none :=
        List.get?_len_le (by
          simp only [List.length_reverse, List.length_cons,
            List.length_nil]
          omega)
      rw [Nat.testBit_and, Nat.testBit_shiftRight, h1, Bool.and_false,
        bmOf_testBit, h2]
      rfl
  have hX0 : (bmOf [v0, v1, v4, v5, v2, v3, v6, v7, v8, v9, v12, v13, v10, v11, v14, v15] >>> 0) &&& 0b011101010111 =
      bmOf [false, v3, v6, v7, false, v9, false, v13, false, v11, v14, v15] := by
    apply Nat.eq_of_testBit_eq
    intro j
    by_cases hj : j < 12
    · interval_cases j
      · rw [Nat.testBit_and, Nat.testBit_shiftRight,
          show (bmOf [v0, v1, v4, v5, v2, v3, v6, v7, v8, v9, v12, v13, v10, v11, v14, v15]).testBit (0 + 0) = v15 from by
            rw [bmOf_testBit]
            rfl,
          show Nat.testBit 0b011101010111 0 = true from rfl,
          Bool.and_true, bmOf_testBit]
        rfl
      · rw [Nat.testBit_and, Nat.testBit_shiftRight,
          show (bmOf [v0, v1, v4, v5, v2, v3, v6, v7, v8, v9, v12, v13, v10, v11, v14, v15]).testBit (0 + 1) = v14 from by
            rw [bmOf_testBit]
            rfl,
          show Nat.testBit 0b011101010111 1 = true from rfl,
          Bool.and_true, bmOf_testBit]
        rfl
      · rw [Nat.testBit_and, Nat.testBit_shiftRight,
          show (bmOf [v0, v1, v4, v5, v2, v3, v6, v7, v8, v9, v12, v13, v10, v11, v14, v15]).testBit (0 + 2) = v11 from by
            rw [bmOf_testBit]
            rfl,
          show Nat.testBit 0b011101010111 2 = true from rfl,
          Bool.and_true, bmOf_testBit]
        rfl
      · rw [Nat.testBit_and, Nat.testBit_shiftRight,
          show Nat.testBit 0b011101010111 3 = false from rfl,
          Bool.and_false, bmOf_testBit]
        rfl
      · rw [Nat.testBit_and, Nat.testBit_shiftRight,
          show (bmOf [v0, v1, v4, v5, v2, v3, v6, v7, v8, v9, v12, v13, v10, v11, v14, v15]).testBit (0 + 4) = v13 from by
            rw [bmOf_testBit]
            rfl,
          show Nat.testBit 0b011101010111 4 = true from rfl,
          Bool.and_true, bmOf_testBit]
        rfl
      · rw [Nat.testBit_and, Nat.testBit_shiftRight,
          show Nat.testBit 0b011101010111 5 = false from rfl,
          Bool.and_false, bmOf_testBit]
        rfl
      · rw [Nat.testBit_and, Nat.testBit_shiftRight,
          show (bmOf [v0, v1, v4, v5, v2, v3, v6, v7, v8, v9, v12, v13, v10, v11, v14, v15]).testBit (0 + 6) = v9 from by
            rw [bmOf_testBit]
            rfl,
          show Nat.testBit 0b011101010111 6 = true from rfl,
          Bool.and_true, bmOf_testBit]
        rfl
      · rw [Nat.testBit_and, Nat.testBit_shiftRight,
          show Nat.testBit 0b011101010111 7 = false from rfl,
          Bool.and_false, bmOf_testBit]
        rfl
      · rw [Nat.testBit_and, Nat.testBit_shiftRight,
          show (bmOf [v0, v1, v4, v5, v2, v3, v6, v7, v8, v9, v12, v13, v10, v11, v14, v15]).testBit (0 + 8) = v7 from by
            rw [bmOf_testBit]
            rfl,
          show Nat.testBit 0b011101010111 8 = true from rfl,
          Bool.and_true, bmOf_testBit]
        rfl
      · rw [Nat.testBit_and, Nat.testBit_shiftRight,
          show (bmOf [v0, v1, v4, v5, v2, v3, v6, v7, v8, v9, v12, v13, v10, v11, v14, v15]).testBit (0 + 9) = v6 from by
            rw [bmOf_testBit]
            rfl,
          show Nat.testBit 0b011101010111 9 = true from rfl,
          Bool.and_true, bmOf_testBit]
        rfl
      · rw [Nat.testBit_and, Nat.testBit_shiftRight,
          show (bmOf [v0, v1, v4, v5, v2, v3, v6, v7, v8, v9, v12, v13, v10, v11, v14, v15]).testBit (0 + 10) = v3 from by
            rw [bmOf_testBit]
            rfl,
          show Nat.testBit 0b011101010111 10 = true from rfl,
          Bool.and_true, bmOf_testBit]
        rfl
      · rw [Nat.testBit_and, Nat.testBit_shiftRight,
          show Nat.testBit 0b011101010111 11 = false from rfl,
          Bool.and_false, bmOf_testBit]
        rfl
    · have h1 : Nat.testBit 0b011101010111 j = false := by
        apply Nat.testBit_lt_two_pow
        calc (0b011101010111 : Nat) < 2 ^ 12 := by norm_num
          _ ≤ 2 ^ j := Nat.pow_le_pow_right (by norm_num) (by omega)
      have h2 : (([false, v3, v6, v7, false, v9, false, v13, false, v11, v14, v15] : List Bool)).reverse.get? j = none :=
        List.get?_len_le (by
          simp only [List.length_reverse, List.length_cons,
            List.length_nil]
          omega)
      rw [Nat.testBit_and, Nat.testBit_shiftRight, h1, Bool.and_false,
        bmOf_testBit, h2]
      rfl
  have hC5 : (bmOf [v0, v1, v4, v5, v2, v3, v6, v7, v8, v9, v12, v13, v10, v11, v14, v15] >>> 5).testBit 5 = v3 := by
    rw [Nat.testBit_shiftRight, bmOf_testBit]
    rfl
  have hC4 : (bmOf [v0, v1, v4, v5, v2, v3, v6, v7, v8, v9, v12, v13, v10, v11, v14, v15] >>> 4).testBit 5 = v6 := by
    rw [Nat.testBit_shiftRight, bmOf_testBit]
    rfl
  have hC1 : (bmOf [v0, v1, v4, v5, v2, v3, v6, v7, v8, v9, v12, v13, v10, v11, v14, v15] >>> 1).testBit 5 = v9 := by
    rw [Nat.testBit_shiftRight, bmOf_testBit]
    rfl
  have hC0 : (bmOf [v0, v1, v4, v5, v2, v3, v6, v7, v8, v9, v12, v13, v10, v11, v14, v15] >>> 0).testBit 5 = v12 := by
    rw [Nat.testBit_shiftRight, bmOf_testBit]
    rfl
  have hcell5 : QTree.aliveQ (QTree.l2leafQ
      (bmOf [v0, v1, v4, v5, v2, v3, v6, v7, v8, v9, v12, v13, v10, v11, v14, v15] >>> 5)) =
      lifeStep (worldC 2 (QTree.branch (QTree.branch (QTree.leaf v0) (QTree.leaf v1) (QTree.leaf v2) (QTree.leaf v3)) (QTree.branch (QTree.leaf v4) (QTree.leaf v5) (QTree.leaf v6) (QTree.leaf v7)) (QTree.branch (QTree.leaf v8) (QTree.leaf v9) (QTree.leaf v10) (QTree.leaf v11)) (QTree.branch (QTree.leaf v12) (QTree.leaf v13) (QTree.leaf v14) (QTree.leaf v15)))) ((-1 : Int), (-1 : Int)) := by
    rw [l2leafQ_lifeRule]
    show lifeRule ((bmOf [v0, v1, v4, v5, v2, v3, v6, v7, v8, v9, v12, v13, v10, v11, v14, v15] >>> 5).testBit 5)
      (Universe.countOnes ((bmOf [v0, v1, v4, v5, v2, v3, v6, v7, v8, v9, v12, v13, v10, v11, v14, v15] >>> 5) &&&
        0b011101010111)) = _
    rw [hC5, hX5, countOnes_bmOf_sum]
    show _ = lifeRule (worldC 2 (QTree.branch (QTree.branch (QTree.leaf v0) (QTree.leaf v1) (QTree.leaf v2) (QTree.leaf v3)) (QTree.branch (QTree.leaf v4) (QTree.leaf v5) (QTree.leaf v6) (QTree.leaf v7)) (QTree.branch (QTree.leaf v8) (QTree.leaf v9) (QTree.leaf v10) (QTree.leaf v11)) (QTree.branch (QTree.leaf v12) (QTree.leaf v13) (QTree.leaf v14) (QTree.leaf v15))) ((-1 : Int), (-1 : Int)))
      (liveNbrs (worldC 2 (QTree.branch (QTree.branch (QTree.leaf v0) (QTree.leaf v1) (QTree.leaf v2) (QTree.leaf v3)) (QTree.branch (QTree.leaf v4) (QTree.leaf v5) (QTree.leaf v6) (QTree.leaf v7)) (QTree.branch (QTree.leaf v8) (QTree.leaf v9) (QTree.leaf v10) (QTree.leaf v11)) (QTree.branch (QTree.leaf v12) (QTree.leaf v13) (QTree.leaf v14) (QTree.leaf v15)))) ((-1 : Int), (-1 : Int)))
    rw [hw5]
    congr 1
    have hnb : neighbours ((-1 : Int), (-1 : Int)) =
        [((-2 : Int), (-2 : Int)), ((-2 : Int), (-1 : Int)), ((-2 : Int), (0 : Int)), ((-1 : Int), (-2 : Int)), ((-1 : Int), (0 : Int)), ((0 : Int), (-2 : Int)), ((0 : Int), (-1 : Int)), ((0 : Int), (0 : Int))] := by
      unfold neighbours neighbourOffsets
      norm_num
    unfold liveNbrs
    rw [hnb]
    simp only [List.countP_cons, List.countP_nil, List.map_cons,
      List.map_nil, List.sum_cons, List.sum_nil, hw0, hw1, hw2, hw4, hw6, hw8, hw9, hw10]
    norm_num
    ring
  have hcell4 : QTree.aliveQ (QTree.l2leafQ
      (bmOf [v0, v1, v4, v5, v2, v3, v6, v7, v8, v9, v12, v13, v10, v11, v14, v15] >>> 4)) =
      lifeStep (worldC 2 (QTree.branch (QTree.branch (QTree.leaf v0) (QTree.leaf v1) (QTree.leaf v2) (QTree.leaf v3)) (QTree.branch (QTree.leaf v4) (QTree.leaf v5) (QTree.leaf v6) (QTree.leaf v7)) (QTree.branch (QTree.leaf v8) (QTree.leaf v9) (QTree.leaf v10) (QTree.leaf v11)) (QTree.branch (QTree.leaf v12) (QTree.leaf v13) (QTree.leaf v14) (QTree.leaf v15)))) ((-1 : Int), (0 : Int)) := by
    rw [l2leafQ_lifeRule]
    show lifeRule ((bmOf [v0, v1, v4, v5, v2, v3, v6, v7, v8, v9, v12, v13, v10, v11, v14, v15] >>> 4).testBit 5)
      (Universe.countOnes ((bmOf [v0, v1, v4, v5, v2, v3, v6, v7, v8, v9, v12, v13, v10, v11, v14, v15] >>> 4) &&&
        0b011101010111)) = _
    rw [hC4, hX4, countOnes_bmOf_sum]
    show _ = lifeRule (worldC 2 (QTree.branch (QTree.branch (QTree.leaf v0) (QTree.leaf v1) (QTree.leaf v2) (QTree.leaf v3)) (QTree.branch (QTree.leaf v4) (QTree.leaf v5) (QTree.leaf v6) (QTree.leaf v7)) (QTree.branch (QTree.leaf v8) (QTree.leaf v9) (QTree.leaf v10) (QTree.leaf v11)) (QTree.branch (QTree.leaf v12) (QTree.leaf v13) (QTree.leaf v14) (QTree.leaf v15))) ((-1 : Int), (0 : Int)))
      (liveNbrs (worldC 2 (QTree.branch (QTree.branch (QTree.leaf v0) (QTree.leaf v1) (QTree.leaf v2) (QTree.leaf v3)) (QTree.branch (QTree.leaf v4) (QTree.leaf v5) (QTree.leaf v6) (QTree.leaf v7)) (QTree.branch (QTree.leaf v8) (QTree.leaf v9) (QTree.leaf v10) (QTree.leaf v11)) (QTree.branch (QTree.leaf v12) (QTree.leaf v13) (QTree.leaf v14) (QTree.leaf v15)))) ((-1 : Int), (0 : Int)))
    rw [hw6]
    congr 1
    have hnb : neighbours ((-1 : Int), (0 : Int)) =
        [((-2 : Int), (-1 : Int)), ((-2 : Int), (0 : Int)), ((-2 : Int), (1 : Int)), ((-1 : Int), (-1 : Int)), ((-1 : Int), (1 : Int)), ((0 : Int), (-1 : Int)), ((0 : Int), (0 : Int)), ((0 : Int), (1 : Int))] := by
      unfold neighbours neighbourOffsets
      norm_num
    unfold liveNbrs
    rw [hnb]
    simp only [List.countP_cons, List.countP_nil, List.map_cons,
      List.map_nil, List.sum_cons, List.sum_nil, hw1, hw2, hw3, hw5, hw7, hw9, hw10, hw11]
    norm_num
    ring
  have hcell1 : QTree.aliveQ (QTree.l2leafQ
      (bmOf [v0, v1, v4, v5, v2, v3, v6, v7, v8, v9, v12, v13, v10, v11, v14, v15] >>> 1)) =
      lifeStep (worldC 2 (QTree.branch (QTree.branch (QTree.leaf v0) (QTree.leaf v1) (QTree.leaf v2) (QTree.leaf v3)) (QTree.branch (QTree.leaf v4) (QTree.leaf v5) (QTree.leaf v6) (QTree.leaf v7)) (QTree.branch (QTree.leaf v8) (QTree.leaf v9) (QTree.leaf v10) (QTree.leaf v11)) (QTree.branch (QTree.leaf v12) (QTree.leaf v13) (QTree.leaf v14) (QTree.leaf v15)))) ((0 : Int), (-1 : Int)) := by
    rw [l2leafQ_lifeRule]
    show lifeRule ((bmOf [v0, v1, v4, v5, v2, v3, v6, v7, v8, v9, v12, v13, v10, v11, v14, v15] >>> 1).testBit 5)
      (Universe.countOnes ((bmOf [v0, v1, v4, v5, v2, v3, v6, v7, v8, v9, v12, v13, v10, v11, v14, v15] >>> 1) &&&
        0b011101010111)) = _
    rw [hC1, hX1, countOnes_bmOf_sum]
    show _ = lifeRule (worldC 2 (QTree.branch (QTree.branch (QTree.leaf v0) (QTree.leaf v1) (QTree.leaf v2) (QTree.leaf v3)) (QTree.branch (QTree.leaf v4) (QTree.leaf v5) (QTree.leaf v6) (QTree.leaf v7)) (QTree.branch (QTree.leaf v8) (QTree.leaf v9) (QTree.leaf v10) (QTree.leaf v11)) (QTree.branch (QTree.leaf v12) (QTree.leaf v13) (QTree.leaf v14) (QTree.leaf v15))) ((0 : Int), (-1 : Int)))
      (liveNbrs (worldC 2 (QTree.branch (QTree.branch (QTree.leaf v0) (QTree.leaf v1) (QTree.leaf v2) (QTree.leaf v3)) (QTree.branch (QTree.leaf v4) (QTree.leaf v5) (QTree.leaf v6) (QTree.leaf v7)) (QTree.branch (QTree.leaf v8) (QTree.leaf v9) (QTree.leaf v10) (QTree.leaf v11)) (QTree.branch (QTree.leaf v12) (QTree.leaf v13) (QTree.leaf v14) (QTree.leaf v15)))) ((0 : Int), (-1 : Int)))
    rw [hw9]
    congr 1
    have hnb : neighbours ((0 : Int), (-1 : Int)) =
        [((-1 : Int), (-2 : Int)), ((-1 : Int), (-1 : Int)), ((-1 : Int), (0 : Int)), ((0 : Int), (-2 : Int)), ((0 : Int), (0 : Int)), ((1 : Int), (-2 : Int)), ((1 : Int), (-1 : Int)), ((1 : Int), (0 : Int))] := by
      unfold neighbours neighbourOffsets
      norm_num
    unfold liveNbrs
    rw [hnb]
    simp only [List.countP_cons, List.countP_nil, List.map_cons,
      List.map_nil, List.sum_cons, List.sum_nil, hw4, hw5, hw6, hw8, hw10, hw12, hw13, hw14]
    norm_num
    ring
  have hcell0 : QTree.aliveQ (QTree.l2leafQ
      (bmOf [v0, v1, v4, v5, v2, v3, v6, v7, v8, v9, v12, v13, v10, v11, v14, v15] >>> 0)) =
      lifeStep (worldC 2 (QTree.branch (QTree.branch (QTree.leaf v0) (QTree.leaf v1) (QTree.leaf v2) (QTree.leaf v3)) (QTree.branch (QTree.leaf v4) (QTree.leaf v5) (QTree.leaf v6) (QTree.leaf v7)) (QTree.branch (QTree.leaf v8) (QTree.leaf v9) (QTree.leaf v10) (QTree.leaf v11)) (QTree.branch (QTree.leaf v12) (QTree.leaf v13) (QTree.leaf v14) (QTree.leaf v15)))) ((0 : Int), (0 : Int)) := by
    rw [l2leafQ_lifeRule]
    show lifeRule ((bmOf [v0, v1, v4, v5, v2, v3, v6, v7, v8, v9, v12, v13, v10, v11, v14, v15] >>> 0).testBit 5)
      (Universe.countOnes ((bmOf [v0, v1, v4, v5, v2, v3, v6, v7, v8, v9, v12, v13, v10, v11, v14, v15] >>> 0) &&&
        0b011101010111)) = _
    rw [hC0, hX0, countOnes_bmOf_sum]
    show _ = lifeRule (worldC 2 (QTree.branch (QTree.branch (QTree.leaf v0) (QTree.leaf v1) (QTree.leaf v2) (QTree.leaf v3)) (QTree.branch (QTree.leaf v4) (QTree.leaf v5) (QTree.leaf v6) (QTree.leaf v7)) (QTree.branch (QTree.leaf v8) (QTree.leaf v9) (QTree.leaf v10) (QTree.leaf v11)) (QTree.branch (QTree.leaf v12) (QTree.leaf v13) (QTree.leaf v14) (QTree.leaf v15))) ((0 : Int), (0 : Int)))
      (liveNbrs (worldC 2 (QTree.branch (QTree.branch (QTree.leaf v0) (QTree.leaf v1) (QTree.leaf v2) (QTree.leaf v3)) (QTree.branch (QTree.leaf v4) (QTree.leaf v5) (QTree.leaf v6) (QTree.leaf v7)) (QTree.branch (QTree.leaf v8) (QTree.leaf v9) (QTree.leaf v10) (QTree.leaf v11)) (QTree.branch (QTree.leaf v12) (QTree.leaf v13) (QTree.leaf v14) (QTree.leaf v15)))) ((0 : Int), (0 : Int)))
    rw [hw10]
    congr 1
    have hnb : neighbours ((0 : Int), (0 : Int)) =
        [((-1 : Int), (-1 : Int)), ((-1 : Int), (0 : Int)), ((-1 : Int), (1 : Int)), ((0 : Int), (-1 : Int)), ((0 : Int), (1 : Int)), ((1 : Int), (-1 : Int)), ((1 : Int), (0 : Int)), ((1 : Int), (1 : Int))] := by
      unfold neighbours neighbourOffsets
      norm_num
    unfold liveNbrs
    rw [hnb]
    simp only [List.countP_cons, List.countP_nil, List.map_cons,
      List.map_nil, List.sum_cons, List.sum_nil, hw5, hw6, hw7, hw9, hw11, hw13, hw14, hw15]
    norm_num
    ring
  rw [stepQ_two, hmask]
  constructor
  · rw [show QTree.l2genQ (bmOf [v0, v1, v4, v5, v2, v3, v6, v7, v8, v9, v12, v13, v10, v11, v14, v15]) = QTree.branch
      (QTree.l2leafQ (bmOf [v0, v1, v4, v5, v2, v3, v6, v7, v8, v9, v12, v13, v10, v11, v14, v15] >>> 5)) (QTree.l2leafQ (bmOf [v0, v1, v4, v5, v2, v3, v6, v7, v8, v9, v12, v13, v10, v11, v14, v15] >>> 4))
      (QTree.l2leafQ (bmOf [v0, v1, v4, v5, v2, v3, v6, v7, v8, v9, v12, v13, v10, v11, v14, v15] >>> 1)) (QTree.l2leafQ (bmOf [v0, v1, v4, v5, v2, v3, v6, v7, v8, v9, v12, v13, v10, v11, v14, v15] >>> 0))
      from rfl]
    simp only [l2leafQ_lifeRule]
    rfl
  intro q
  obtain ⟨qy, qx⟩ := q
  by_cases hin : Sp 1 qy ∧ Sp 1 qx
  · have hspb : SpB 1 (qy, qx) = true := SpB_true hin.1 hin.2
    rcases Sp_one hin.1 with hy1 | hy1 <;> rcases Sp_one hin.2 with hx1 | hx1
    · subst hy1
      subst hx1
      rw [worldC_eq]
      rw [show SpB 1 (((-1 : Int)), ((-1 : Int))) = true from by decide]
      rw [show QTree.getQ (QTree.l2genQ (bmOf [v0, v1, v4, v5, v2, v3, v6, v7, v8, v9, v12, v13, v10, v11, v14, v15]))
          ⟨(-1 : Int), (-1 : Int), 1⟩ =
          QTree.l2leafQ (bmOf [v0, v1, v4, v5, v2, v3, v6, v7, v8, v9, v12, v13, v10, v11, v14, v15] >>> 5) from rfl]
      rw [Bool.true_and, hcell5]
      rw [Bool.true_and]
    · subst hy1
      subst hx1
      rw [worldC_eq]
      rw [show SpB 1 (((-1 : Int)), ((0 : Int))) = true from by decide]
      rw [show QTree.getQ (QTree.l2genQ (bmOf [v0, v1, v4, v5, v2, v3, v6, v7, v8, v9, v12, v13, v10, v11, v14, v15]))
          ⟨(-1 : Int), (0 : Int), 1⟩ =
          QTree.l2leafQ (bmOf [v0, v1, v4, v5, v2, v3, v6, v7, v8, v9, v12, v13, v10, v11, v14, v15] >>> 4) from rfl]
      rw [Bool.true_and, hcell4]
      rw [Bool.true_and]
    · subst hy1
      subst hx1
      rw [worldC_eq]
      rw [show SpB 1 (((0 : Int)), ((-1 : Int))) = true from by decide]
      rw [show QTree.getQ (QTree.l2genQ (bmOf [v0, v1, v4, v5, v2, v3, v6, v7, v8, v9, v12, v13, v10, v11, v14, v15]))
          ⟨(0 : Int), (-1 : Int), 1⟩ =
          QTree.l2leafQ (bmOf [v0, v1, v4, v5, v2, v3, v6, v7, v8, v9, v12, v13, v10, v11, v14, v15] >>> 1) from rfl]
      rw [Bool.true_and, hcell1]
      rw [Bool.true_and]
    · subst hy1
      subst hx1
      rw [worldC_eq]
      rw [show SpB 1 (((0 : Int)), ((0 : Int))) = true from by decide]
      rw [show QTree.getQ (QTree.l2genQ (bmOf [v0, v1, v4, v5, v2, v3, v6, v7, v8, v9, v12, v13, v10, v11, v14, v15]))
          ⟨(0 : Int), (0 : Int), 1⟩ =
          QTree.l2leafQ (bmOf [v0, v1, v4, v5, v2, v3, v6, v7, v8, v9, v12, v13, v10, v11, v14, v15] >>> 0) from rfl]
      rw [Bool.true_and, hcell0]
      rw [Bool.true_and]
  · rw [worldC_false hin, SpB_false hin, Bool.false_and]


theorem Sp_succ {z : Nat} {a : Int} (h : Sp z a) : Sp (z + 1) a := by
  cases z with
  | zero =>
    have h0 : a = 0 := h
    subst h0
    exact ⟨by norm_num, by norm_num⟩
  | succ m =>
    have h1 := Sp_elim h
    have h2 : ((2 : Int) ^ (m + 1)) = 2 ^ m * 2 := pow_succ 2 m
    have h3 : (0 : Int) < 2 ^ m := by positivity
    exact Sp_mk (by omega) (by omega)

theorem and_congr_r {a x y : Bool} (h : a = true → x = y) :
    (a && x) = (a && y) := by
  cases a
  · rfl
  · simp only [Bool.true_and]
    exact h rfl

theorem worldC_branch (A B C D : QTree) (m : Nat) (wy wx : Int)
    (hwy : Sp (m + 2) wy) (hwx : Sp (m + 2) wx) :
    worldC (m + 2) (QTree.branch A B C D) (wy, wx) =
      worldC (m + 1)
        (if wy < 0 then (if wx < 0 then A else B)
         else (if wx < 0 then C else D))
        (wy + (if wy < 0 then ((2 : Int) ^ m) else -((2 : Int) ^ m)),
         wx + (if wx < 0 then ((2 : Int) ^ m) else -((2 : Int) ^ m))) := by
  have hy2 := Sp_elim hwy
  have hx2 := Sp_elim hwx
  have hpm : (0 : Int) < 2 ^ m := by positivity
  have hpow : ((2 : Int) ^ (m + 1)) = 2 ^ m * 2 := pow_succ 2 m
  rcases lt_or_ge wy 0 with hy0 | hy0 <;>
    rcases lt_or_ge wx 0 with hx0 | hx0
  · simp only [if_pos hy0, if_pos hx0]
    have hd : (⟨wy, wx, m + 2⟩ : P3).descend =
        some (0, ⟨wy + 2 ^ m, wx + 2 ^ m, m + 1⟩) := by
      rw [descend_succ2]
      simp only [if_pos hy0, if_pos hx0]
    rw [worldC_eq, worldC_eq]
    rw [SpB_true hwy hwx, SpB_true (q := (wy + 2 ^ m, wx + 2 ^ m))
      (Sp_mk (by omega) (by omega)) (Sp_mk (by omega) (by omega))]
    rw [getQ_succ _ _ _ (m + 1) 0 _ hd rfl]
    rfl
  · simp only [if_pos hy0, if_neg (not_lt.mpr hx0)]
    have hd : (⟨wy, wx, m + 2⟩ : P3).descend =
        some (1, ⟨wy + 2 ^ m, wx + -(2 ^ m), m + 1⟩) := by
      rw [descend_succ2]
      simp only [if_pos hy0, if_neg (not_lt.mpr hx0)]
    rw [worldC_eq, worldC_eq]
    rw [SpB_true hwy hwx, SpB_true (q := (wy + 2 ^ m, wx + -(2 ^ m)))
      (Sp_mk (by omega) (by omega)) (Sp_mk (by omega) (by omega))]
    rw [getQ_succ _ _ _ (m + 1) 1 _ hd rfl]
    rfl
  · simp only [if_neg (not_lt.mpr hy0), if_pos hx0]
    have hd : (⟨wy, wx, m + 2⟩ : P3).descend =
        some (2, ⟨wy + -(2 ^ m), wx + 2 ^ m, m + 1⟩) := by
      rw [descend_succ2]
      simp only [if_neg (not_lt.mpr hy0), if_pos hx0]
    rw [worldC_eq, worldC_eq]
    rw [SpB_true hwy hwx, SpB_true (q := (wy + -(2 ^ m), wx + 2 ^ m))
      (Sp_mk (by omega) (by omega)) (Sp_mk (by omega) (by omega))]
    rw [getQ_succ _ _ _ (m + 1) 2 _ hd rfl]
    rfl
  · simp only [if_neg (not_lt.mpr hy0), if_neg (not_lt.mpr hx0)]
    have hd : (⟨wy, wx, m + 2⟩ : P3).descend =
        some (3, ⟨wy + -(2 ^ m), wx + -(2 ^ m), m + 1⟩) := by
      rw [descend_succ2]
      simp only [if_neg (not_lt.mpr hy0), if_neg (not_lt.mpr hx0)]
    rw [worldC_eq, worldC_eq]
    rw [SpB_true hwy hwx, SpB_true (q := (wy + -(2 ^ m), wx + -(2 ^ m)))
      (Sp_mk (by omega) (by omega)) (Sp_mk (by omega) (by omega))]
    rw [getQ_succ _ _ _ (m + 1) 3 _ hd rfl]
    rfl


/-- The empty store satisfies the invariant. -/
theorem WF_default : WF Universe.default := by
  refine ⟨rfl, ?_, ?_, ?_, ?_, ?_⟩
  · intro i a b c d h
    simp [Universe.default, List.get?] at h
  · intro t h
    constructor
    · intro hl
      simp [Universe.default, alookup] at hl
    · intro hg
      simp [Universe.default, List.get?] at hg
  · intro i hi
    simp [Universe.default] at hi
  · intro z hz
    simp [Universe.default] at hz
  · intro k r hk
    simp [Universe.default, alookup] at hk

/-- C5: the engine's depth-2 base case (`make_l2_bitmask` followed by
`l2_gen`) interns exactly the depth-1 node whose four leaves are obtained
from the row-major 16-bit bitmask by the shifts 5, 4, 1, 0, and whose
world, read back, is one synchronous B3/S23 Life generation of the four
centre cells of the 4×4 square. -/
theorem spec_c5 {u : Universe} (wf : WF u) {h : Nat}
    (hv : validAt u h 2) :
    validAt (u.l2_gen (u.make_l2_bitmask h)).1
      (u.l2_gen (u.make_l2_bitmask h)).2 1 ∧
    dnt (u.l2_gen (u.make_l2_bitmask h)).1
      (u.l2_gen (u.make_l2_bitmask h)).2 =
      QTree.l2genQ (u.make_l2_bitmask h) ∧
    ∀ q : Int × Int,
      worldC 1 (dnt (u.l2_gen (u.make_l2_bitmask h)).1
        (u.l2_gen (u.make_l2_bitmask h)).2) q =
      (SpB 1 q && lifeStep (worldC 2 (dnt u h)) q) := by
  obtain ⟨wf1, ext1, hva, hng, hdnt⟩ := l2_gen_spec wf (u.make_l2_bitmask h)
  refine ⟨hva, hdnt, ?_⟩
  intro q
  rw [hdnt, make_l2_bitmask_dnt wf hv]
  have hb := engine_base 2 (dnt u h) hv.2
  rw [← stepQ_two (dnt u h) 2]
  exact hb.2 q

/-- C5, applied to the interned all-dead depth-2 tree of the initial
store. -/
theorem spec_c5_witness :
    validAt ((Universe.default.empty_tree 2).1.l2_gen
        ((Universe.default.empty_tree 2).1.make_l2_bitmask
          (Universe.default.empty_tree 2).2)).1
      ((Universe.default.empty_tree 2).1.l2_gen
        ((Universe.default.empty_tree 2).1.make_l2_bitmask
          (Universe.default.empty_tree 2).2)).2 1 ∧
    dnt ((Universe.default.empty_tree 2).1.l2_gen
        ((Universe.default.empty_tree 2).1.make_l2_bitmask
          (Universe.default.empty_tree 2).2)).1
      ((Universe.default.empty_tree 2).1.l2_gen
        ((Universe.default.empty_tree 2).1.make_l2_bitmask
          (Universe.default.empty_tree 2).2)).2 =
      QTree.l2genQ ((Universe.default.empty_tree 2).1.make_l2_bitmask
        (Universe.default.empty_tree 2).2) ∧
    ∀ q : Int × Int,
      worldC 1 (dnt ((Universe.default.empty_tree 2).1.l2_gen
          ((Universe.default.empty_tree 2).1.make_l2_bitmask
            (Universe.default.empty_tree 2).2)).1
        ((Universe.default.empty_tree 2).1.l2_gen
          ((Universe.default.empty_tree 2).1.make_l2_bitmask
            (Universe.default.empty_tree 2).2)).2) q =
      (SpB 1 q && lifeStep (worldC 2 (dnt (Universe.default.empty_tree 2).1
        (Universe.default.empty_tree 2).2)) q) :=
  spec_c5 (empty_tree_spec WF_default 2).1
    (empty_tree_spec WF_default 2).2.2.2.1

end GoL
